import Mathlib

/-!
# lockbox: the secret-storage core

A shallow embedding of package `internal/secrets` (`encryption.go`, `model.go`,
`repository.go`, `service.go`) and of the handlers of
`internal/api/secrets/handlers.go` and of the hook of
`internal/logger/sanitize_hook.go`, together with the library functions they
call: `encoding/hex`, `crypto/sha256`, `crypto/aes`, the Galois/Counter Mode
of `crypto/cipher`, `io.ReadFull` on `crypto/rand`, `github.com/google/uuid`,
the statements `gorm` sends to the table of secrets, and the replacements of
`strings` and `regexp` the hook makes. The definitions come
first, the theorems about them follow.

Go values are modelled as follows.

* A `byte` is a `Fin 256`; a Go `string` and a `[]byte` are both a `List Byte`
  (a Go string is an arbitrary byte sequence, not necessarily UTF-8).
* A Go function returning `(T, error)` returns a pair `T × Option GoError`, so
  that the value handed back next to a non-nil error is visible.
* A run-time panic is an outcome of its own, `Outcome.panicked`.
* The random source `crypto/rand.Reader` is the list of bytes it is going to
  deliver; when the list runs out, the read fails.
* The database is the list of rows of table `secrets`, together with the
  failure, if any, of its connection; the clock is an argument `now`.
* The calls to the logger are not part of the functions; they are listed,
  with the calls to the repository, by the `events` of each function.
-/

namespace Lockbox

/-! ## Bytes and strings -/

/-- A Go `byte`. -/
abbrev Byte := Fin 256

/-- A Go `string`: an immutable sequence of bytes. -/
abbrev GoString := List Byte

/-- A Go `[]byte`. -/
abbrev Bytes := List Byte

/-- The bytes of a string literal (its UTF-8 encoding, as in Go source). -/
def goString (s : String) : GoString :=
  (s.toList.flatMap String.utf8EncodeChar).map (fun b => b.val)

/-! ## Errors and outcomes -/

/-- Go `error` values that occur in the package. An error made by
`fmt.Errorf(format, err)` with one `%v` verb carries its format string and
the error it was made from: its text is the format with `%v` replaced by the
text of the cause. -/
inductive GoError where
  /-- Value `hex.InvalidByteError(b)`. -/
  | hexInvalidByte (b : Byte)
  /-- Value `hex.ErrLength`: "encoding/hex: odd length hex string". -/
  | hexErrLength
  /-- Value `aes.KeySizeError(n)`. -/
  | aesKeySize (n : Nat)
  /-- The error of `cipher.NewGCM` for a block size other than 16. -/
  | gcmBlockSize
  /-- The error of `gcm.Open`: "cipher: message authentication failed". -/
  | errOpen
  /-- The random source could not deliver the requested bytes. -/
  | randRead
  /-- Value `gorm.ErrRecordNotFound`. -/
  | recordNotFound
  /-- The database rejected an insert: unique constraint `name` violated. -/
  | uniqueViolation (name : String)
  /-- Any other failure reported by the database driver. -/
  | storage (text : String)
  /-- The error of `uuid.Parse` for a string of an unexpected length. -/
  | uuidInvalidLength (n : Nat)
  /-- The error of `uuid.Parse`: "invalid UUID format". -/
  | uuidInvalidFormat
  /-- The error of `uuid.Parse` for a 45-character string not starting
  with `urn:uuid:`. -/
  | uuidInvalidUrnPrefix (found : List (Fin 256))
  /-- Value `fmt.Errorf(format, cause)`. -/
  | errorf (format : String) (cause : GoError)
  /-- Value `fmt.Errorf(format, arg, cause)` for a format with a `%s` verb,
  which takes the string `arg`, and then a `%v` verb, which takes `cause`. -/
  | errorf2 (format : String) (arg : List (Fin 256)) (cause : GoError)
  deriving DecidableEq, Repr

/-- What a call does: it returns a value or it panics. -/
inductive Outcome (α : Type) where
  | returned (a : α)
  | panicked (msg : String)
  deriving DecidableEq, Repr

/-! ## `encoding/hex` -/

/-- Constant `hextable` of `encoding/hex`: "0123456789abcdef". -/
def hextable : List Byte :=
  [48, 49, 50, 51, 52, 53, 54, 55, 56, 57, 97, 98, 99, 100, 101, 102]

/-- Function `hex.EncodeToString`: two characters per byte,
`hextable[v>>4]` then `hextable[v&0x0f]`. -/
def hexEncodeToString (src : Bytes) : GoString :=
  src.flatMap (fun v => [hextable.getD (v.val / 16) 0, hextable.getD (v.val % 16) 0])

/-- Function `fromHexChar` of `encoding/hex`: the value of a hexadecimal
digit, of either case. -/
def fromHexChar (c : Byte) : Option Nat :=
  if 48 ≤ c.val ∧ c.val ≤ 57 then some (c.val - 48)
  else if 97 ≤ c.val ∧ c.val ≤ 102 then some (c.val - 97 + 10)
  else if 65 ≤ c.val ∧ c.val ≤ 70 then some (c.val - 65 + 10)
  else none

/-- Function `hex.DecodeString`, as far as its caller looks at it: the decoded
bytes, or the first error met. Pairs are decoded left to right; an invalid
character is reported before an odd length. -/
def hexDecodeString : GoString → Except GoError Bytes
  | [] => .ok []
  | [p] =>
    match fromHexChar p with
    | none => .error (.hexInvalidByte p)
    | some _ => .error .hexErrLength
  | p :: q :: rest =>
    match fromHexChar p with
    | none => .error (.hexInvalidByte p)
    | some a =>
      match fromHexChar q with
      | none => .error (.hexInvalidByte q)
      | some b =>
        match hexDecodeString rest with
        | .error e => .error e
        | .ok bs => .ok (Fin.ofNat (a * 16 + b) :: bs)

/-! ## `crypto/sha256` (FIPS 180-4) -/

/-- Addition of 32-bit words. -/
def add32 (a b : Nat) : Nat := (a + b) % 2 ^ 32

/-- Rotation of a 32-bit word to the right by `n` bits. -/
def rotr32 (x n : Nat) : Nat := ((x >>> n) ||| (x <<< (32 - n))) % 2 ^ 32

/-- The round constants of SHA-256. -/
def sha256K : List Nat :=
  [0x428a2f98, 0x71374491, 0xb5c0fbcf, 0xe9b5dba5, 0x3956c25b, 0x59f111f1, 0x923f82a4, 0xab1c5ed5,
   0xd807aa98, 0x12835b01, 0x243185be, 0x550c7dc3, 0x72be5d74, 0x80deb1fe, 0x9bdc06a7, 0xc19bf174,
   0xe49b69c1, 0xefbe4786, 0x0fc19dc6, 0x240ca1cc, 0x2de92c6f, 0x4a7484aa, 0x5cb0a9dc, 0x76f988da,
   0x983e5152, 0xa831c66d, 0xb00327c8, 0xbf597fc7, 0xc6e00bf3, 0xd5a79147, 0x06ca6351, 0x14292967,
   0x27b70a85, 0x2e1b2138, 0x4d2c6dfc, 0x53380d13, 0x650a7354, 0x766a0abb, 0x81c2c92e, 0x92722c85,
   0xa2bfe8a1, 0xa81a664b, 0xc24b8b70, 0xc76c51a3, 0xd192e819, 0xd6990624, 0xf40e3585, 0x106aa070,
   0x19a4c116, 0x1e376c08, 0x2748774c, 0x34b0bcb5, 0x391c0cb3, 0x4ed8aa4a, 0x5b9cca4f, 0x682e6ff3,
   0x748f82ee, 0x78a5636f, 0x84c87814, 0x8cc70208, 0x90befffa, 0xa4506ceb, 0xbef9a3f7, 0xc67178f2]

/-- Big-endian bytes of `x`, `n` of them. -/
def beBytes : Nat → Nat → List Nat
  | 0, _ => []
  | n + 1, x => (x >>> (8 * n)) % 256 :: beBytes n x

/-- The number a byte sequence denotes, big-endian. -/
def beNat (bs : List Nat) : Nat := bs.foldl (fun acc b => acc * 256 + b) 0

/-- The message followed by the SHA-256 padding: a `0x80` byte, zero bytes up
to 56 modulo 64, and the bit length as a 64-bit big-endian number. -/
def sha256Pad (msg : List Nat) : List Nat :=
  msg ++ 128 :: (List.replicate ((119 - msg.length % 64) % 64) 0 ++ beBytes 8 (8 * msg.length % 2 ^ 64))

/-- The sixteen big-endian words of a 64-byte block. -/
def sha256Words (block : List Nat) : List Nat :=
  (List.range 16).map (fun i => beNat ((block.drop (4 * i)).take 4))

/-- The message schedule. The argument holds the sixteen latest words
`W[t-16], ..., W[t-1]`; the result is the schedule from `W[t-16]` on, with `n`
further words computed:
`W[t] = s1(W[t-2]) + W[t-7] + s0(W[t-15]) + W[t-16]`. -/
def sha256Schedule : Nat → List Nat → List Nat
  | 0, w => w
  | _ + 1, [] => []
  | n + 1, w16 :: rest =>
    let w2 := rest.getD 13 0
    let w7 := rest.getD 8 0
    let w15 := rest.getD 0 0
    let s0 := rotr32 w15 7 ^^^ rotr32 w15 18 ^^^ (w15 >>> 3)
    let s1 := rotr32 w2 17 ^^^ rotr32 w2 19 ^^^ (w2 >>> 10)
    w16 :: sha256Schedule n (rest ++ [add32 (add32 (add32 s1 w7) s0) w16])

/-- The eight working variables of SHA-256. -/
structure Sha256State where
  a : Nat
  b : Nat
  c : Nat
  d : Nat
  e : Nat
  f : Nat
  g : Nat
  h : Nat
  deriving DecidableEq, Repr

/-- One round of the compression function, with round constant plus
schedule word `kw`. -/
def sha256Round (s : Sha256State) (kw : Nat) : Sha256State :=
  let S1 := rotr32 s.e 6 ^^^ rotr32 s.e 11 ^^^ rotr32 s.e 25
  let ch := (s.e &&& s.f) ^^^ ((2 ^ 32 - 1 - s.e) &&& s.g)
  let t1 := add32 (add32 (add32 s.h S1) ch) kw
  let S0 := rotr32 s.a 2 ^^^ rotr32 s.a 13 ^^^ rotr32 s.a 22
  let maj := (s.a &&& s.b) ^^^ (s.a &&& s.c) ^^^ (s.b &&& s.c)
  let t2 := add32 S0 maj
  { a := add32 t1 t2, b := s.a, c := s.b, d := s.c, e := add32 s.d t1, f := s.e, g := s.f, h := s.g }

/-- The compression function: the state after one 64-byte block. -/
def sha256Block (s : Sha256State) (block : List Nat) : Sha256State :=
  let w := sha256Schedule 48 (sha256Words block)
  let r := (List.zipWith add32 sha256K w).foldl sha256Round s
  { a := add32 s.a r.a, b := add32 s.b r.b, c := add32 s.c r.c, d := add32 s.d r.d,
    e := add32 s.e r.e, f := add32 s.f r.f, g := add32 s.g r.g, h := add32 s.h r.h }

/-- The state after `n` blocks of `data`. -/
def sha256Blocks : Nat → Sha256State → List Nat → Sha256State
  | 0, s, _ => s
  | n + 1, s, data => sha256Blocks n (sha256Block s (data.take 64)) (data.drop 64)

/-- The initial hash value of SHA-256. -/
def sha256Init : Sha256State :=
  { a := 0x6a09e667, b := 0xbb67ae85, c := 0x3c6ef372, d := 0xa54ff53a,
    e := 0x510e527f, f := 0x9b05688c, g := 0x1f83d9ab, h := 0x5be0cd19 }

/-- Function `sha256.Sum256`: the 32-byte SHA-256 digest of `data`. -/
def sha256Sum256 (data : Bytes) : Bytes :=
  let padded := sha256Pad (data.map Fin.val)
  let s := sha256Blocks (padded.length / 64) sha256Init padded
  ([s.a, s.b, s.c, s.d, s.e, s.f, s.g, s.h].flatMap (beBytes 4)).map Fin.ofNat

/-! ## `crypto/aes` (FIPS 197) -/

/-- The AES S-box, row by row: row `r` holds the sixteen entries for the bytes
`16 * r` to `16 * r + 15`, the first entry leftmost. -/
def aesSbox : List Nat :=
  [0x637c777bf26b6fc53001672bfed7ab76,
   0xca82c97dfa5947f0add4a2af9ca472c0,
   0xb7fd9326363ff7cc34a5e5f171d83115,
   0x04c723c31896059a071280e2eb27b275,
   0x09832c1a1b6e5aa0523bd6b329e32f84,
   0x53d100ed20fcb15b6acbbe394a4c58cf,
   0xd0efaafb434d338545f9027f503c9fa8,
   0x51a3408f929d38f5bcb6da2110fff3d2,
   0xcd0c13ec5f974417c4a77e3d645d1973,
   0x60814fdc222a908846eeb814de5e0bdb,
   0xe0323a0a4906245cc2d3ac629195e479,
   0xe7c8376d8dd54ea96c56f4ea657aae08,
   0xba78252e1ca6b4c6e8dd741f4bbd8b8a,
   0x703eb5664803f60e613557b986c11d9e,
   0xe1f8981169d98e949b1e87e9ce5528df,
   0x8ca1890dbfe6426841992d0fb054bb16]

/-- S-box lookup: entry `b % 16` of row `b / 16`. -/
def aesSub (b : Nat) : Nat := (aesSbox.getD (b / 16) 0 >>> (8 * (15 - b % 16))) % 256

/-- Multiplication by `x` in the AES field. -/
def xtime (b : Nat) : Nat := if b < 128 then 2 * b else (2 * b % 256) ^^^ 0x1b

/-- The round constants of the AES key schedule. -/
def aesRcon : List Nat := [0x01, 0x02, 0x04, 0x08, 0x10, 0x20, 0x40, 0x80, 0x1b, 0x36]

/-- Byte-wise exclusive or of two byte sequences. -/
def xorNats (a b : List Nat) : List Nat := List.zipWith (fun x y => x ^^^ y) a b

/-- The key schedule: `n` further words (of four bytes each) appended to the
words `w` so far, for a key of `nk` words. -/
def aesExpand (nk : Nat) : Nat → List (List Nat) → List (List Nat)
  | 0, w => w
  | n + 1, w =>
    let i := w.length
    let prev := w.getD (i - 1) []
    let temp :=
      if i % nk = 0 then
        xorNats ((prev.rotateLeft 1).map aesSub) [aesRcon.getD (i / nk - 1) 0, 0, 0, 0]
      else if nk > 6 ∧ i % nk = 4 then prev.map aesSub
      else prev
    aesExpand nk n (w ++ [xorNats (w.getD (i - nk) []) temp])

/-- An AES cipher: the expanded key, as the round keys of sixteen bytes each,
eleven, thirteen or fifteen of them. -/
structure AesCipher where
  /-- The round keys, the key of the initial round first. -/
  enc : List (List Nat)
  deriving DecidableEq, Repr

/-- The round keys made of the words of the key schedule, four words each. -/
def aesRoundKeys : List (List Nat) → List (List Nat)
  | w0 :: w1 :: w2 :: w3 :: rest => (w0 ++ w1 ++ w2 ++ w3) :: aesRoundKeys rest
  | _ => []

/-- Function `newCipher` of `crypto/aes`: the cipher for a key of 16, 24 or
32 bytes, with its key expanded. -/
def newCipher (key : Bytes) : AesCipher :=
  let nk := key.length / 4
  let w0 := (List.range nk).map (fun i => ((key.map Fin.val).drop (4 * i)).take 4)
  { enc := aesRoundKeys (aesExpand nk (4 * (nk + 7) - nk) w0) }

/-- Function `aes.NewCipher`: the key must have 16, 24 or 32 bytes. -/
def aesNewCipher (key : Bytes) : Except GoError AesCipher :=
  if key.length = 16 ∨ key.length = 24 ∨ key.length = 32 then .ok (newCipher key)
  else .error (.aesKeySize key.length)

/-- Step `ShiftRows` on a state stored column by column: row `r` moves `r`
places to the left. -/
def aesShiftRows : List Nat → List Nat
  | [s0, s1, s2, s3, s4, s5, s6, s7, s8, s9, s10, s11, s12, s13, s14, s15] =>
    [s0, s5, s10, s15, s4, s9, s14, s3, s8, s13, s2, s7, s12, s1, s6, s11]
  | s => s

/-- Step `MixColumns`, column by column. -/
def aesMixColumns : List Nat → List Nat
  | a0 :: a1 :: a2 :: a3 :: rest =>
    (xtime a0 ^^^ (xtime a1 ^^^ a1) ^^^ a2 ^^^ a3) ::
    (a0 ^^^ xtime a1 ^^^ (xtime a2 ^^^ a2) ^^^ a3) ::
    (a0 ^^^ a1 ^^^ xtime a2 ^^^ (xtime a3 ^^^ a3)) ::
    ((xtime a0 ^^^ a0) ^^^ a1 ^^^ a2 ^^^ xtime a3) :: aesMixColumns rest
  | _ => []

/-- The rounds after the initial one, with the round keys still to be used:
every round but the last is `SubBytes`, `ShiftRows`, `MixColumns`,
`AddRoundKey`; the last one has no `MixColumns`. -/
def aesRounds : List (List Nat) → List Nat → List Nat
  | [], s => s
  | [k], s => xorNats (aesShiftRows (s.map aesSub)) k
  | k :: k' :: ks, s =>
    aesRounds (k' :: ks) (xorNats (aesMixColumns (aesShiftRows (s.map aesSub))) k)

/-- Method `Encrypt` of the AES block: the encryption of one 16-byte block,
as a 128-bit big-endian number to a 128-bit big-endian number. -/
def aesEncryptBlock (c : AesCipher) (block : Nat) : Nat :=
  match c.enc with
  | [] => block
  | k0 :: ks => beNat (aesRounds ks (xorNats (beBytes 16 block) k0))

/-! ## `crypto/cipher`: Galois/Counter Mode (NIST SP 800-38D) -/

/-- Constant `gcmBlockSize`. -/
def gcmBlockSize : Nat := 16

/-- Constant `gcmStandardNonceSize`. -/
def gcmStandardNonceSize : Nat := 12

/-- Constant `gcmTagSize`. -/
def gcmTagSize : Nat := 16

/-- The longest plaintext `Seal` accepts: `((1<<32)-2) * BlockSize` bytes. -/
def gcmMaxPlaintext : Nat := (2 ^ 32 - 2) * gcmBlockSize

/-- The AEAD returned by `cipher.NewGCM(block)`. -/
structure Gcm where
  /-- The underlying block cipher. -/
  cipher : AesCipher
  /-- The nonce size in bytes. -/
  nonceSize : Nat
  /-- The tag size in bytes. -/
  tagSize : Nat
  deriving DecidableEq, Repr

/-- Method `BlockSize` of an AES block: always 16. -/
def AesCipher.BlockSize (_c : AesCipher) : Nat := 16

/-- Function `cipher.NewGCM`: fails unless the block size is 16. -/
def cipherNewGCM (block : AesCipher) : Except GoError Gcm :=
  if block.BlockSize ≠ gcmBlockSize then .error .gcmBlockSize
  else .ok { cipher := block, nonceSize := gcmStandardNonceSize, tagSize := gcmTagSize }

/-- Method `NonceSize` of the AEAD. -/
def Gcm.NonceSize (g : Gcm) : Nat := g.nonceSize

/-- One step of the multiplication in GF(2^128): `v` times the indeterminate,
in the bit order of GCM (the leftmost bit is the constant coefficient). -/
def gfShift (v : Nat) : Nat :=
  if v % 2 = 0 then v >>> 1 else (v >>> 1) ^^^ (0xe1 <<< 120)

/-- The product of `x` and `v` in GF(2^128), consuming the bits of `x` from
the left, `n` of them remaining. -/
def gfMulAux (x : Nat) : Nat → Nat → Nat → Nat
  | 0, _, z => z
  | n + 1, v, z =>
    gfMulAux x n (gfShift v) (if (x >>> n) % 2 = 1 then z ^^^ v else z)

/-- Multiplication in GF(2^128). -/
def gfMul (x y : Nat) : Nat := gfMulAux x 128 y 0

/-- The 128-bit blocks of a byte sequence, the last one padded with zero
bytes; `n` blocks are taken. -/
def gcmBlocks : Nat → List Nat → List Nat
  | 0, _ => []
  | n + 1, data =>
    beNat ((data.take 16) ++ List.replicate (16 - (data.take 16).length) 0) :: gcmBlocks n (data.drop 16)

/-- Function `GHASH` with hash key `h`, applied to the blocks `xs` from the
state `y`. -/
def ghash (h : Nat) (y : Nat) (xs : List Nat) : Nat :=
  xs.foldl (fun acc x => gfMul (acc ^^^ x) h) y

/-- The counter block: the 12-byte nonce followed by a 32-bit counter. -/
def gcmCounterBlock (nonce : List Nat) (ctr : Nat) : Nat :=
  beNat nonce * 2 ^ 32 + ctr % 2 ^ 32

/-- The key stream of counter mode: `n` blocks, starting with counter `ctr`. -/
def gcmKeyStream (c : AesCipher) (nonce : List Nat) : Nat → Nat → List Nat
  | 0, _ => []
  | n + 1, ctr =>
    beBytes 16 (aesEncryptBlock c (gcmCounterBlock nonce ctr)) ++ gcmKeyStream c nonce n (ctr + 1)

/-- Counter mode: `data` xor the key stream that starts at counter 2. -/
def gcmCounterCrypt (c : AesCipher) (nonce : Bytes) (data : Bytes) : Bytes :=
  List.zipWith (fun d k => d ^^^ Fin.ofNat k) data
    (gcmKeyStream c (nonce.map Fin.val) ((data.length + 15) / 16) 2)

/-- The authentication tag of `ciphertext` under `nonce`, with no additional
data: GHASH over the ciphertext blocks and the length block, xor the
encryption of the first counter block. -/
def gcmAuth (c : AesCipher) (nonce : Bytes) (ciphertext : Bytes) : Bytes :=
  let h := aesEncryptBlock c 0
  let xs := gcmBlocks ((ciphertext.length + 15) / 16) (ciphertext.map Fin.val)
  let s := ghash h 0 (xs ++ [(8 * ciphertext.length) % 2 ^ 64])
  (beBytes 16 (s ^^^ aesEncryptBlock c (gcmCounterBlock (nonce.map Fin.val) 1))).map Fin.ofNat

/-- Method `Seal(dst, nonce, plaintext, nil)` of the AEAD: `dst` followed by
the ciphertext and the tag. It panics on a nonce of the wrong length and on a
plaintext longer than `gcmMaxPlaintext`. -/
def Gcm.Seal (g : Gcm) (dst nonce plaintext : Bytes) : Outcome Bytes :=
  if nonce.length ≠ g.nonceSize then
    .panicked "crypto/cipher: incorrect nonce length given to GCM"
  else if plaintext.length > gcmMaxPlaintext then
    .panicked "crypto/cipher: message too large for GCM"
  else
    let ciphertext := gcmCounterCrypt g.cipher nonce plaintext
    .returned (dst ++ ciphertext ++ gcmAuth g.cipher nonce ciphertext)

/-- Method `Open(nil, nonce, ciphertext, nil)` of the AEAD: the plaintext, or
`errOpen` when the input is too short, too long or does not carry the right
tag. It panics on a nonce of the wrong length. -/
def Gcm.Open (g : Gcm) (nonce ciphertext : Bytes) : Outcome (Bytes × Option GoError) :=
  if nonce.length ≠ g.nonceSize then
    .panicked "crypto/cipher: incorrect nonce length given to GCM"
  else if ciphertext.length < g.tagSize then .returned ([], some .errOpen)
  else if ciphertext.length > gcmMaxPlaintext + g.tagSize then .returned ([], some .errOpen)
  else
    let tag := ciphertext.drop (ciphertext.length - g.tagSize)
    let body := ciphertext.take (ciphertext.length - g.tagSize)
    if gcmAuth g.cipher nonce body ≠ tag then .returned ([], some .errOpen)
    else .returned (gcmCounterCrypt g.cipher nonce body, none)

/-! ## `io.ReadFull` on the random source -/

/-- Call `io.ReadFull(rand.Reader, buf)` with `len(buf) = n`, on a source that
is going to deliver the bytes `rand`: the first `n` bytes, or an error when the
source delivers fewer. -/
def ioReadFull (rand : Bytes) (n : Nat) : Except GoError Bytes :=
  if rand.length < n then .error .randRead else .ok (rand.take n)

/-! ## `internal/secrets/encryption.go` -/

/-- Function `createHash`: the SHA-256 digest of the master key. -/
def createHash (key : GoString) : Bytes :=
  sha256Sum256 key

/-- Function `Encrypt`. The argument `rand` is what the random source
delivers to this call. -/
def Encrypt (plainText masterKey : GoString) (rand : Bytes) : Outcome (GoString × Option GoError) :=
  match aesNewCipher (createHash masterKey) with
  | .error err => .returned ([], some (.errorf "failed to create cipher: %v" err))
  | .ok block =>
    match cipherNewGCM block with
    | .error err => .returned ([], some (.errorf "failed to create GCM: %v" err))
    | .ok aesGCM =>
      match ioReadFull rand aesGCM.NonceSize with
      | .error err => .returned ([], some (.errorf "failed to generate nonce: %v" err))
      | .ok nonce =>
        match aesGCM.Seal nonce nonce plainText with
        | .panicked msg => .panicked msg
        | .returned encryptedSecret => .returned (hexEncodeToString encryptedSecret, none)

/-- Function `Decrypt`. The two slice expressions
`encryptedSecret[:nonceSize], encryptedSecret[nonceSize:]` panic when the
decoded blob has fewer than `nonceSize` bytes: the second one always does
then, whatever the capacity of the slice. -/
def Decrypt (encryptedSecretHex masterKey : GoString) : Outcome (GoString × Option GoError) :=
  match hexDecodeString encryptedSecretHex with
  | .error err => .returned ([], some (.errorf "failed to decode encrypted secret: %v" err))
  | .ok encryptedSecret =>
    match aesNewCipher (createHash masterKey) with
    | .error err => .returned ([], some (.errorf "failed to create cipher: %v" err))
    | .ok block =>
      match cipherNewGCM block with
      | .error err => .returned ([], some (.errorf "failed to create GCM: %v" err))
      | .ok aesGCM =>
        let nonceSize := aesGCM.NonceSize
        if encryptedSecret.length < nonceSize then
          .panicked "runtime error: slice bounds out of range"
        else
          let nonce := encryptedSecret.take nonceSize
          let cipherText := encryptedSecret.drop nonceSize
          match aesGCM.Open nonce cipherText with
          | .panicked msg => .panicked msg
          | .returned (_, some err) =>
            .returned ([], some (.errorf "failed to decrypt secret: %v" err))
          | .returned (decryptedSecret, none) => .returned (decryptedSecret, none)

/-! ## `github.com/google/uuid` -/

/-- A `uuid.UUID`: an array of sixteen bytes. -/
structure UUID where
  /-- The sixteen bytes. -/
  bytes : List Byte
  /-- There are sixteen of them. -/
  size : bytes.length = 16
  deriving DecidableEq, Repr

/-- Value `uuid.Nil`: sixteen zero bytes. -/
def UUID.Nil : UUID := ⟨List.replicate 16 0, rfl⟩

/-- Function `uuid.NewRandom`: sixteen bytes from the random source, with the
version set to 4 and the variant to RFC 4122. -/
def uuidNewRandom (rand : Bytes) : UUID × Option GoError :=
  if h : rand.length < 16 then (UUID.Nil, some .randRead)
  else
    let u := rand.take 16
    let u6 := u.set 6 (Fin.ofNat ((u.getD 6 0).val % 16 + 64))
    let u8 := u6.set 8 (Fin.ofNat ((u6.getD 8 0).val % 64 + 128))
    (⟨u8, by simp [u8, u6, u]; omega⟩, none)

/-- Function `uuid.New`: as `uuid.NewRandom`, but it panics on an error. -/
def uuidNew (rand : Bytes) : Outcome UUID :=
  match uuidNewRandom rand with
  | (_, some _) => .panicked "uuid: random source failed"
  | (u, none) => .returned u

/-- Method `UUID.String`: the form `xxxxxxxx-xxxx-xxxx-xxxx-xxxxxxxxxxxx`, in
lower case. -/
def UUID.String (u : UUID) : GoString :=
  hexEncodeToString (u.bytes.take 4) ++ 45 :: (hexEncodeToString ((u.bytes.drop 4).take 2) ++ 45 ::
    (hexEncodeToString ((u.bytes.drop 6).take 2) ++ 45 ::
      (hexEncodeToString ((u.bytes.drop 8).take 2) ++ 45 :: hexEncodeToString (u.bytes.drop 10))))

/-- Function `xtob` of the uuid package: the byte two hexadecimal digits
denote. -/
def xtob (x1 x2 : Byte) : Option Byte :=
  match fromHexChar x1, fromHexChar x2 with
  | some a, some b => some (Fin.ofNat (a * 16 + b))
  | _, _ => none

/-- The bytes the pairs of hexadecimal digits of `s` at the positions `pos`
denote, if all are digits. -/
def xtobAll (s : GoString) : List Nat → Option (List Byte)
  | [] => some []
  | x :: pos =>
    match xtob (s.getD x 0) (s.getD (x + 1) 0), xtobAll s pos with
    | some b, some bs => some (b :: bs)
    | _, _ => none

/-- ASCII lower case of a byte. -/
def asciiLower (c : Byte) : Byte :=
  if 65 ≤ c.val ∧ c.val ≤ 90 then Fin.ofNat (c.val + 32) else c

/-- Function `uuid.Parse`: the UUID a string denotes. It accepts the
36-character form, that form after `urn:uuid:` (in any case) and between two
arbitrary characters, and 32 hexadecimal digits. The sixteen positions read
always give sixteen bytes. -/
def uuidParse (s : GoString) : Except GoError UUID :=
  let body (t : GoString) : Except GoError UUID :=
    if t.getD 8 0 ≠ 45 ∨ t.getD 13 0 ≠ 45 ∨ t.getD 18 0 ≠ 45 ∨ t.getD 23 0 ≠ 45 then
      .error .uuidInvalidFormat
    else
      match xtobAll t [0, 2, 4, 6, 9, 11, 14, 16, 19, 21, 24, 26, 28, 30, 32, 34] with
      | none => .error .uuidInvalidFormat
      | some bs => if h : bs.length = 16 then .ok ⟨bs, h⟩ else .error .uuidInvalidFormat
  if s.length = 36 then body s
  else if s.length = 36 + 9 then
    if (s.take 9).map asciiLower ≠ [117, 114, 110, 58, 117, 117, 105, 100, 58] then
      .error (.uuidInvalidUrnPrefix (s.take 9))
    else body (s.drop 9)
  else if s.length = 36 + 2 then body (s.drop 1)
  else if s.length = 32 then
    match xtobAll s [0, 2, 4, 6, 8, 10, 12, 14, 16, 18, 20, 22, 24, 26, 28, 30] with
    | none => .error .uuidInvalidFormat
    | some bs => if h : bs.length = 16 then .ok ⟨bs, h⟩ else .error .uuidInvalidFormat
  else .error (.uuidInvalidLength s.length)

/-! ## `internal/secrets/model.go` -/

/-- A `time.Time`, as a number of clock ticks; 0 is the zero time. -/
abbrev Time := Nat

/-- The model `Secret`. -/
structure Secret where
  ID : UUID
  Key : GoString
  EncryptedValue : GoString
  CreatedAt : Time
  UpdatedAt : Time
  deriving DecidableEq, Repr

/-- The zero value `Secret{}`. -/
def Secret.zero : Secret :=
  { ID := UUID.Nil, Key := [], EncryptedValue := [], CreatedAt := 0, UpdatedAt := 0 }

/-- Function `CreateSecretModel`. It returns a pointer and an error: `none`
is the nil pointer. The random source first serves `Encrypt`, which takes
the twelve bytes of the nonce, then `uuid.New`. -/
def CreateSecretModel (key plainTextSecret masterKey : GoString) (rand : Bytes) :
    Outcome (Option Secret × Option GoError) :=
  match Encrypt plainTextSecret masterKey rand with
  | .panicked msg => .panicked msg
  | .returned (_, some err) =>
    .returned (none, some (.errorf "failed to encrypt secret: %v" err))
  | .returned (encryptedValue, none) =>
    match uuidNew (rand.drop gcmStandardNonceSize) with
    | .panicked msg => .panicked msg
    | .returned id =>
      .returned (some { ID := id, Key := key, EncryptedValue := encryptedValue,
                        CreatedAt := 0, UpdatedAt := 0 }, none)

/-! ## `internal/secrets/repository.go` over a table of secrets -/

/-- The database behind `gorm.DB`: the rows of table `secrets`, and the
failure, if any, with which the connection answers every statement. -/
structure DB where
  /-- The rows, in the order of insertion. -/
  rows : List Secret
  /-- A broken connection answers every statement with this error. -/
  fault : Option GoError
  deriving DecidableEq, Repr

/-- Method `repository.Save`: `db.Create(secret)`. The insert fills the two
timestamps that are still zero, and is rejected when a row has the same `ID`
(primary key) or the same `Key` (unique index). It returns the new table, the
secret as written back through the pointer, and the error. -/
def repository.Save (db : DB) (now : Time) (secret : Secret) : DB × Secret × Option GoError :=
  let s : Secret :=
    { secret with
      CreatedAt := if secret.CreatedAt = 0 then now else secret.CreatedAt
      UpdatedAt := if secret.UpdatedAt = 0 then now else secret.UpdatedAt }
  match db.fault with
  | some e => (db, s, some e)
  | none =>
    if db.rows.any (fun r => r.ID = s.ID) then (db, s, some (.uniqueViolation "secrets_pkey"))
    else if db.rows.any (fun r => r.Key = s.Key) then (db, s, some (.uniqueViolation "secrets_key"))
    else ({ db with rows := db.rows ++ [s] }, s, none)

/-- Method `repository.GetByID`: `db.First(&secret, "id = ?", secretID)`. -/
def repository.GetByID (db : DB) (secretID : UUID) : Option Secret × Option GoError :=
  match db.fault with
  | some e => (none, some e)
  | none =>
    match db.rows.find? (fun r => r.ID = secretID) with
    | none => (none, some .recordNotFound)
    | some r => (some r, none)

/-- Method `repository.GetByKey`: `db.First(&secret, "key = ?", key)`. -/
def repository.GetByKey (db : DB) (key : GoString) : Option Secret × Option GoError :=
  match db.fault with
  | some e => (none, some e)
  | none =>
    match db.rows.find? (fun r => r.Key = key) with
    | none => (none, some .recordNotFound)
    | some r => (some r, none)

/-- Method `repository.Update`:
`db.Model(&Secret{}).Where("id = ?", secretID).Update("encrypted_value", newValue)`.
Every row with that id gets the new value and the update time; a statement
that matches no row is not an error. -/
def repository.Update (db : DB) (now : Time) (secretID : UUID) (newValue : GoString) :
    DB × Option GoError :=
  match db.fault with
  | some e => (db, some e)
  | none =>
    ({ db with rows := db.rows.map (fun r =>
        if r.ID = secretID then { r with EncryptedValue := newValue, UpdatedAt := now } else r) },
      none)

/-- Method `repository.Delete`: `db.Delete(&Secret{}, "id = ?", secretID)`.
A statement that matches no row is not an error. -/
def repository.Delete (db : DB) (secretID : UUID) : DB × Option GoError :=
  match db.fault with
  | some e => (db, some e)
  | none => ({ db with rows := db.rows.filter (fun r => r.ID ≠ secretID) }, none)

/-! ## `internal/secrets/service.go` -/

/-- Method `service.CreateSecret`: the id and key returned, the error, and
the table afterwards. -/
def service.CreateSecret (db : DB) (now : Time) (key plainTextSecret masterKey : GoString)
    (rand : Bytes) : Outcome ((GoString × GoString × Option GoError) × DB) :=
  match CreateSecretModel key plainTextSecret masterKey rand with
  | .panicked msg => .panicked msg
  | .returned (_, some err) =>
    .returned (([], [], some (.errorf "failed to create secret: %v" err)), db)
  | .returned (none, none) => .panicked "runtime error: invalid memory address or nil pointer dereference"
  | .returned (some secret, none) =>
    match repository.Save db now secret with
    | (db', _, some err) =>
      .returned (([], [], some (.errorf "failed to store secret in the database: %v" err)), db')
    | (db', saved, none) => .returned ((saved.ID.String, saved.Key, none), db')

/-- Method `service.DecryptSecret`. -/
def service.DecryptSecret (secret : Secret) (masterKey : GoString) :
    Outcome (GoString × Option GoError) :=
  match Decrypt secret.EncryptedValue masterKey with
  | .panicked msg => .panicked msg
  | .returned (_, some err) => .returned ([], some (.errorf "failed to decrypt secret: %v" err))
  | .returned (decryptedValue, none) => .returned (decryptedValue, none)

/-- Method `service.UpdateSecret`: the error, and the table afterwards. -/
def service.UpdateSecret (db : DB) (now : Time) (secretID plainTextSecret masterKey : GoString)
    (rand : Bytes) : Outcome (Option GoError × DB) :=
  match uuidParse secretID with
  | .error err => .returned (some (.errorf "invalid UUID format: %v" err), db)
  | .ok parserSecretID =>
    match Encrypt plainTextSecret masterKey rand with
    | .panicked msg => .panicked msg
    | .returned (_, some err) => .returned (some (.errorf "failed to encrypt secret: %v" err), db)
    | .returned (encryptedValue, none) =>
      match repository.Update db now parserSecretID encryptedValue with
      | (db', some err) => .returned (some (.errorf "failed to update secret: %v" err), db')
      | (db', none) => .returned (none, db')

/-- Method `service.GetEncryptedSecretByID`: a pointer to a record and the
error. The pointer is never nil: on an error it points to a fresh zero
`Secret`. The verb `%s` prints the parsed identifier in its canonical form. -/
def service.GetEncryptedSecretByID (db : DB) (secretID : GoString) :
    Option Secret × Option GoError :=
  match uuidParse secretID with
  | .error err => (some Secret.zero, some (.errorf "invalid UUID format: %v" err))
  | .ok parserSecretID =>
    match repository.GetByID db parserSecretID with
    | (_, some err) =>
      (some Secret.zero,
        some (.errorf2 "failed to retrieve secret by ID '%s': %v" parserSecretID.String err))
    | (secret, none) => (secret, none)

/-- Method `service.GetEncryptedSecretByKey`. -/
def service.GetEncryptedSecretByKey (db : DB) (key : GoString) :
    Option Secret × Option GoError :=
  match repository.GetByKey db key with
  | (_, some err) =>
    (some Secret.zero, some (.errorf2 "failed to retrieve secret by key '%s': %v" key err))
  | (secret, none) => (secret, none)

/-- Method `service.DeleteSecret`: the error, and the table afterwards. -/
def service.DeleteSecret (db : DB) (secretID : GoString) : Option GoError × DB :=
  match uuidParse secretID with
  | .error err => (some (.errorf "invalid UUID format: %v" err), db)
  | .ok parserSecretID =>
    match repository.Delete db parserSecretID with
    | (db', some err) => (some (.errorf "failed to delete secret by ID: %v" err), db')
    | (db', none) => (none, db')

/-! ## `internal/api/secrets/handlers.go` -/

/-- A lookup a handler asks of `SecretsService`. -/
inductive ServiceCall where
  /-- Call `SecretsService.GetEncryptedSecretByID(secretID)`. -/
  | GetEncryptedSecretByID (secretID : GoString)
  /-- Call `SecretsService.GetEncryptedSecretByKey(key)`. -/
  | GetEncryptedSecretByKey (key : GoString)
  deriving DecidableEq, Repr

/-- Function `getSecretFromQuery`: the lookups it asks of `SecretsService`, in
the order of the calls, the pointer and the error it returns. The `switch` has
no default case: were `queryType` neither string, the nil pointer and the error
of `uuid.Parse` would be returned. -/
def getSecretFromQuery (db : DB) (query : GoString) :
    List ServiceCall × Option Secret × Option GoError :=
  let parsed := uuidParse query
  let queryType : String :=
    match parsed with
    | .ok _ => "uuid"
    | .error _ => "key"
  if queryType = "uuid" then
    ([.GetEncryptedSecretByID query], service.GetEncryptedSecretByID db query)
  else if queryType = "key" then
    ([.GetEncryptedSecretByKey query], service.GetEncryptedSecretByKey db query)
  else
    ([], none, match parsed with
      | .ok _ => none
      | .error err => some err)

/-- The value a handler passes to `utils.WriteJSONResponse`. -/
inductive ResponseBody where
  /-- Value `map[string]string{"error": text}`. -/
  | error (text : String)
  /-- Value `map[string]string{"message": text}`. -/
  | message (text : String)
  /-- Presenter `SecretResponseUUID{ID: id, Key: key}`. -/
  | secretUUID (id key : GoString)
  /-- Presenter `SecretResponsePlain{Key: key, Value: value}`. -/
  | secretPlain (key value : GoString)
  deriving DecidableEq, Repr

/-- What a handler writes: the status code and the body. -/
structure Response where
  /-- The HTTP status code. -/
  status : Nat
  /-- The value encoded as JSON. -/
  body : ResponseBody
  deriving DecidableEq, Repr

/-- Handler `CreateSecret`. Argument `body` is what `json.Decode` makes of the
request body: `none` when it fails, else the fields `secret_key` and
`secret_value`; both are `required`, that is, not empty. Argument
`masterCryptoPass` is the environment variable `MASTER_CRYPTO_PASS`. -/
def handlers.CreateSecret (db : DB) (now : Time) (body : Option (GoString × GoString))
    (masterCryptoPass : GoString) (rand : Bytes) : Outcome (Response × DB) :=
  match body with
  | none => .returned (⟨400, .error "Invalid request body"⟩, db)
  | some (secretKey, secretValue) =>
    if secretKey = [] ∨ secretValue = [] then
      .returned (⟨400, .error "Invalid request body"⟩, db)
    else
      match service.CreateSecret db now secretKey secretValue masterCryptoPass rand with
      | .panicked msg => .panicked msg
      | .returned ((_, _, some _), db') =>
        .returned (⟨500, .error "Failed to create secret"⟩, db')
      | .returned ((secretID, secretKey, none), db') =>
        .returned (⟨201, .secretUUID secretID secretKey⟩, db')

/-- Handler `UpdateSecret`. Argument `query` is the path variable, `body` what
`json.Decode` makes of the request body: `none` when it fails, else the field
`secret_value`, which is `required`. -/
def handlers.UpdateSecret (db : DB) (now : Time) (query : GoString) (body : Option GoString)
    (masterCryptoPass : GoString) (rand : Bytes) : Outcome (Response × DB) :=
  if query = [] then .returned (⟨400, .error "Missing query in request URL"⟩, db)
  else
    match body with
    | none => .returned (⟨400, .error "Invalid request body"⟩, db)
    | some newSecretValue =>
      if newSecretValue = [] then .returned (⟨400, .error "Invalid request body"⟩, db)
      else
        match (getSecretFromQuery db query).2 with
        | (_, some _) => .returned (⟨404, .error "Secret not found"⟩, db)
        | (none, none) =>
          .panicked "runtime error: invalid memory address or nil pointer dereference"
        | (some secret, none) =>
          match service.UpdateSecret db now secret.ID.String newSecretValue masterCryptoPass
              rand with
          | .panicked msg => .panicked msg
          | .returned (some _, db') =>
            .returned (⟨500, .error "Failed to update secret"⟩, db')
          | .returned (none, db') =>
            .returned (⟨200, .message "Secret updated successfully"⟩, db')

/-- Handler `DeleteSecret`. Argument `query` is the path variable. -/
def handlers.DeleteSecret (db : DB) (query : GoString) : Outcome (Response × DB) :=
  if query = [] then .returned (⟨400, .error "Missing query in request URL"⟩, db)
  else
    match (getSecretFromQuery db query).2 with
    | (_, some _) => .returned (⟨404, .error "Secret not found"⟩, db)
    | (none, none) =>
      .panicked "runtime error: invalid memory address or nil pointer dereference"
    | (some secret, none) =>
      match service.DeleteSecret db secret.ID.String with
      | (some _, db') => .returned (⟨500, .error "Failed to delete secret"⟩, db')
      | (none, db') => .returned (⟨200, .message "Secret deleted successfully"⟩, db')

/-- Handler `GetSecretByQuery`. Argument `query` is the path variable. It
writes a response and leaves the table alone. -/
def handlers.GetSecretByQuery (db : DB) (query masterCryptoPass : GoString) : Outcome Response :=
  if query = [] then .returned ⟨400, .error "Missing query in request URL"⟩
  else
    match (getSecretFromQuery db query).2 with
    | (_, some _) => .returned ⟨404, .error "Secret not found"⟩
    | (none, none) =>
      .panicked "runtime error: invalid memory address or nil pointer dereference"
    | (some secret, none) =>
      match service.DecryptSecret secret masterCryptoPass with
      | .panicked msg => .panicked msg
      | .returned (_, some _) => .returned ⟨500, .error "Something went wrong"⟩
      | .returned (decryptedSecret, none) =>
        .returned ⟨200, .secretPlain secret.Key decryptedSecret⟩

/-! ## The calls to the logger and to the repository

What a call of a function of the package passes to `global.Logger` and asks of
the repository, in the order of the calls. A call that panics leaves the events
that precede the panic. -/

/-- The level of a log entry: `Logger.Error` or `Logger.Debug`. -/
inductive LogLevel where
  | error
  | debug
  deriving DecidableEq, Repr

/-- A method of `Repository` called with its arguments. -/
inductive RepoCall where
  /-- Call `repo.Save(secret)`. -/
  | Save (secret : Secret)
  /-- Call `repo.GetByID(secretID)`. -/
  | GetByID (secretID : UUID)
  /-- Call `repo.GetByKey(key)`. -/
  | GetByKey (key : GoString)
  /-- Call `repo.Update(secretID, newValue)`. -/
  | Update (secretID : UUID) (newValue : GoString)
  /-- Call `repo.Delete(secretID)`. -/
  | Delete (secretID : UUID)
  deriving DecidableEq, Repr

/-- An event of a call: a message handed to the logger, which is the text of
an error, or a call of the repository. -/
inductive Event where
  /-- Call `global.Logger.Error(err)` or `global.Logger.Debug(err)`. -/
  | log (level : LogLevel) (err : GoError)
  /-- A call of a method of the repository. -/
  | repo (call : RepoCall)
  deriving DecidableEq, Repr

/-- The events of `Encrypt`. -/
def Encrypt.events (_plainText masterKey : GoString) (rand : Bytes) : List Event :=
  match aesNewCipher (createHash masterKey) with
  | .error err => [.log .error (.errorf "failed to create cipher: %v" err)]
  | .ok block =>
    match cipherNewGCM block with
    | .error err => [.log .error (.errorf "failed to create GCM: %v" err)]
    | .ok aesGCM =>
      match ioReadFull rand aesGCM.NonceSize with
      | .error err => [.log .error (.errorf "failed to generate nonce: %v" err)]
      | .ok _ => []

/-- The events of `Decrypt`. -/
def Decrypt.events (encryptedSecretHex masterKey : GoString) : List Event :=
  match hexDecodeString encryptedSecretHex with
  | .error err => [.log .error (.errorf "failed to decode encrypted secret: %v" err)]
  | .ok encryptedSecret =>
    match aesNewCipher (createHash masterKey) with
    | .error err => [.log .error (.errorf "failed to create cipher: %v" err)]
    | .ok block =>
      match cipherNewGCM block with
      | .error err => [.log .error (.errorf "failed to create GCM: %v" err)]
      | .ok aesGCM =>
        let nonceSize := aesGCM.NonceSize
        if encryptedSecret.length < nonceSize then []
        else
          match aesGCM.Open (encryptedSecret.take nonceSize) (encryptedSecret.drop nonceSize) with
          | .panicked _ => []
          | .returned (_, some err) => [.log .error (.errorf "failed to decrypt secret: %v" err)]
          | .returned (_, none) => []

/-- The events of `CreateSecretModel`. -/
def CreateSecretModel.events (_key plainTextSecret masterKey : GoString) (rand : Bytes) :
    List Event :=
  Encrypt.events plainTextSecret masterKey rand ++
    match Encrypt plainTextSecret masterKey rand with
    | .returned (_, some err) => [.log .error (.errorf "failed to encrypt secret: %v" err)]
    | _ => []

/-- The events of `service.CreateSecret`. -/
def service.CreateSecret.events (db : DB) (now : Time) (key plainTextSecret masterKey : GoString)
    (rand : Bytes) : List Event :=
  CreateSecretModel.events key plainTextSecret masterKey rand ++
    match CreateSecretModel key plainTextSecret masterKey rand with
    | .panicked _ => []
    | .returned (_, some err) => [.log .error (.errorf "failed to create secret: %v" err)]
    | .returned (none, none) => []
    | .returned (some secret, none) =>
      .repo (.Save secret) ::
        match repository.Save db now secret with
        | (_, _, some err) =>
          [.log .error (.errorf "failed to store secret in the database: %v" err)]
        | (_, _, none) => []

/-- The events of `service.GetEncryptedSecretByID`. -/
def service.GetEncryptedSecretByID.events (db : DB) (secretID : GoString) : List Event :=
  match uuidParse secretID with
  | .error err => [.log .error (.errorf "invalid UUID format: %v" err)]
  | .ok parserSecretID =>
    .repo (.GetByID parserSecretID) ::
      match repository.GetByID db parserSecretID with
      | (_, some err) =>
        [.log .debug
          (.errorf2 "failed to retrieve secret by ID '%s': %v" parserSecretID.String err)]
      | (_, none) => []

/-- The events of `service.GetEncryptedSecretByKey`. -/
def service.GetEncryptedSecretByKey.events (db : DB) (key : GoString) : List Event :=
  .repo (.GetByKey key) ::
    match repository.GetByKey db key with
    | (_, some err) =>
      [.log .debug (.errorf2 "failed to retrieve secret by key '%s': %v" key err)]
    | (_, none) => []

/-- The events of `service.DecryptSecret`. -/
def service.DecryptSecret.events (secret : Secret) (masterKey : GoString) : List Event :=
  Decrypt.events secret.EncryptedValue masterKey ++
    match Decrypt secret.EncryptedValue masterKey with
    | .returned (_, some err) => [.log .error (.errorf "failed to decrypt secret: %v" err)]
    | _ => []

/-- The events of `service.UpdateSecret`. -/
def service.UpdateSecret.events (db : DB) (now : Time)
    (secretID plainTextSecret masterKey : GoString) (rand : Bytes) : List Event :=
  match uuidParse secretID with
  | .error err => [.log .error (.errorf "invalid UUID format: %v" err)]
  | .ok parserSecretID =>
    Encrypt.events plainTextSecret masterKey rand ++
      match Encrypt plainTextSecret masterKey rand with
      | .panicked _ => []
      | .returned (_, some err) => [.log .error (.errorf "failed to encrypt secret: %v" err)]
      | .returned (encryptedValue, none) =>
        .repo (.Update parserSecretID encryptedValue) ::
          match repository.Update db now parserSecretID encryptedValue with
          | (_, some err) => [.log .error (.errorf "failed to update secret: %v" err)]
          | (_, none) => []

/-- The events of `service.DeleteSecret`. -/
def service.DeleteSecret.events (db : DB) (secretID : GoString) : List Event :=
  match uuidParse secretID with
  | .error err => [.log .error (.errorf "invalid UUID format: %v" err)]
  | .ok parserSecretID =>
    .repo (.Delete parserSecretID) ::
      match repository.Delete db parserSecretID with
      | (_, some err) => [.log .error (.errorf "failed to delete secret by ID: %v" err)]
      | (_, none) => []

/-! ## `internal/logger/sanitize_hook.go` -/

/-- Function `strings.ReplaceAll(s, old, new)` for an `old` of one byte. -/
def stringsReplaceAll (s : GoString) (old : Byte) (new : GoString) : GoString :=
  s.flatMap (fun c => if c = old then new else [c])

/-- Class `\s` of the syntax of `regexp`: tab, newline, form feed, carriage
return and space. -/
def isSpace (c : Byte) : Bool := c = 9 || c = 10 || c = 12 || c = 13 || c = 32

/-- What a letter of a pattern under the flag `(?i)` matches: the letter in
lower and in upper case and, for `k` and `s`, the runes that fold to them,
U+212A (Kelvin sign) and U+017F (long s), in UTF-8. -/
def foldLetter (c : Byte) : List Bytes :=
  [[c], [Fin.ofNat (c.val - 32)]] ++
    (if c = 107 then [[226, 132, 170]] else if c = 115 then [[197, 191]] else [])

/-- The label of a pattern: its items in sequence, each item a list of byte
strings of which one has to come next. -/
abbrev Label := List (List Bytes)

/-- The label made of the letters of a word, each under `(?i)`. -/
def labelOf (word : String) : Label := (goString word).map foldLetter

/-- The labels of `sensitivePatterns`, in the order of the slice: `password`,
`token`, `api[-_]?key`, `master`, `key` and `secret`. The pattern of a label is
`(?i)(label\s*=\s*)([^\s]+)`. -/
def sensitivePatterns : List Label :=
  [labelOf "password", labelOf "token",
   labelOf "api" ++ [[[45], [95], []]] ++ labelOf "key",
   labelOf "master", labelOf "key", labelOf "secret"]

/-- The length of the match of a label at the start of `s`: the items are
matched in sequence, the alternatives of an item are tried in order, and a
later alternative is tried when the rest of the label does not match. -/
def matchLabel : Label → Bytes → Option Nat
  | [], _ => some 0
  | alts :: rest, s =>
    alts.findSome? (fun a =>
      if a.isPrefixOf s then (matchLabel rest (s.drop a.length)).map (fun n => a.length + n)
      else none)

/-- The match of `(?i)(label\s*=\s*)([^\s]+)` at the start of `s`: the length
of group 1 and the length of the whole match. The repetitions are greedy;
what follows a `\s*` (the sign `=`, or a character that is not a space) never
matches a space, so a shorter repetition gives no other match. The bytes of a
rune of several bytes are not spaces: a run of runes that are not spaces is a
run of bytes that are not spaces. -/
def matchSensitive (label : Label) (s : Bytes) : Option (Nat × Nat) :=
  match matchLabel label s with
  | none => none
  | some n =>
    let s1 := s.drop n
    let w1 := (s1.takeWhile isSpace).length
    match s1.drop w1 with
    | 61 :: s2 =>
      let w2 := (s2.takeWhile isSpace).length
      let v := ((s2.drop w2).takeWhile (fun c => !isSpace c)).length
      if v = 0 then none else some (n + w1 + 1 + w2, n + w1 + 1 + w2 + v)
    | _ => none

/-- Method `ReplaceAllString(src, "$1*****")` of the pattern of a label: from
left to right, the leftmost match is replaced by its group 1 followed by five
asterisks and the search goes on behind the match; what no match covers is
copied. Argument `fuel` bounds the steps; the length of `src` is enough, as
every step consumes a byte. -/
def replaceAllAux (label : Label) : Nat → Bytes → Bytes
  | 0, s => s
  | _ + 1, [] => []
  | fuel + 1, c :: s =>
    match matchSensitive label (c :: s) with
    | some (g1, m) =>
      (c :: s).take g1 ++ [42, 42, 42, 42, 42] ++ replaceAllAux label fuel ((c :: s).drop m)
    | none => c :: replaceAllAux label fuel s

/-- Call `regexp.MustCompile(pattern).ReplaceAllString(src, "$1*****")` for the
pattern of a label. -/
def regexpReplaceAllString (label : Label) (src : GoString) : GoString :=
  replaceAllAux label src.length src

/-- The three replacements of `SanitizeHook.Fire` that escape newline,
carriage return and tab. -/
def escapeMessage (message : GoString) : GoString :=
  stringsReplaceAll (stringsReplaceAll (stringsReplaceAll message 10 [92, 110]) 13 [92, 114])
    9 [92, 116]

/-- Method `SanitizeHook.Fire`: the message of the entry afterwards. The
error returned is always nil. -/
def SanitizeHook.Fire (message : GoString) : GoString :=
  sensitivePatterns.foldl (fun sanitizedMessage pattern =>
    regexpReplaceAllString pattern sanitizedMessage) (escapeMessage message)


/-! ## Notions used in the statements -/

/-- The AES cipher `Encrypt` and `Decrypt` set up for a master key. -/
def masterCipher (masterKey : GoString) : AesCipher := newCipher (createHash masterKey)

/-- The error of `Decrypt` when `Open` rejects its input:
`failed to decrypt secret: cipher: message authentication failed`. -/
def authError : GoError := .errorf "failed to decrypt secret: %v" .errOpen

/-- The byte at position `i / 2` after the hexadecimal digit at position `i`
has been given the value `v`. -/
def setNibble (b : Byte) (i v : Nat) : Byte :=
  Fin.ofNat (if i % 2 = 0 then v * 16 + b.val % 16 else b.val / 16 * 16 + v)

/-- The bytes `Encrypt` encodes for plaintext `p` under master key `k` and
nonce `nonce`: the nonce, the ciphertext and the tag. -/
def sealedBytes (k : GoString) (nonce p : Bytes) : Bytes :=
  nonce ++ gcmCounterCrypt (masterCipher k) nonce p ++
    gcmAuth (masterCipher k) nonce (gcmCounterCrypt (masterCipher k) nonce p)

/-! ## The inputs of the test suite -/

/-- Variable `testKey` of `model_test.go`. -/
def testKey : GoString := goString "my-secret-key"

/-- Variable `testPlainTextSecret` of `model_test.go`. -/
def testPlainTextSecret : GoString := goString "super-secret"

/-- Variable `testMasterKey` of `model_test.go`. -/
def testMasterKey : GoString := goString "test-master-key-1234"

/-- The wrong master key of `TestServiceNegativeDecryptSecret`. -/
def wrongMasterKey : GoString := goString "not-the-true-key"

/-- A nonce: the bytes `ab 01 02 03 04 05 06 07 08 09 0a 0b`. -/
def testNonce : Bytes := [171, 1, 2, 3, 4, 5, 6, 7, 8, 9, 10, 11]

/-- The blob `Encrypt` makes of `testPlainTextSecret` under `testMasterKey` and
`testNonce`: the nonce, twelve bytes of ciphertext and the tag. -/
def testBlob : GoString :=
  goString "ab0102030405060708090a0b08296272909f1d9624156507593a0e68f2609586b6ad7acefcd796b8"

/-- What the random source delivers to one creation of a secret: `testNonce`,
then the sixteen bytes `10 11 .. 1f` for the identifier. -/
def testRand : Bytes :=
  testNonce ++ [16, 17, 18, 19, 20, 21, 22, 23, 24, 25, 26, 27, 28, 29, 30, 31]

/-- The identifier `uuid.New` makes of the bytes `10 11 .. 1f`:
`10111213-1415-4617-9819-1a1b1c1d1e1f`. -/
def testID : UUID :=
  ⟨[16, 17, 18, 19, 20, 21, 70, 23, 152, 25, 26, 27, 28, 29, 30, 31], rfl⟩

/-- The blob `Encrypt` makes of the empty plaintext under `testMasterKey` and
`testNonce`: the nonce and the tag. -/
def testEmptyBlob : GoString :=
  goString "ab0102030405060708090a0b420c6f8d5a3366f4bf48b37542491929"

/-- The new plaintext of `TestServiceUpdateSecret`. -/
def newPlainSecret : GoString := goString "this-secret-was-updated"

/-- The blob `Encrypt` makes of `newPlainSecret` under `testMasterKey` and
`testNonce`. -/
def testUpdatedBlob : GoString :=
  goString ("ab0102030405060708090a0b0f347b64cfc10b903502745ef272b8c9" ++
    "6163d51d421dfbedacedd7cfe5f64192132766294c23b1")

/-- The record `CreateSecretModel` returns for the inputs of the test suite when
the random source delivers `testRand`. -/
def testSecret : Secret :=
  { ID := testID, Key := testKey, EncryptedValue := testBlob, CreatedAt := 0, UpdatedAt := 0 }

/-- The row of `testSecret` once saved at time 1. -/
def testStored : Secret :=
  { ID := testID, Key := testKey, EncryptedValue := testBlob, CreatedAt := 1, UpdatedAt := 1 }

/-- Value `testBlob` with its first character, `a`, in upper case. -/
def testBlobUpper : GoString :=
  goString "Ab0102030405060708090a0b08296272909f1d9624156507593a0e68f2609586b6ad7acefcd796b8"

/-- Value `testBlob` with the `7` at position 30, in the ciphertext, replaced
by `8`. -/
def testBlobTampered : GoString :=
  goString "ab0102030405060708090a0b08296282909f1d9624156507593a0e68f2609586b6ad7acefcd796b8"

/-- Value `testBlob` with the `3` at position 50, in the tag, replaced by `4`. -/
def testBlobTagTampered : GoString :=
  goString "ab0102030405060708090a0b08296272909f1d9624156507594a0e68f2609586b6ad7acefcd796b8"

/-- Value `testBlob` with its first character replaced by `g`. -/
def testBlobNotHex : GoString :=
  goString "gb0102030405060708090a0b08296272909f1d9624156507593a0e68f2609586b6ad7acefcd796b8"

/-- A plaintext of sixteen printable characters, `.J4~Q2@?q^jg21db`. -/
def twoKeyPlaintext : GoString := goString ".J4~Q2@?q^jg21db"

/-- A nonce: the bytes `5f 5e c1 d2 bc 99 0e fe f8 7d 61 6d`. -/
def twoKeyNonce : Bytes := [95, 94, 193, 210, 188, 153, 14, 254, 248, 125, 97, 109]

/-- The blob `Encrypt` makes of `twoKeyPlaintext` under `testMasterKey` and
`twoKeyNonce`. -/
def twoKeyBlob : GoString :=
  goString "5f5ec1d2bc990efef87d616dcc577d200f81f76a74ae25afdce6da20679b2ab700e418b72b7353c19e4118d0"

/-! ## Inputs for the claims on the service -/

/-- The canonical form of `testID`. -/
def testIDString : GoString := goString "10111213-1415-4617-9819-1a1b1c1d1e1f"

/-- A key that has the form of an identifier, of no record of the test
suite. -/
def uuidShapedKey : GoString := goString "20212223-2425-4627-a829-2a2b2c2d2e2f"

/-- The identifier `uuidShapedKey` denotes. -/
def uuidShapedID : UUID :=
  ⟨[32, 33, 34, 35, 36, 37, 70, 39, 168, 41, 42, 43, 44, 45, 46, 47], rfl⟩

/-- The stored test record under the key `uuidShapedKey`. -/
def uuidShapedStored : Secret := { testStored with Key := uuidShapedKey }

/-- What the random source delivers to a second creation: a nonce, then the
sixteen bytes `20 21 .. 2f` for the identifier, which becomes
`uuidShapedID`. -/
def otherRand : Bytes :=
  [192, 193, 194, 195, 196, 197, 198, 199, 200, 201, 202, 203,
   32, 33, 34, 35, 36, 37, 38, 39, 40, 41, 42, 43, 44, 45, 46, 47]

/-- A connection that answers every statement with an error. -/
def brokenConnection : GoError := .storage "connection refused"

/-- A second stored record: identifier `uuidShapedID`, key `other-key`. -/
def otherStored : Secret :=
  { ID := uuidShapedID, Key := goString "other-key", EncryptedValue := testEmptyBlob,
    CreatedAt := 1, UpdatedAt := 1 }

/-- What the primary key and the unique index of table `secrets` ensure: no
two rows have the same `ID`, and no two rows the same `Key`. -/
def DB.Consistent (db : DB) : Prop :=
  (db.rows.map Secret.ID).Nodup ∧ (db.rows.map Secret.Key).Nodup

instance (db : DB) : Decidable db.Consistent := by
  unfold DB.Consistent
  infer_instance

/-! ## Notions and inputs for the claims on the handlers, the logger and the hook -/

/-- A call of `UpdateSecret` or of `DeleteSecret`, with its arguments and, for
an update, what the clock and the random source give it. -/
inductive IdCall where
  /-- Call `UpdateSecret(secretID, plainTextSecret, masterKey)`. -/
  | update (now : Time) (secretID plainTextSecret masterKey : GoString) (rand : Bytes)
  /-- Call `DeleteSecret(secretID)`. -/
  | delete (secretID : GoString)

/-- The table after a call; a call that panics leaves the table as it was. -/
def IdCall.run (db : DB) : IdCall → DB
  | .update now secretID plainTextSecret masterKey rand =>
    match service.UpdateSecret db now secretID plainTextSecret masterKey rand with
    | .panicked _ => db
    | .returned (_, db') => db'
  | .delete secretID => (service.DeleteSecret db secretID).2

/-- The table after a sequence of calls. -/
def runCalls (db : DB) (calls : List IdCall) : DB :=
  calls.foldl IdCall.run db

/-- The messages among the events: what is passed to the logger, in order. -/
def logMessages (events : List Event) : List (LogLevel × GoError) :=
  events.filterMap (fun ev =>
    match ev with
    | .log level err => some (level, err)
    | .repo _ => none)

/-- A key of 32 hexadecimal digits in upper case: the digits of
`uuidShapedID`. -/
def hexShapedKey : GoString := goString "2021222324254627A8292A2B2C2D2E2F"

/-- The stored test record under the key `hexShapedKey`. -/
def hexShapedStored : Secret := { testStored with Key := hexShapedKey }

/-- The blob `Encrypt` makes of `testPlainTextSecret` under `wrongMasterKey`
and `testNonce`. -/
def wrongKeyBlob : GoString :=
  goString "ab0102030405060708090a0be723edf8049a3e2fd85bddffd19f7b4f129974b59ebbdf74574de2d0"

/-- The row of the test suite's secret when it is created under
`wrongMasterKey` at time 1. -/
def wrongKeyStored : Secret := { testStored with EncryptedValue := wrongKeyBlob }

/-! ## Notions used in the proofs -/

/-- The inverse of the AES S-box (table `sbox1` of `crypto/aes`), row by row. -/
def aesInvSbox : List Nat :=
  [0x52096ad53036a538bf40a39e81f3d7fb,
   0x7ce339829b2fff87348e4344c4dee9cb,
   0x547b9432a6c2233dee4c950b42fac34e,
   0x082ea16628d924b2765ba2496d8bd125,
   0x72f8f66486689816d4a45ccc5d65b692,
   0x6c704850fdedb9da5e154657a78d9d84,
   0x90d8ab008cbcd30af7e45805b8b34506,
   0xd02c1e8fca3f0f02c1afbd0301138a6b,
   0x3a9111414f67dcea97f2cfcef0b4e673,
   0x96ac7422e7ad3585e2f937e81c75df6e,
   0x47f11a711d29c5896fb7620eaa18be1b,
   0xfc563e4bc6d279209adbc0fe78cd5af4,
   0x1fdda8338807c731b11210592780ec5f,
   0x60517fa919b54a0d2de57a9f93c99cef,
   0xa0e03b4dae2af5b0c8ebbb3c83539961,
   0x172b047eba77d626e169146355210c7d]

/-- Lookup in the inverse S-box. -/
def aesInvSub (b : Nat) : Nat := (aesInvSbox.getD (b / 16) 0 >>> (8 * (15 - b % 16))) % 256

/-- A state of AES, or a round key: sixteen bytes. -/
def IsState (s : List Nat) : Prop := s.length = 16 ∧ ∀ b ∈ s, b < 256

/-- A cipher whose round keys, at least one, are sixteen bytes each. -/
def AesCipher.WellFormed (c : AesCipher) : Prop := c.enc ≠ [] ∧ ∀ k ∈ c.enc, IsState k

/-- A word of the AES key schedule: four bytes. -/
def IsWord (w : List Nat) : Prop := w.length = 4 ∧ ∀ b ∈ w, b < 256


/-! ### The field of GHASH -/

/-- The value at `x`, in a ring, of the polynomial whose coefficients are the
low `n` bits of `a` in the order of GCM: bit `n - 1` is the constant
coefficient, bit 0 the coefficient of degree `n - 1`. -/
def gfEval {R : Type} [CommRing R] (x : R) : Nat → Nat → R
  | 0, _ => 0
  | n + 1, a => (((a >>> n) % 2 : Nat) : R) + x * gfEval x n a

/-- The inverses, in the field of GHASH, of `X ^ (2 ^ d) + X` for `d` from 1 to
64. They certify that the polynomial `X^128 + X^7 + X^2 + X + 1` has no factor
of degree 64 or less. -/
def gfIrredCert : List Nat :=
  [0x83fffffffffffffffffffffffffffffe, 0xd9249249249249249249249249249248,
   0xc7020408102040810204081020408103, 0x7afad1f5a3eb47d68fad1f5a3eb47d69,
   0x0531fd82d663fb05acc7f60b598fec17, 0xdbf2b9a278a182070be57344f143040f,
   0x54508157727a6f183f9968eb12840abb, 0x038ff709da0439685b7310b28eebb660,
   0x529f497b79e262aaec0cb656a8b09709, 0x49523949de937a7b9d6ad44005d53253,
   0xcc7dcc8da0709963245f4137437337d1, 0xcb11fe7644a84c8509fa546dacf98687,
   0xe04cf017f4d24d936fe36afa06025bec, 0xaaaa3d80f409e1ed7193d4bb4bb7c0c7,
   0x7c2361ed17b7dca7cba8b675a961b001, 0xb77fdeb66fa96ab279e1addc4b76b3fd,
   0xad9bd39c76fba0f8187f440575ba0319, 0x5dc5ddc7ece9ed096bbb5e9498474b72,
   0x022798d5a9f5200011ee3b56fad20c05, 0x5f8dec3e51f59177a15aea509dcf53ff,
   0xa7e77a9a58f96e8a7ff4eb2ffd71fddf, 0x45c7a0ec97bc48a680dff1f845ef4ee2,
   0xc1cba5113ee7455c936469e35f511112, 0x0f612ee1511ee061b2538054b4cc3e47,
   0xb840b9c96d4efd4a08ff23f030cc1112, 0x2ec910d9f105586a3c96c9cdab7d7852,
   0x30d83e4c6f765b147c3dba6f32136bed, 0xdfd3dc65d4663cf9aa59875eeaed6c24,
   0x6fdea4f8ee71a4ace8a94ec5778d9ca2, 0xf93876fdb2d39e1516eff07c712bb4be,
   0x83a99d34b88fca840571d7b6c04e61af, 0xb42bc8aee5b1be85dab23b424cf0896e,
   0xc1a4524c3015de0d8a45f09a4e60f3ec, 0x3699263ed8ce2c5bf4b2735077523832,
   0xf02288438b33a1136544bb51050450aa, 0x19377ba09ffe0f2af443f17df3fd00f1,
   0xd5eaf2f4f4b018c9a83c8007ad25851c, 0x42f37c4e2fe68016160767b1aa51d6e4,
   0xeee3a52ca0f1b2b0f194c017d5c46326, 0x18733ceebd3420ef441079b3d11cdd65,
   0x1ea93b8665c603764632c865955b7e73, 0x284f9bcfd3e77e5efcaf3cc0b56e075c,
   0xb77661c53edc862adfc2c9d1d06c03c6, 0xd2b5e23d56b6ce357862f8896b0665b7,
   0xf442e23aa88c73aa054745def81cc6a2, 0x80161563148207f6a9fb77833cc2742d,
   0x536fe8404f4a80ecd776c8d9e008b205, 0x7ddbb9a13665a9039a4c3e6d8a7c4e47,
   0xde6e1457dc5ffd1ffeb1aeb27d2cebc2, 0x94c82601376375734b53e737cdcffe52,
   0x05eef5f65bd9717c82d80601b39d81b5, 0x5a9962a01936f8176a6d81a986e4f43d,
   0x23e4d406d98c0d12207e4d9849e38be8, 0x655bc0c99ed0033dad239af5b620033c,
   0x58b5a1e11e943ed89f7a0fbf4c444334, 0x202496c511ec5f905fa0747752b30d37,
   0xaf4da26bd2941de12c9d7f9d7ca9d2fc, 0x72038cf5377f13205dee23d9c739c38c,
   0x6d87949e714167f53f065cbc9df5082d, 0xf7996a9415a6ff6551ff28963d4b043d,
   0x1da2744b325322a60ef5a5fbac0408be, 0x4e40c7974176549b4e37c239ff72b4c7,
   0x98f8f61327741733a34f90b2b85a1d6b, 0x180da934bf53158251c13dbb149f5279]

/-- The check of a certificate: with `r` a power of `X`, each entry is the
inverse of the next square of `r` plus `X`. In the bit order of GCM `X` is
`2 ^ 126` and one is `2 ^ 127`. -/
def gfCertOk : Nat → List Nat → Bool
  | _, [] => true
  | r, v :: vs =>
    (gfMul v (gfMul r r ^^^ 2 ^ 126) == 2 ^ 127) && gfCertOk (gfMul r r) vs
/-! ## Lemmas on `encoding/hex` -/

theorem fromHexChar_hextable (n : Fin 16) : fromHexChar (hextable.getD n.val 0) = some n.val := by
  revert n; decide

theorem hexDecodeString_encode (bs : Bytes) : hexDecodeString (hexEncodeToString bs) = .ok bs := by
  induction bs with
  | nil => rfl
  | cons v bs ih =>
    have h1 := fromHexChar_hextable ⟨v.val / 16, by omega⟩
    have h2 := fromHexChar_hextable ⟨v.val % 16, by omega⟩
    simp only at h1 h2
    have hv : (Fin.ofNat (v.val / 16 * 16 + v.val % 16) : Byte) = v := by
      apply Fin.ext
      show (v.val / 16 * 16 + v.val % 16) % 256 = v.val
      have := v.isLt
      omega
    have hcons : hexEncodeToString (v :: bs) =
        hextable.getD (v.val / 16) 0 :: hextable.getD (v.val % 16) 0 :: hexEncodeToString bs := by
      simp [hexEncodeToString, List.flatMap_cons]
    rw [hcons, hexDecodeString, h1]
    simp only [h2, ih, hv]

theorem hexEncodeToString_length (bs : Bytes) : (hexEncodeToString bs).length = 2 * bs.length := by
  induction bs with
  | nil => rfl
  | cons v bs ih =>
    have hcons : hexEncodeToString (v :: bs) =
        hextable.getD (v.val / 16) 0 :: hextable.getD (v.val % 16) 0 :: hexEncodeToString bs := by
      simp [hexEncodeToString, List.flatMap_cons]
    rw [hcons]; simp [ih]; omega

theorem hexEncodeToString_append (a b : Bytes) :
    hexEncodeToString (a ++ b) = hexEncodeToString a ++ hexEncodeToString b := by
  simp [hexEncodeToString, List.flatMap_append]
/-! ## Lemmas on counter mode and the tag -/

theorem beBytes_length (n x : Nat) : (beBytes n x).length = n := by
  induction n with
  | zero => rfl
  | succ n ih => simp [beBytes, ih]

theorem gcmKeyStream_length (c : AesCipher) (nonce : List Nat) (n ctr : Nat) :
    (gcmKeyStream c nonce n ctr).length = 16 * n := by
  induction n generalizing ctr with
  | zero => rfl
  | succ n ih => simp [gcmKeyStream, beBytes_length, ih]; omega

theorem byte_xor_cancel (a b : Byte) : (a ^^^ b) ^^^ b = a := by
  apply Fin.ext
  show ((a.val ^^^ b.val) % 256 ^^^ b.val) % 256 = a.val
  have h1 : a.val ^^^ b.val < 256 := Nat.xor_lt_two_pow (n := 8) a.isLt b.isLt
  rw [Nat.mod_eq_of_lt h1, Nat.xor_assoc, Nat.xor_self, Nat.xor_zero]
  exact Nat.mod_eq_of_lt a.isLt

theorem zipWith_xor_cancel (data : Bytes) (ks : List Nat) (h : data.length ≤ ks.length) :
    List.zipWith (fun d k => d ^^^ (Fin.ofNat k : Byte))
      (List.zipWith (fun d k => d ^^^ (Fin.ofNat k : Byte)) data ks) ks = data := by
  induction data generalizing ks with
  | nil => simp
  | cons d data ih =>
    cases ks with
    | nil => simp at h
    | cons k ks =>
      simp only [List.zipWith_cons_cons]
      rw [ih ks (by simpa using h), byte_xor_cancel]

theorem gcmCounterCrypt_length (c : AesCipher) (nonce data : Bytes) :
    (gcmCounterCrypt c nonce data).length = data.length := by
  simp only [gcmCounterCrypt, List.length_zipWith, gcmKeyStream_length]
  omega

theorem gcmCounterCrypt_involutive (c : AesCipher) (nonce data : Bytes) :
    gcmCounterCrypt c nonce (gcmCounterCrypt c nonce data) = data := by
  have hl := gcmCounterCrypt_length c nonce data
  rw [gcmCounterCrypt, hl]
  exact zipWith_xor_cancel data _ (by rw [gcmKeyStream_length]; omega)

theorem gcmAuth_length (c : AesCipher) (nonce ciphertext : Bytes) :
    (gcmAuth c nonce ciphertext).length = 16 := by
  simp [gcmAuth, beBytes_length]

theorem sha256Sum256_length (data : Bytes) : (sha256Sum256 data).length = 32 := by
  simp [sha256Sum256, beBytes_length, List.flatMap_cons]

theorem createHash_length (key : GoString) : (createHash key).length = 32 :=
  sha256Sum256_length key

theorem aesNewCipher_createHash (key : GoString) :
    aesNewCipher (createHash key) = .ok (newCipher (createHash key)) := by
  simp [aesNewCipher, createHash_length]

theorem cipherNewGCM_eq (block : AesCipher) :
    cipherNewGCM block = .ok { cipher := block, nonceSize := 12, tagSize := 16 } := by
  simp [cipherNewGCM, AesCipher.BlockSize, gcmBlockSize, gcmStandardNonceSize, gcmTagSize]
/-! ## Lemmas on `Encrypt` and `Decrypt` -/

theorem Encrypt_eq (p k : GoString) (rand : Bytes) :
    Encrypt p k rand =
      if rand.length < 12 then
        .returned ([], some (.errorf "failed to generate nonce: %v" .randRead))
      else if p.length > gcmMaxPlaintext then
        .panicked "crypto/cipher: message too large for GCM"
      else
        .returned (hexEncodeToString
          (rand.take 12 ++ gcmCounterCrypt (masterCipher k) (rand.take 12) p ++
            gcmAuth (masterCipher k) (rand.take 12) (gcmCounterCrypt (masterCipher k) (rand.take 12) p)),
          none) := by
  simp only [Encrypt, aesNewCipher_createHash, cipherNewGCM_eq, ioReadFull, Gcm.NonceSize, Gcm.Seal,
    masterCipher]
  by_cases h1 : rand.length < 12
  · simp [h1]
  · have h2 : (List.take 12 rand).length = 12 := by simp; omega
    by_cases h3 : p.length > gcmMaxPlaintext
    · simp [h1, h2, h3]
    · simp [h1, h2, h3]

theorem Decrypt_eq (s k : GoString) (b : Bytes) (hs : hexDecodeString s = .ok b) :
    Decrypt s k =
      if b.length < 12 then .panicked "runtime error: slice bounds out of range"
      else if b.length < 28 ∨ b.length > gcmMaxPlaintext + 28 ∨
          gcmAuth (masterCipher k) (b.take 12) ((b.drop 12).take (b.length - 28)) ≠
            b.drop (b.length - 16) then
        .returned ([], some authError)
      else
        .returned (gcmCounterCrypt (masterCipher k) (b.take 12) ((b.drop 12).take (b.length - 28)),
          none) := by
  simp only [Decrypt, hs, aesNewCipher_createHash, cipherNewGCM_eq, Gcm.NonceSize, Gcm.Open,
    masterCipher, authError]
  by_cases h1 : b.length < 12
  · simp [h1]
  · have h2 : (List.take 12 b).length = 12 := by simp; omega
    have h3 : (List.drop 12 b).length = b.length - 12 := by simp
    simp only [h1, h2, h3, if_false, ne_eq, not_true_eq_false]
    by_cases h4 : b.length < 28
    · have : b.length - 12 < 16 := by omega
      simp [h4, this]
    · have h5 : ¬ (b.length - 12 < 16) := by omega
      have h6 : b.length - 12 - 16 = b.length - 28 := by omega
      have h7 : List.drop (b.length - 28) (List.drop 12 b) = List.drop (b.length - 16) b := by
        rw [List.drop_drop]; congr 1; omega
      by_cases h8 : b.length > gcmMaxPlaintext + 28
      · have : b.length - 12 > gcmMaxPlaintext + 16 := by omega
        simp [h4, h5, h8, this]
      · have : ¬ (b.length - 12 > gcmMaxPlaintext + 16) := by omega
        simp only [h4, h5, h8, this, h6, h7, if_false, false_or]
        by_cases h9 : gcmAuth (newCipher (createHash k)) (List.take 12 b)
            (List.take (b.length - 28) (List.drop 12 b)) = List.drop (b.length - 16) b
        · simp [h9]
        · simp [h9]

/-! ## Lemmas on a blob with one character replaced -/

theorem hexEncodeToString_cons (v : Byte) (bs : Bytes) :
    hexEncodeToString (v :: bs) =
      hextable.getD (v.val / 16) 0 :: hextable.getD (v.val % 16) 0 :: hexEncodeToString bs := by
  simp [hexEncodeToString, List.flatMap_cons]

theorem fromHexChar_lt (x : Byte) (v : Nat) (h : fromHexChar x = some v) : v < 16 := by
  unfold fromHexChar at h
  split at h
  · simp at h; omega
  · split at h
    · simp at h; omega
    · split at h
      · simp at h; omega
      · simp at h

theorem fromHexChar_hi (v : Byte) : fromHexChar (hextable.getD (v.val / 16) 0) = some (v.val / 16) :=
  fromHexChar_hextable ⟨v.val / 16, by omega⟩

theorem fromHexChar_lo (v : Byte) : fromHexChar (hextable.getD (v.val % 16) 0) = some (v.val % 16) :=
  fromHexChar_hextable ⟨v.val % 16, by omega⟩

theorem byte_of_nibbles (v : Byte) : (Fin.ofNat (v.val / 16 * 16 + v.val % 16) : Byte) = v := by
  apply Fin.ext
  show (v.val / 16 * 16 + v.val % 16) % 256 = v.val
  have := v.isLt
  omega

theorem hexDecodeString_set (b : Bytes) (i : Nat) (x : Byte) (hi : i < 2 * b.length) :
    hexDecodeString ((hexEncodeToString b).set i x) =
      match fromHexChar x with
      | none => .error (.hexInvalidByte x)
      | some v => .ok (b.set (i / 2) (setNibble (b.getD (i / 2) 0) i v)) := by
  induction b generalizing i with
  | nil => simp at hi
  | cons w bs ih =>
    rw [hexEncodeToString_cons]
    match i, hi with
    | 0, _ =>
      simp only [List.set_cons_zero, hexDecodeString, fromHexChar_lo, hexDecodeString_encode]
      cases fromHexChar x <;> simp [setNibble]
    | 1, _ =>
      simp only [List.set_cons_succ, List.set_cons_zero, hexDecodeString, fromHexChar_hi,
        hexDecodeString_encode]
      cases fromHexChar x <;> simp [setNibble]
    | i + 2, hi =>
      have hi' : i < 2 * bs.length := by simp at hi; omega
      simp only [List.set_cons_succ, hexDecodeString, fromHexChar_hi, fromHexChar_lo, ih i hi']
      have h2 : (i + 2) / 2 = i / 2 + 1 := by omega
      have h3 : (i + 2) % 2 = i % 2 := by omega
      cases fromHexChar x with
      | none => rfl
      | some v => simp [h2, setNibble, h3, byte_of_nibbles]

theorem fromHexChar_getD_encode (b : Bytes) (i : Nat) (hi : i < 2 * b.length) :
    fromHexChar ((hexEncodeToString b).getD i 0) =
      some (if i % 2 = 0 then (b.getD (i / 2) 0).val / 16 else (b.getD (i / 2) 0).val % 16) := by
  induction b generalizing i with
  | nil => simp at hi
  | cons w bs ih =>
    rw [hexEncodeToString_cons]
    match i, hi with
    | 0, _ => simpa using fromHexChar_hi w
    | 1, _ => simpa using fromHexChar_lo w
    | i + 2, hi =>
      have hi' : i < 2 * bs.length := by simp at hi; omega
      have h2 : (i + 2) / 2 = i / 2 + 1 := by omega
      have h3 : (i + 2) % 2 = i % 2 := by omega
      have := ih i hi'
      simp only [List.getD_cons_succ, h2, h3]
      exact this

theorem Decrypt_congr (s s' k : GoString) (h : hexDecodeString s = hexDecodeString s') :
    Decrypt s k = Decrypt s' k := by
  simp only [Decrypt, h]

theorem Decrypt_blob (s k : GoString) (nonce body t : Bytes) (hn : nonce.length = 12)
    (ht : t.length = 16) (hs : hexDecodeString s = .ok (nonce ++ body ++ t)) :
    Decrypt s k =
      if body.length > gcmMaxPlaintext ∨ gcmAuth (masterCipher k) nonce body ≠ t then
        .returned ([], some authError)
      else .returned (gcmCounterCrypt (masterCipher k) nonce body, none) := by
  rw [Decrypt_eq s k _ hs]
  have hlen : (nonce ++ body ++ t).length = body.length + 28 := by
    simp [hn, ht]; omega
  have h1 : List.take 12 (nonce ++ body ++ t) = nonce := by
    rw [List.append_assoc, List.take_append_of_le_length (by omega)]
    exact List.take_of_length_le (by omega)
  have h2 : List.drop 12 (nonce ++ body ++ t) = body ++ t := by
    rw [List.append_assoc, ← hn, List.drop_left]
  have h3 : List.drop (body.length + 28 - 16) (nonce ++ body ++ t) = t := by
    have : body.length + 28 - 16 = (nonce ++ body).length := by simp [hn]; omega
    rw [this, List.drop_left]
  have h4 : List.take (body.length + 28 - 28) (body ++ t) = body := by
    simp
  rw [hlen, h1, h2, h3, h4]
  have h5 : ¬ (body.length + 28 < 12) := by omega
  rw [if_neg h5]
  have h6 : (body.length + 28 < 28 ∨ body.length + 28 > gcmMaxPlaintext + 28 ∨
      gcmAuth (masterCipher k) nonce body ≠ t) ↔
      (body.length > gcmMaxPlaintext ∨ gcmAuth (masterCipher k) nonce body ≠ t) := by
    constructor
    · rintro (h | h | h)
      · omega
      · left; omega
      · right; exact h
    · rintro (h | h)
      · right; left; omega
      · right; right; exact h
  simp only [h6]

theorem Encrypt_returned (p k : GoString) (rand : Bytes) (c : GoString)
    (hc : Encrypt p k rand = .returned (c, none)) :
    12 ≤ rand.length ∧ p.length ≤ gcmMaxPlaintext ∧
      c = hexEncodeToString (sealedBytes k (rand.take 12) p) := by
  rw [Encrypt_eq] at hc
  by_cases h1 : rand.length < 12
  · simp [h1] at hc
  · by_cases h2 : p.length > gcmMaxPlaintext
    · simp [h1, h2] at hc
    · simp only [h1, h2, if_false] at hc
      refine ⟨by omega, by omega, ?_⟩
      have := Outcome.returned.inj hc
      exact (Prod.mk.inj this).1.symm

theorem set_getD_self (b : Bytes) (j : Nat) : b.set j (b.getD j 0) = b := by
  induction b generalizing j with
  | nil => rfl
  | cons v bs ih =>
    cases j with
    | zero => rfl
    | succ j => simp only [List.set_cons_succ, List.getD_cons_succ, ih]

theorem set_ne_self (b : Bytes) (j : Nat) (y : Byte) (hj : j < b.length) (hy : y ≠ b.getD j 0) :
    b.set j y ≠ b := by
  intro h
  apply hy
  have : (b.set j y).getD j 0 = b.getD j 0 := by rw [h]
  rw [← this]
  simp [List.getD_eq_getElem?_getD, List.getElem?_set, hj]

theorem setNibble_same (b : Byte) (i : Nat) :
    setNibble b i (if i % 2 = 0 then b.val / 16 else b.val % 16) = b := by
  unfold setNibble
  by_cases h : i % 2 = 0 <;> simp only [h, if_true, if_false] <;> exact byte_of_nibbles b

theorem setNibble_ne (b : Byte) (i v : Nat) (hv : v < 16)
    (hne : v ≠ (if i % 2 = 0 then b.val / 16 else b.val % 16)) : setNibble b i v ≠ b := by
  intro h
  have h' := congrArg Fin.val h
  unfold setNibble at h'
  have hb := b.isLt
  by_cases h2 : i % 2 = 0
  · simp only [h2, if_true] at h' hne
    change (v * 16 + b.val % 16) % 256 = b.val at h'
    omega
  · simp only [h2, if_false] at h' hne
    change (b.val / 16 * 16 + v) % 256 = b.val at h'
    omega

theorem sealedBytes_length (k : GoString) (nonce p : Bytes) (hn : nonce.length = 12) :
    (sealedBytes k nonce p).length = p.length + 28 := by
  simp [sealedBytes, hn, gcmAuth_length, gcmCounterCrypt_length]; omega

theorem Decrypt_sealedBytes (p k : GoString) (nonce : Bytes) (hn : nonce.length = 12)
    (hp : p.length ≤ gcmMaxPlaintext) :
    Decrypt (hexEncodeToString (sealedBytes k nonce p)) k = .returned (p, none) := by
  unfold sealedBytes
  rw [Decrypt_blob _ k nonce (gcmCounterCrypt (masterCipher k) nonce p) _ hn
    (gcmAuth_length _ _ _) (hexDecodeString_encode _)]
  rw [if_neg (by rw [gcmCounterCrypt_length]; simp; omega), gcmCounterCrypt_involutive]

/-- What `Decrypt` does with the blob of `Encrypt` after its character `i` has
been replaced by `x`. -/
theorem Decrypt_set (p k : GoString) (nonce : Bytes) (i : Nat) (x : Byte)
    (hn : nonce.length = 12) (hp : p.length ≤ gcmMaxPlaintext)
    (hi : i < 2 * (p.length + 28)) :
    (fromHexChar x = none →
      Decrypt ((hexEncodeToString (sealedBytes k nonce p)).set i x) k =
        .returned ([], some (.errorf "failed to decode encrypted secret: %v" (.hexInvalidByte x)))) ∧
    (fromHexChar x = fromHexChar ((hexEncodeToString (sealedBytes k nonce p)).getD i 0) →
      Decrypt ((hexEncodeToString (sealedBytes k nonce p)).set i x) k = .returned (p, none)) ∧
    (fromHexChar x ≠ none →
      fromHexChar x ≠ fromHexChar ((hexEncodeToString (sealedBytes k nonce p)).getD i 0) →
      2 * (p.length + 12) ≤ i →
      Decrypt ((hexEncodeToString (sealedBytes k nonce p)).set i x) k =
        .returned ([], some authError)) := by
  have hlen := sealedBytes_length k nonce p hn
  have hi' : i < 2 * (sealedBytes k nonce p).length := by rw [hlen]; exact hi
  have hdec := hexDecodeString_set (sealedBytes k nonce p) i x hi'
  have hget := fromHexChar_getD_encode (sealedBytes k nonce p) i hi'
  refine ⟨?_, ?_, ?_⟩
  · intro hx
    rw [hx] at hdec
    simp only [Decrypt, hdec]
  · intro hx
    rw [hget] at hx
    rw [hx] at hdec
    simp only [setNibble_same, set_getD_self] at hdec
    rw [Decrypt_congr _ (hexEncodeToString (sealedBytes k nonce p)) k
      (by rw [hdec, hexDecodeString_encode])]
    exact Decrypt_sealedBytes p k nonce hn hp
  · intro hx1 hx2 hi2
    rw [hget] at hx2
    cases hv : fromHexChar x with
    | none => exact absurd hv hx1
    | some v =>
      rw [hv] at hdec hx2
      have hv16 := fromHexChar_lt x v hv
      have hne : v ≠ (if i % 2 = 0 then ((sealedBytes k nonce p).getD (i / 2) 0).val / 16
          else ((sealedBytes k nonce p).getD (i / 2) 0).val % 16) := fun h => hx2 (by rw [h])
      have hy := setNibble_ne _ i v hv16 hne
      simp only at hdec
      -- the byte replaced lies in the tag
      have hpre : (nonce ++ gcmCounterCrypt (masterCipher k) nonce p).length = p.length + 12 := by
        simp [hn, gcmCounterCrypt_length]; omega
      have hj : (nonce ++ gcmCounterCrypt (masterCipher k) nonce p).length ≤ i / 2 := by
        rw [hpre]; omega
      have hset : (sealedBytes k nonce p).set (i / 2)
            (setNibble ((sealedBytes k nonce p).getD (i / 2) 0) i v) =
          nonce ++ gcmCounterCrypt (masterCipher k) nonce p ++
            (gcmAuth (masterCipher k) nonce (gcmCounterCrypt (masterCipher k) nonce p)).set
              (i / 2 - (p.length + 12))
              (setNibble ((sealedBytes k nonce p).getD (i / 2) 0) i v) := by
        unfold sealedBytes
        rw [List.set_append_right _ _ hj, hpre]
      have hgetD : (sealedBytes k nonce p).getD (i / 2) 0 =
          (gcmAuth (masterCipher k) nonce (gcmCounterCrypt (masterCipher k) nonce p)).getD
            (i / 2 - (p.length + 12)) 0 := by
        unfold sealedBytes
        rw [List.getD_append_right _ _ _ _ hj, hpre]
      rw [hset] at hdec
      rw [Decrypt_blob _ k nonce (gcmCounterCrypt (masterCipher k) nonce p) _ hn
        (by rw [List.length_set]; exact gcmAuth_length _ _ _) hdec]
      rw [if_pos]
      right
      intro h
      have hlt : i / 2 - (p.length + 12) <
          (gcmAuth (masterCipher k) nonce (gcmCounterCrypt (masterCipher k) nonce p)).length := by
        rw [gcmAuth_length]; omega
      refine set_ne_self _ _ _ hlt ?_ h.symm
      rw [← hgetD]
      exact hy

/-! ## Lemmas on malformed and well-formed hexadecimal strings -/

theorem fromHexChar_eq_none (ch : Byte)
    (h : ¬ ((48 ≤ ch.val ∧ ch.val ≤ 57) ∨ (97 ≤ ch.val ∧ ch.val ≤ 102) ∨
      (65 ≤ ch.val ∧ ch.val ≤ 70))) : fromHexChar ch = none := by
  unfold fromHexChar
  have h1 : ¬ (48 ≤ ch.val ∧ ch.val ≤ 57) := fun h' => h (Or.inl h')
  have h2 : ¬ (97 ≤ ch.val ∧ ch.val ≤ 102) := fun h' => h (Or.inr (Or.inl h'))
  have h3 : ¬ (65 ≤ ch.val ∧ ch.val ≤ 70) := fun h' => h (Or.inr (Or.inr h'))
  rw [if_neg h1, if_neg h2, if_neg h3]

theorem hexDecodeString_ok (s : GoString) (b : Bytes) (h : hexDecodeString s = .ok b) :
    s.length % 2 = 0 ∧ ∀ ch ∈ s, fromHexChar ch ≠ none := by
  induction s using hexDecodeString.induct generalizing b with
  | case1 => simp
  | case2 p hp => simp [hexDecodeString, hp] at h
  | case3 p a hp => simp [hexDecodeString, hp] at h
  | case4 p q rest hp => simp [hexDecodeString, hp] at h
  | case5 p q rest a hp hq => simp [hexDecodeString, hp, hq] at h
  | case6 p q rest a hp b' hq e he ih => simp [hexDecodeString, hp, hq, he] at h
  | case7 p q rest a hp b' hq bs hbs ih =>
    obtain ⟨ih1, ih2⟩ := ih bs hbs
    constructor
    · simp only [List.length_cons]; omega
    · intro ch hch
      simp only [List.mem_cons] at hch
      rcases hch with rfl | rfl | hch
      · rw [hp]; simp
      · rw [hq]; simp
      · exact ih2 ch hch

theorem hexDecodeString_error (s : GoString)
    (h : s.length % 2 = 1 ∨ ∃ ch ∈ s, fromHexChar ch = none) :
    ∃ e, hexDecodeString s = .error e ∧ (e = .hexErrLength ∨ ∃ ch ∈ s, e = .hexInvalidByte ch) := by
  induction s using hexDecodeString.induct with
  | case1 => simp at h
  | case2 p hp => exact ⟨_, by simp [hexDecodeString, hp], Or.inr ⟨p, by simp, rfl⟩⟩
  | case3 p a hp => exact ⟨_, by simp [hexDecodeString, hp], Or.inl rfl⟩
  | case4 p q rest hp => exact ⟨_, by simp [hexDecodeString, hp], Or.inr ⟨p, by simp, rfl⟩⟩
  | case5 p q rest a hp hq =>
    exact ⟨_, by simp [hexDecodeString, hp, hq], Or.inr ⟨q, by simp, rfl⟩⟩
  | case6 p q rest a hp b' hq e he ih =>
    have hrest : rest.length % 2 = 1 ∨ ∃ ch ∈ rest, fromHexChar ch = none := by
      by_contra hcon
      push_neg at hcon
      cases hd : hexDecodeString rest with
      | error e' => 
        rcases h with h | ⟨ch, hch, hn⟩
        · simp only [List.length_cons] at h; omega
        · simp only [List.mem_cons] at hch
          rcases hch with rfl | rfl | hch
          · rw [hp] at hn; simp at hn
          · rw [hq] at hn; simp at hn
          · exact hcon.2 ch hch hn
      | ok bs => rw [hd] at he; simp at he
    obtain ⟨e', he', hcase⟩ := ih hrest
    rw [he] at he'
    have hee : e = e' := by simpa using he'
    subst hee
    refine ⟨e, by simp [hexDecodeString, hp, hq, he], ?_⟩
    rcases hcase with hl | ⟨ch, hch, hc⟩
    · exact Or.inl hl
    · exact Or.inr ⟨ch, by simp [hch], hc⟩
  | case7 p q rest a hp b' hq bs hbs ih =>
    exfalso
    obtain ⟨h1, h2⟩ := hexDecodeString_ok rest bs hbs
    rcases h with h | ⟨ch, hch, hn⟩
    · simp only [List.length_cons] at h; omega
    · simp only [List.mem_cons] at hch
      rcases hch with rfl | rfl | hch
      · rw [hp] at hn; simp at hn
      · rw [hq] at hn; simp at hn
      · exact h2 ch hch hn

theorem hextable_lower (n : Fin 16) :
    (48 ≤ (hextable.getD n.val 0).val ∧ (hextable.getD n.val 0).val ≤ 57) ∨
      (97 ≤ (hextable.getD n.val 0).val ∧ (hextable.getD n.val 0).val ≤ 102) := by
  revert n; decide

theorem hexEncodeToString_lower (b : Bytes) (ch : Byte) (h : ch ∈ hexEncodeToString b) :
    (48 ≤ ch.val ∧ ch.val ≤ 57) ∨ (97 ≤ ch.val ∧ ch.val ≤ 102) := by
  induction b with
  | nil => simp [hexEncodeToString] at h
  | cons v bs ih =>
    rw [hexEncodeToString_cons] at h
    simp only [List.mem_cons] at h
    rcases h with rfl | rfl | h
    · exact hextable_lower ⟨v.val / 16, by omega⟩
    · exact hextable_lower ⟨v.val % 16, by omega⟩
    · exact ih h

/-! ## Lemmas on the model and the service -/

theorem uuidNew_eq (rand : Bytes) :
    uuidNew rand =
      if rand.length < 16 then .panicked "uuid: random source failed"
      else .returned (uuidNewRandom rand).1 := by
  unfold uuidNew uuidNewRandom
  by_cases h : rand.length < 16 <;> simp [h]

theorem CreateSecretModel_eq (key p k : GoString) (rand : Bytes) :
    CreateSecretModel key p k rand =
      if rand.length < 12 then
        .returned (none, some (.errorf "failed to encrypt secret: %v"
          (.errorf "failed to generate nonce: %v" .randRead)))
      else if p.length > gcmMaxPlaintext then
        .panicked "crypto/cipher: message too large for GCM"
      else if rand.length < 28 then .panicked "uuid: random source failed"
      else
        .returned (some { ID := (uuidNewRandom (rand.drop 12)).1, Key := key,
                          EncryptedValue := hexEncodeToString (sealedBytes k (rand.take 12) p),
                          CreatedAt := 0, UpdatedAt := 0 }, none) := by
  unfold CreateSecretModel
  rw [Encrypt_eq]
  by_cases h1 : rand.length < 12
  · simp [h1]
  · by_cases h2 : p.length > gcmMaxPlaintext
    · simp [h1, h2]
    · simp only [h1, h2, if_false, uuidNew_eq, gcmStandardNonceSize, List.length_drop]
      by_cases h3 : rand.length < 28
      · have : rand.length - 12 < 16 := by omega
        simp [h3, this]
      · have : ¬ (rand.length - 12 < 16) := by omega
        simp [h3, this, sealedBytes]

theorem UpdateSecret_returned (db db' : DB) (now : Time) (id p k : GoString) (rand : Bytes)
    (h : service.UpdateSecret db now id p k rand = .returned (none, db')) :
    ∃ u, uuidParse id = .ok u ∧ 12 ≤ rand.length ∧ p.length ≤ gcmMaxPlaintext ∧
      db.fault = none ∧
      db' = { db with rows := db.rows.map (fun r =>
        if r.ID = u then
          { r with EncryptedValue := hexEncodeToString (sealedBytes k (rand.take 12) p),
                   UpdatedAt := now }
        else r) } := by
  unfold service.UpdateSecret at h
  cases hu : uuidParse id with
  | error e => rw [hu] at h; simp at h
  | ok u =>
    rw [hu, Encrypt_eq] at h
    by_cases h1 : rand.length < 12
    · simp [h1] at h
    · by_cases h2 : p.length > gcmMaxPlaintext
      · simp [h1, h2] at h
      · simp only [h1, h2, if_false, repository.Update] at h
        cases hf : db.fault with
        | some e => rw [hf] at h; simp at h
        | none =>
          rw [hf] at h
          simp only [Outcome.returned.injEq, Prod.mk.injEq, true_and] at h
          exact ⟨u, rfl, by omega, by omega, rfl, by rw [← h, sealedBytes]⟩

theorem blob_ne_plaintext (p k : GoString) (nonce : Bytes) (hn : nonce.length = 12) :
    hexEncodeToString (sealedBytes k nonce p) ≠ p := by
  intro h
  have := congrArg List.length h
  rw [hexEncodeToString_length, sealedBytes_length k nonce p hn] at this
  omega

theorem Save_returned (db db' : DB) (now : Time) (secret saved : Secret)
    (h : repository.Save db now secret = (db', saved, none)) :
    db.fault = none ∧
      saved = { secret with
        CreatedAt := if secret.CreatedAt = 0 then now else secret.CreatedAt
        UpdatedAt := if secret.UpdatedAt = 0 then now else secret.UpdatedAt } ∧
      db' = { db with rows := db.rows ++ [saved] } ∧
      (∀ r ∈ db.rows, r.ID ≠ secret.ID ∧ r.Key ≠ secret.Key) := by
  unfold repository.Save at h
  cases hf : db.fault with
  | some e => rw [hf] at h; simp at h
  | none =>
    rw [hf] at h
    simp only at h
    by_cases h1 : (db.rows.any fun r => decide (r.ID = secret.ID)) = true
    · rw [if_pos h1] at h; simp at h
    · rw [if_neg h1] at h
      by_cases h2 : (db.rows.any fun r => decide (r.Key = secret.Key)) = true
      · rw [if_pos h2] at h; simp at h
      · rw [if_neg h2] at h
        simp only [Prod.mk.injEq, and_true] at h
        obtain ⟨h3, h4⟩ := h
        refine ⟨rfl, h4.symm, ?_, ?_⟩
        · rw [← h3, ← h4]
        · intro r hr
          constructor
          · intro heq
            exact h1 (List.any_eq_true.mpr ⟨r, hr, by simpa using heq⟩)
          · intro heq
            exact h2 (List.any_eq_true.mpr ⟨r, hr, by simpa using heq⟩)

theorem CreateSecret_returned (db db' : DB) (now : Time) (key p k id key' : GoString)
    (rand : Bytes)
    (h : service.CreateSecret db now key p k rand = .returned ((id, key', none), db')) :
    28 ≤ rand.length ∧ p.length ≤ gcmMaxPlaintext ∧ db.fault = none ∧
      (∀ r ∈ db.rows, r.ID ≠ (uuidNewRandom (rand.drop 12)).1 ∧ r.Key ≠ key) ∧
      key' = key ∧ id = (uuidNewRandom (rand.drop 12)).1.String ∧
      db' = { db with rows := db.rows ++
        [{ ID := (uuidNewRandom (rand.drop 12)).1, Key := key,
           EncryptedValue := hexEncodeToString (sealedBytes k (rand.take 12) p),
           CreatedAt := now, UpdatedAt := now }] } := by
  unfold service.CreateSecret at h
  rw [CreateSecretModel_eq] at h
  by_cases h1 : rand.length < 12
  · simp [h1] at h
  · by_cases h2 : p.length > gcmMaxPlaintext
    · simp [h1, h2] at h
    · by_cases h3 : rand.length < 28
      · simp [h1, h2, h3] at h
      · simp only [h1, h2, h3, if_false] at h
        rcases hs : repository.Save db now
          { ID := (uuidNewRandom (List.drop 12 rand)).1, Key := key,
            EncryptedValue := hexEncodeToString (sealedBytes k (List.take 12 rand) p),
            CreatedAt := 0, UpdatedAt := 0 } with ⟨db1, saved, oe⟩
        rw [hs] at h
        cases oe with
        | some e => simp at h
        | none =>
          simp only [Outcome.returned.injEq, Prod.mk.injEq, and_true] at h
          obtain ⟨⟨h4, h5⟩, h6⟩ := h
          obtain ⟨hf, hsaved, hdb, hnew⟩ := Save_returned db db1 now _ saved hs
          simp only [if_true] at hsaved
          subst hsaved
          refine ⟨by omega, by omega, hf, hnew, h5.symm, h4.symm, ?_⟩
          rw [← h6, hdb]

/-! ## Lemmas on the multiplication of GHASH -/

theorem shiftRight_xor (a b n : Nat) : (a ^^^ b) >>> n = a >>> n ^^^ b >>> n := by
  apply Nat.eq_of_testBit_eq
  intro i
  simp

theorem natCast_mod_two {R : Type} [CommRing R] [CharP R 2] (n : Nat) :
    ((n % 2 : Nat) : R) = (n : R) := by
  have h2 : (2 : R) = 0 := CharTwo.two_eq_zero
  conv_rhs => rw [← Nat.div_add_mod n 2]
  rw [Nat.cast_add, Nat.cast_mul, Nat.cast_two, h2, zero_mul, zero_add]

theorem gfEval_xor {R : Type} [CommRing R] [CharP R 2] (x : R) (n a b : Nat) :
    gfEval x n (a ^^^ b) = gfEval x n a + gfEval x n b := by
  induction n with
  | zero => simp [gfEval]
  | succ n ih =>
    simp only [gfEval, ih, shiftRight_xor, Nat.xor_mod_two_eq]
    rw [natCast_mod_two, Nat.cast_add, ← natCast_mod_two (a >>> n), ← natCast_mod_two (b >>> n)]
    ring

theorem gfEval_zero {R : Type} [CommRing R] (x : R) (n : Nat) : gfEval x n 0 = 0 := by
  induction n with
  | zero => rfl
  | succ n ih => simp [gfEval, ih]

theorem gfEval_half {R : Type} [CommRing R] [CharP R 2] (x : R) (n v : Nat) :
    gfEval x n (v / 2) + ((v % 2 : Nat) : R) * x ^ n =
      x * gfEval x n v + (((v >>> n) % 2 : Nat) : R) := by
  induction n with
  | zero => simp [gfEval]
  | succ n ih =>
    have hs : (v / 2) >>> n = v >>> (n + 1) := by
      rw [Nat.shiftRight_succ_inside]
    simp only [gfEval, hs]
    have : x * gfEval x n (v / 2) + ((v % 2 : Nat) : R) * x ^ (n + 1) =
        x * (gfEval x n (v / 2) + ((v % 2 : Nat) : R) * x ^ n) := by ring
    calc (((v >>> (n + 1)) % 2 : Nat) : R) + x * gfEval x n (v / 2) +
            ((v % 2 : Nat) : R) * x ^ (n + 1)
        = (((v >>> (n + 1)) % 2 : Nat) : R) +
            x * (gfEval x n (v / 2) + ((v % 2 : Nat) : R) * x ^ n) := by ring
      _ = (((v >>> (n + 1)) % 2 : Nat) : R) +
            x * (x * gfEval x n v + (((v >>> n) % 2 : Nat) : R)) := by rw [ih]
      _ = x * ((((v >>> n) % 2 : Nat) : R) + x * gfEval x n v) +
            (((v >>> (n + 1)) % 2 : Nat) : R) := by ring

theorem gfEval_two_pow {R : Type} [CommRing R] (x : R) (n j : Nat) (hj : j < n) :
    gfEval x n (2 ^ j) = x ^ (n - 1 - j) := by
  induction n with
  | zero => omega
  | succ n ih =>
    simp only [gfEval]
    by_cases hjn : j = n
    · subst hjn
      have h0 : gfEval x j (2 ^ j) = 0 := by
        clear ih hj
        suffices h : ∀ m, m ≤ j → gfEval x m (2 ^ j) = 0 from h j le_rfl
        intro m
        induction m with
        | zero => intro _; rfl
        | succ m ihm =>
          intro hm
          simp only [gfEval, ihm (by omega), mul_zero, add_zero]
          have : (2 ^ j) >>> m = 2 ^ (j - m) := by
            rw [Nat.shiftRight_eq_div_pow, Nat.pow_div (by omega) (by norm_num)]
          rw [this]
          have : (2 : Nat) ^ (j - m) % 2 = 0 := by
            have : j - m = (j - m - 1) + 1 := by omega
            rw [this, pow_succ]; simp
          rw [this]; simp
      rw [h0]
      simp [Nat.shiftRight_eq_div_pow]
    · have hlt : j < n := by omega
      rw [ih hlt]
      have : (2 ^ j) >>> n = 0 := by
        rw [Nat.shiftRight_eq_div_pow]
        exact Nat.div_eq_of_lt (Nat.pow_lt_pow_right (by norm_num) hlt)
      rw [this]
      simp only [Nat.zero_mod, Nat.cast_zero, zero_add]
      rw [← pow_succ']
      congr 1
      omega

theorem gfShift_lt (v : Nat) (hv : v < 2 ^ 128) : gfShift v < 2 ^ 128 := by
  unfold gfShift
  have h1 : v >>> 1 < 2 ^ 128 := by
    rw [Nat.shiftRight_eq_div_pow]
    exact lt_of_le_of_lt (Nat.div_le_self _ _) hv
  split
  · exact h1
  · exact Nat.xor_lt_two_pow h1 (by decide)

theorem gfEval_reduction {R : Type} [CommRing R] [CharP R 2] (x : R) :
    gfEval x 128 (0xe1 <<< 120) = 1 + x + x ^ 2 + x ^ 7 := by
  have h : (0xe1 <<< 120 : Nat) = 2 ^ 127 ^^^ 2 ^ 126 ^^^ 2 ^ 125 ^^^ 2 ^ 120 := by decide
  rw [h, gfEval_xor, gfEval_xor, gfEval_xor, gfEval_two_pow x 128 127 (by norm_num),
    gfEval_two_pow x 128 126 (by norm_num), gfEval_two_pow x 128 125 (by norm_num),
    gfEval_two_pow x 128 120 (by norm_num)]
  norm_num

theorem gfEval_gfShift {R : Type} [CommRing R] [CharP R 2] (x : R)
    (hx : x ^ 128 + x ^ 7 + x ^ 2 + x + 1 = 0) (v : Nat) (hv : v < 2 ^ 128) :
    gfEval x 128 (gfShift v) = x * gfEval x 128 v := by
  have hhalf := gfEval_half x 128 v
  have hbit : (v >>> 128) % 2 = 0 := by
    rw [Nat.shiftRight_eq_div_pow, Nat.div_eq_of_lt hv]
  rw [hbit, Nat.cast_zero, add_zero] at hhalf
  unfold gfShift
  split
  next h0 =>
    rw [h0, Nat.cast_zero, zero_mul, add_zero] at hhalf
    rw [Nat.shiftRight_eq_div_pow, pow_one]
    exact hhalf
  next h1 =>
    have h1' : v % 2 = 1 := by omega
    rw [h1', Nat.cast_one, one_mul] at hhalf
    rw [gfEval_xor, gfEval_reduction, Nat.shiftRight_eq_div_pow, pow_one]
    have hx' : x ^ 128 = 1 + x + x ^ 2 + x ^ 7 := by
      have h2 := CharTwo.add_eq_iff_eq_add.mp hx
      rw [zero_add] at h2
      have h3 : x ^ 128 + (x ^ 7 + x ^ 2 + x + 1) = 0 := by
        rw [← hx]; ring
      have h4 := CharTwo.add_eq_iff_eq_add.mp h3
      rw [zero_add] at h4
      rw [h4]; ring
    rw [← hx']
    exact hhalf

theorem gfMulAux_lt (a : Nat) (n v z : Nat) (hv : v < 2 ^ 128) (hz : z < 2 ^ 128) :
    gfMulAux a n v z < 2 ^ 128 := by
  induction n generalizing v z with
  | zero => exact hz
  | succ n ih =>
    unfold gfMulAux
    apply ih _ _ (gfShift_lt v hv)
    split
    · exact Nat.xor_lt_two_pow hz hv
    · exact hz

theorem gfMul_lt (a b : Nat) (hb : b < 2 ^ 128) : gfMul a b < 2 ^ 128 :=
  gfMulAux_lt a 128 b 0 hb (by norm_num)

theorem gfEval_succ {R : Type} [CommRing R] (x : R) (n a : Nat) :
    gfEval x (n + 1) a = (((a >>> n) % 2 : Nat) : R) + x * gfEval x n a := rfl

theorem gfEval_gfMulAux {R : Type} [CommRing R] [CharP R 2] (x : R)
    (hx : x ^ 128 + x ^ 7 + x ^ 2 + x + 1 = 0) (a n v z : Nat) (hv : v < 2 ^ 128) :
    gfEval x 128 (gfMulAux a n v z) = gfEval x 128 z + gfEval x 128 v * gfEval x n a := by
  induction n generalizing v z with
  | zero =>
    have h0 : gfEval x 0 a = 0 := rfl
    rw [h0, mul_zero, add_zero]
    rfl
  | succ n ih =>
    unfold gfMulAux
    rw [ih _ _ (gfShift_lt v hv), gfEval_gfShift x hx v hv, gfEval_succ x n a]
    rcases Nat.mod_two_eq_zero_or_one (a >>> n) with hb | hb
    · rw [if_neg (by omega), hb, Nat.cast_zero, zero_add]
      ring
    · rw [if_pos hb, hb, gfEval_xor, Nat.cast_one]
      ring

theorem gfEval_gfMul {R : Type} [CommRing R] [CharP R 2] (x : R)
    (hx : x ^ 128 + x ^ 7 + x ^ 2 + x + 1 = 0) (a b : Nat) (hb : b < 2 ^ 128) :
    gfEval x 128 (gfMul a b) = gfEval x 128 a * gfEval x 128 b := by
  unfold gfMul
  rw [gfEval_gfMulAux x hx a 128 b 0 hb, gfEval_zero, zero_add, mul_comm]

theorem gfCertOk_sound {R : Type} [CommRing R] [CharP R 2] [Nontrivial R] (x : R)
    (hx : x ^ 128 + x ^ 7 + x ^ 2 + x + 1 = 0) (vs : List Nat) :
    ∀ r : Nat, r < 2 ^ 128 → gfCertOk r vs = true →
      ∀ k, k < vs.length → gfEval x 128 r ^ 2 ^ (k + 1) ≠ x := by
  induction vs with
  | nil => intro r _ _ k hk; simp at hk
  | cons v vs ih =>
    intro r hr hok k hk
    simp only [gfCertOk, Bool.and_eq_true, beq_iff_eq] at hok
    obtain ⟨hinv, hrest⟩ := hok
    have hr' : gfMul r r < 2 ^ 128 := gfMul_lt r r hr
    have hsq : gfEval x 128 (gfMul r r) = gfEval x 128 r ^ 2 := by
      rw [gfEval_gfMul x hx r r hr, sq]
    have hX : gfEval x 128 (2 ^ 126) = x := by
      rw [gfEval_two_pow x 128 126 (by norm_num)]; norm_num
    have h1 : gfEval x 128 (2 ^ 127) = 1 := by
      rw [gfEval_two_pow x 128 127 (by norm_num)]; norm_num
    have hprod := congrArg (gfEval x 128) hinv
    rw [gfEval_gfMul x hx _ _ (Nat.xor_lt_two_pow hr' (by norm_num)), gfEval_xor, hsq, hX, h1]
      at hprod
    have hne : gfEval x 128 r ^ 2 ≠ x := by
      intro heq
      rw [heq, CharTwo.add_self_eq_zero, mul_zero] at hprod
      exact zero_ne_one hprod
    cases k with
    | zero => simpa using hne
    | succ k =>
      have := ih (gfMul r r) hr' hrest k (by simpa using hk)
      rw [hsq, ← pow_mul, ← pow_succ'] at this
      exact this

set_option maxRecDepth 100000 in
theorem gfIrredCert_ok : gfCertOk (2 ^ 126) gfIrredCert = true := by decide!

theorem gfIrredCert_length : gfIrredCert.length = 64 := by decide

open Polynomial in
/-- The polynomial of the field of GHASH is irreducible over the field with two
elements. -/
theorem gcm_polynomial_irreducible :
    Irreducible (X ^ 128 + X ^ 7 + X ^ 2 + X + 1 : (ZMod 2)[X]) := by
  have hmonic : (X ^ 128 + X ^ 7 + X ^ 2 + X + 1 : (ZMod 2)[X]).Monic := by monicity!
  have hdeg : (X ^ 128 + X ^ 7 + X ^ 2 + X + 1 : (ZMod 2)[X]).natDegree = 128 := by
    compute_degree!
  have hne1 : (X ^ 128 + X ^ 7 + X ^ 2 + X + 1 : (ZMod 2)[X]) ≠ 1 := by
    intro h
    have := congrArg natDegree h
    rw [hdeg] at this
    simp at this
  rw [hmonic.irreducible_iff_degree_lt hne1]
  intro q hq hdvd
  by_contra hunit
  have hq0 : q ≠ 0 := by
    rintro rfl
    exact hmonic.ne_zero (zero_dvd_iff.mp hdvd)
  have hpos := degree_pos_of_not_isUnit_of_dvd_monic hmonic hunit hdvd
  obtain ⟨g, hg, hgq⟩ := exists_irreducible_of_degree_pos hpos
  have hgf : g ∣ (X ^ 128 + X ^ 7 + X ^ 2 + X + 1 : (ZMod 2)[X]) := dvd_trans hgq hdvd
  have hgd1 : 0 < g.natDegree := hg.natDegree_pos
  have hgd2 : g.natDegree ≤ 64 := by
    have h1 := natDegree_le_of_dvd hgq hq0
    have h2 : q.natDegree ≤ 64 := by
      rw [hdeg] at hq
      exact natDegree_le_of_degree_le hq
    omega
  haveI : Fact (Irreducible g) := ⟨hg⟩
  haveI : CharP (AdjoinRoot g) 2 := charP_of_injective_algebraMap' (ZMod 2) (AdjoinRoot g) 2
  haveI : Module.Finite (ZMod 2) (AdjoinRoot g) := (AdjoinRoot.powerBasis hg.ne_zero).finite
  haveI : Finite (AdjoinRoot g) := Module.finite_of_finite (ZMod 2)
  haveI : Fintype (AdjoinRoot g) := Fintype.ofFinite _
  have hcard : Fintype.card (AdjoinRoot g) = 2 ^ g.natDegree := by
    rw [card_eq_pow_finrank (K := ZMod 2) (V := AdjoinRoot g), ZMod.card,
      (AdjoinRoot.powerBasis hg.ne_zero).finrank, AdjoinRoot.powerBasis_dim]
  have hfrob : AdjoinRoot.root g ^ 2 ^ g.natDegree = AdjoinRoot.root g := by
    rw [← hcard]
    exact FiniteField.pow_card _
  have hroot : AdjoinRoot.root g ^ 128 + AdjoinRoot.root g ^ 7 + AdjoinRoot.root g ^ 2 +
      AdjoinRoot.root g + 1 = 0 := by
    have := AdjoinRoot.mk_eq_zero.mpr hgf
    simpa using this
  have hX : gfEval (AdjoinRoot.root g) 128 (2 ^ 126) = AdjoinRoot.root g := by
    rw [gfEval_two_pow _ 128 126 (by norm_num)]; norm_num
  have hsound := gfCertOk_sound (AdjoinRoot.root g) hroot gfIrredCert (2 ^ 126) (by norm_num)
    gfIrredCert_ok (g.natDegree - 1) (by rw [gfIrredCert_length]; omega)
  rw [hX] at hsound
  have : g.natDegree - 1 + 1 = g.natDegree := by omega
  rw [this] at hsound
  exact hsound hfrob

theorem gfEval_map {R S : Type} [CommRing R] [CommRing S] (g : R →+* S) (x : R) (n a : Nat) :
    g (gfEval x n a) = gfEval (g x) n a := by
  induction n with
  | zero => simp [gfEval]
  | succ n ih => rw [gfEval_succ, gfEval_succ, map_add, map_mul, map_natCast, ih]

open Polynomial in
theorem gfEval_X_degree_lt (n a : Nat) :
    (gfEval (X : (ZMod 2)[X]) n a).degree < (n : WithBot ℕ) := by
  induction n with
  | zero =>
    have h0 : gfEval (X : (ZMod 2)[X]) 0 a = 0 := rfl
    rw [h0, degree_zero]
    exact WithBot.bot_lt_coe _
  | succ n ih =>
    rw [gfEval_succ]
    refine lt_of_le_of_lt (degree_add_le _ _) (max_lt ?_ ?_)
    · rw [← C_eq_natCast]
      exact lt_of_le_of_lt degree_C_le (by exact_mod_cast Nat.succ_pos n)
    · by_cases hz : gfEval (X : (ZMod 2)[X]) n a = 0
      · rw [hz, mul_zero, degree_zero]
        exact WithBot.bot_lt_coe _
      · rw [mul_comm, degree_mul_X]
        have := ih
        rw [degree_eq_natDegree hz] at this ⊢
        exact_mod_cast Nat.succ_lt_succ (by exact_mod_cast this)

open Polynomial in
theorem gfEval_X_eq_zero (n a : Nat) (h : gfEval (X : (ZMod 2)[X]) n a = 0) : a % 2 ^ n = 0 := by
  induction n with
  | zero => simp [Nat.mod_one]
  | succ n ih =>
    rw [gfEval_succ] at h
    have hc := congrArg (fun p : (ZMod 2)[X] => p.coeff 0) h
    simp only [coeff_add, coeff_natCast_ite, if_true, mul_coeff_zero, coeff_X_zero, zero_mul,
      add_zero, coeff_zero] at hc
    have hbit : (a >>> n) % 2 = 0 := by
      rcases Nat.mod_two_eq_zero_or_one (a >>> n) with h0 | h1
      · exact h0
      · rw [h1] at hc
        simp at hc
    rw [hbit, Nat.cast_zero, zero_add] at h
    have hq : gfEval (X : (ZMod 2)[X]) n a = 0 := by
      rcases mul_eq_zero.mp h with hX | hq
      · exact absurd hX X_ne_zero
      · exact hq
    have := ih hq
    rw [Nat.mod_pow_succ, this, ← Nat.shiftRight_eq_div_pow, hbit, Nat.mul_zero]

open Polynomial in
/-- The multiplication of GHASH has no zero divisors. -/
theorem gfMul_eq_zero (a b : Nat) (ha : a < 2 ^ 128) (hb : b < 2 ^ 128) (h : gfMul a b = 0) :
    a = 0 ∨ b = 0 := by
  haveI : Fact (Irreducible (X ^ 128 + X ^ 7 + X ^ 2 + X + 1 : (ZMod 2)[X])) :=
    ⟨gcm_polynomial_irreducible⟩
  haveI : CharP (AdjoinRoot (X ^ 128 + X ^ 7 + X ^ 2 + X + 1 : (ZMod 2)[X])) 2 :=
    charP_of_injective_algebraMap' (ZMod 2) _ 2
  have hdeg : (X ^ 128 + X ^ 7 + X ^ 2 + X + 1 : (ZMod 2)[X]).degree = 128 := by
    compute_degree!
  have hroot : AdjoinRoot.root (X ^ 128 + X ^ 7 + X ^ 2 + X + 1 : (ZMod 2)[X]) ^ 128 +
      AdjoinRoot.root (X ^ 128 + X ^ 7 + X ^ 2 + X + 1 : (ZMod 2)[X]) ^ 7 +
      AdjoinRoot.root (X ^ 128 + X ^ 7 + X ^ 2 + X + 1 : (ZMod 2)[X]) ^ 2 +
      AdjoinRoot.root (X ^ 128 + X ^ 7 + X ^ 2 + X + 1 : (ZMod 2)[X]) + 1 = 0 := by
    have h0 := AdjoinRoot.mk_self (f := (X ^ 128 + X ^ 7 + X ^ 2 + X + 1 : (ZMod 2)[X]))
    rw [map_add, map_add, map_add, map_add, map_pow, map_pow, map_pow, AdjoinRoot.mk_X,
      map_one] at h0
    exact h0
  have hinj : ∀ n : Nat, n < 2 ^ 128 →
      gfEval (AdjoinRoot.root (X ^ 128 + X ^ 7 + X ^ 2 + X + 1 : (ZMod 2)[X])) 128 n = 0 →
      n = 0 := by
    intro n hn h0
    rw [← AdjoinRoot.mk_X, ← gfEval_map, AdjoinRoot.mk_eq_zero] at h0
    have hz := eq_zero_of_dvd_of_degree_lt h0 (by rw [hdeg]; exact gfEval_X_degree_lt 128 n)
    have := gfEval_X_eq_zero 128 n hz
    rwa [Nat.mod_eq_of_lt hn] at this
  have hprod := gfEval_gfMul _ hroot a b hb
  rw [h, gfEval_zero] at hprod
  rcases mul_eq_zero.mp hprod.symm with h1 | h2
  · exact Or.inl (hinj a ha h1)
  · exact Or.inr (hinj b hb h2)

/-! ## Lemmas on big-endian numbers -/

theorem beNat_foldl (l : List Nat) (acc : Nat) :
    l.foldl (fun acc b => acc * 256 + b) acc = acc * 256 ^ l.length + beNat l := by
  induction l generalizing acc with
  | nil => simp [beNat]
  | cons a l ih =>
    simp only [List.foldl_cons, List.length_cons, beNat]
    rw [ih, ih (0 * 256 + a)]
    ring

theorem beNat_cons (a : Nat) (l : List Nat) : beNat (a :: l) = a * 256 ^ l.length + beNat l := by
  unfold beNat
  rw [List.foldl_cons, beNat_foldl]
  simp [beNat]

theorem beNat_lt (l : List Nat) (hl : ∀ b ∈ l, b < 256) : beNat l < 256 ^ l.length := by
  induction l with
  | nil => simp [beNat]
  | cons a l ih =>
    rw [beNat_cons, List.length_cons, pow_succ]
    have ha : a < 256 := hl a (by simp)
    have := ih (fun b hb => hl b (by simp [hb]))
    nlinarith [Nat.zero_le (256 ^ l.length)]

theorem beNat_injective (l l' : List Nat) (hlen : l.length = l'.length)
    (hl : ∀ b ∈ l, b < 256) (hl' : ∀ b ∈ l', b < 256) (h : beNat l = beNat l') : l = l' := by
  induction l generalizing l' with
  | nil =>
    cases l' with
    | nil => rfl
    | cons a l' => simp at hlen
  | cons a l ih =>
    cases l' with
    | nil => simp at hlen
    | cons a' l' =>
      simp only [List.length_cons, Nat.add_right_cancel_iff] at hlen
      rw [beNat_cons, beNat_cons, ← hlen] at h
      have h1 := beNat_lt l (fun b hb => hl b (by simp [hb]))
      have h2 := beNat_lt l' (fun b hb => hl' b (by simp [hb]))
      rw [← hlen] at h2
      have hpos : 0 < 256 ^ l.length := by positivity
      have ha : a = a' := by
        have e1 : (a * 256 ^ l.length + beNat l) / 256 ^ l.length = a := by
          rw [Nat.add_comm, Nat.add_mul_div_right _ _ hpos, Nat.div_eq_of_lt h1, Nat.zero_add]
        have e2 : (a' * 256 ^ l.length + beNat l') / 256 ^ l.length = a' := by
          rw [Nat.add_comm, Nat.add_mul_div_right _ _ hpos, Nat.div_eq_of_lt h2, Nat.zero_add]
        rw [← e1, ← e2, h]
      subst ha
      have hr : beNat l = beNat l' := by omega
      rw [ih l' hlen (fun b hb => hl b (by simp [hb])) (fun b hb => hl' b (by simp [hb])) hr]

theorem beBytes_lt (n x : Nat) : ∀ b ∈ beBytes n x, b < 256 := by
  induction n with
  | zero => simp [beBytes]
  | succ n ih =>
    intro b hb
    simp only [beBytes, List.mem_cons] at hb
    rcases hb with rfl | hb
    · exact Nat.mod_lt _ (by norm_num)
    · exact ih b hb

theorem beNat_beBytes (n x : Nat) : beNat (beBytes n x) = x % 256 ^ n := by
  induction n with
  | zero => simp [beBytes, beNat, Nat.mod_one]
  | succ n ih =>
    rw [beBytes, beNat_cons, beBytes_length, ih, Nat.shiftRight_eq_div_pow]
    have h8 : (2 : Nat) ^ (8 * n) = 256 ^ n := by
      rw [pow_mul]; norm_num
    rw [h8, pow_succ]
    rw [Nat.mod_mul]
    ring

theorem beBytes_injective (x y : Nat) (hx : x < 2 ^ 128) (hy : y < 2 ^ 128)
    (h : beBytes 16 x = beBytes 16 y) : x = y := by
  have h1 := beNat_beBytes 16 x
  have h2 := beNat_beBytes 16 y
  rw [h] at h1
  rw [h1] at h2
  have e : (256 : Nat) ^ 16 = 2 ^ 128 := by norm_num
  rw [e, Nat.mod_eq_of_lt hx, Nat.mod_eq_of_lt hy] at h2
  exact h2

/-! ## Lemmas on the AES block -/

theorem list_length_16 {α : Type} (s : List α) (h : s.length = 16) :
    ∃ a0 a1 a2 a3 a4 a5 a6 a7 a8 a9 a10 a11 a12 a13 a14 a15 : α,
      s = [a0, a1, a2, a3, a4, a5, a6, a7, a8, a9, a10, a11, a12, a13, a14, a15] := by
  rcases s with _ | ⟨a0, s⟩; · simp at h
  rcases s with _ | ⟨a1, s⟩; · simp at h
  rcases s with _ | ⟨a2, s⟩; · simp at h
  rcases s with _ | ⟨a3, s⟩; · simp at h
  rcases s with _ | ⟨a4, s⟩; · simp at h
  rcases s with _ | ⟨a5, s⟩; · simp at h
  rcases s with _ | ⟨a6, s⟩; · simp at h
  rcases s with _ | ⟨a7, s⟩; · simp at h
  rcases s with _ | ⟨a8, s⟩; · simp at h
  rcases s with _ | ⟨a9, s⟩; · simp at h
  rcases s with _ | ⟨a10, s⟩; · simp at h
  rcases s with _ | ⟨a11, s⟩; · simp at h
  rcases s with _ | ⟨a12, s⟩; · simp at h
  rcases s with _ | ⟨a13, s⟩; · simp at h
  rcases s with _ | ⟨a14, s⟩; · simp at h
  rcases s with _ | ⟨a15, s⟩; · simp at h
  rcases s with _ | ⟨a16, s⟩
  · exact ⟨a0, a1, a2, a3, a4, a5, a6, a7, a8, a9, a10, a11, a12, a13, a14, a15, rfl⟩
  · simp at h

theorem xor_lt_256 (a b : Nat) (ha : a < 256) (hb : b < 256) : a ^^^ b < 256 :=
  Nat.xor_lt_two_pow (n := 8) ha hb

theorem aesSub_lt (b : Nat) : aesSub b < 256 := Nat.mod_lt _ (by norm_num)

theorem xtime_lt (b : Nat) : xtime b < 256 := by
  unfold xtime
  split
  · omega
  · exact xor_lt_256 _ _ (Nat.mod_lt _ (by norm_num)) (by norm_num)

theorem xorNats_length (a b : List Nat) (h : a.length = b.length) :
    (xorNats a b).length = a.length := by
  simp [xorNats, h]

theorem xorNats_lt (a b : List Nat) (ha : ∀ x ∈ a, x < 256) (hb : ∀ x ∈ b, x < 256) :
    ∀ x ∈ xorNats a b, x < 256 := by
  induction a generalizing b with
  | nil => simp [xorNats]
  | cons u a ih =>
    cases b with
    | nil => simp [xorNats]
    | cons v b =>
      intro x hx
      simp only [xorNats, List.zipWith_cons_cons, List.mem_cons] at hx
      rcases hx with rfl | hx
      · exact xor_lt_256 _ _ (ha u (by simp)) (hb v (by simp))
      · exact ih b (fun y hy => ha y (by simp [hy])) (fun y hy => hb y (by simp [hy])) x hx

theorem xorNats_isState (s k : List Nat) (hs : IsState s) (hk : IsState k) :
    IsState (xorNats s k) :=
  ⟨by rw [xorNats_length s k (by rw [hs.1, hk.1]), hs.1], xorNats_lt s k hs.2 hk.2⟩

theorem xorNats_cancel (s k : List Nat) (h : s.length ≤ k.length) :
    xorNats (xorNats s k) k = s := by
  induction s generalizing k with
  | nil => simp [xorNats]
  | cons u s ih =>
    cases k with
    | nil => simp at h
    | cons v k =>
      simp only [xorNats, List.zipWith_cons_cons, List.cons.injEq]
      refine ⟨?_, ih k (by simpa using h)⟩
      rw [Nat.xor_assoc, Nat.xor_self, Nat.xor_zero]

theorem map_aesSub_isState (s : List Nat) (hs : IsState s) : IsState (s.map aesSub) := by
  refine ⟨by rw [List.length_map, hs.1], ?_⟩
  intro b hb
  obtain ⟨a, _, rfl⟩ := List.mem_map.1 hb
  exact aesSub_lt a

set_option maxRecDepth 100000 in
theorem aesInvSub_aesSub : ∀ b : Fin 256, aesInvSub (aesSub b.val) = b.val := by decide!

theorem aesSub_injective (a b : Nat) (ha : a < 256) (hb : b < 256) (h : aesSub a = aesSub b) :
    a = b := by
  have h1 := aesInvSub_aesSub ⟨a, ha⟩
  have h2 := aesInvSub_aesSub ⟨b, hb⟩
  simp only at h1 h2
  rw [← h1, ← h2, h]

theorem map_aesSub_injective (s s' : List Nat) (hs : ∀ b ∈ s, b < 256)
    (hs' : ∀ b ∈ s', b < 256) (h : s.map aesSub = s'.map aesSub) : s = s' := by
  induction s generalizing s' with
  | nil =>
    cases s' with
    | nil => rfl
    | cons a s' => simp at h
  | cons a s ih =>
    cases s' with
    | nil => simp at h
    | cons a' s' =>
      simp only [List.map_cons, List.cons.injEq] at h
      rw [aesSub_injective a a' (hs a (by simp)) (hs' a' (by simp)) h.1,
        ih s' (fun b hb => hs b (by simp [hb])) (fun b hb => hs' b (by simp [hb])) h.2]

theorem aesShiftRows_isState (s : List Nat) (hs : IsState s) : IsState (aesShiftRows s) := by
  obtain ⟨a0, a1, a2, a3, a4, a5, a6, a7, a8, a9, a10, a11, a12, a13, a14, a15, rfl⟩ :=
    list_length_16 s hs.1
  refine ⟨rfl, ?_⟩
  intro b hb
  apply hs.2 b
  simp only [aesShiftRows, List.mem_cons, List.mem_singleton, List.not_mem_nil, or_false] at hb ⊢
  tauto

theorem aesShiftRows_four (s : List Nat) (hs : s.length = 16) :
    aesShiftRows (aesShiftRows (aesShiftRows (aesShiftRows s))) = s := by
  obtain ⟨a0, a1, a2, a3, a4, a5, a6, a7, a8, a9, a10, a11, a12, a13, a14, a15, rfl⟩ :=
    list_length_16 s hs
  rfl

theorem aesShiftRows_injective (s s' : List Nat) (hs : s.length = 16) (hs' : s'.length = 16)
    (h : aesShiftRows s = aesShiftRows s') : s = s' := by
  rw [← aesShiftRows_four s hs, ← aesShiftRows_four s' hs', h]

/-! ## Step `MixColumns` is invertible -/

theorem xtime_eq (b : Nat) (hb : b < 256) :
    xtime b = ((b <<< 1) % 2 ^ 8) ^^^ (if b.testBit 7 then 27 else 0) := by
  unfold xtime
  rw [Nat.testBit_to_div_mod, Nat.shiftLeft_eq]
  by_cases h : b < 128
  · have h7 : ¬ (b / 2 ^ 7 % 2 = 1) := by omega
    have h2 : b * 2 ^ 1 % 2 ^ 8 = 2 * b := by omega
    simp only [h, h7, if_true, decide_False, h2, Nat.xor_zero]
    simp
  · have h7 : b / 2 ^ 7 % 2 = 1 := by omega
    have h2 : b * 2 ^ 1 % 2 ^ 8 = 2 * b % 256 := by omega
    simp only [h, h7, if_false, decide_True, h2, if_true]

theorem xtime_xor (a b : Nat) (ha : a < 256) (hb : b < 256) :
    xtime (a ^^^ b) = xtime a ^^^ xtime b := by
  rw [xtime_eq (a ^^^ b) (xor_lt_256 a b ha hb), xtime_eq a ha, xtime_eq b hb]
  apply Nat.eq_of_testBit_eq
  intro i
  simp only [Nat.testBit_xor, Nat.testBit_mod_two_pow, Nat.testBit_shiftLeft]
  cases h1 : a.testBit 7 <;> cases h2 : b.testBit 7 <;>
    cases h3 : a.testBit (i - 1) <;> cases h4 : b.testBit (i - 1) <;>
    cases h5 : Nat.testBit 27 i <;> by_cases h6 : i < 8 <;> by_cases h7 : 1 ≤ i <;>
    simp [h5, h6, h7]

theorem nat_xor_left_comm (a b c : Nat) : a ^^^ (b ^^^ c) = b ^^^ (a ^^^ c) := by
  rw [← Nat.xor_assoc, Nat.xor_comm a b, Nat.xor_assoc]

theorem aesMixColumns_two (a0 a1 a2 a3 : Nat) (rest : List Nat)
    (h0 : a0 < 256) (h1 : a1 < 256) (h2 : a2 < 256) (h3 : a3 < 256) :
    aesMixColumns (aesMixColumns (a0 :: a1 :: a2 :: a3 :: rest)) =
      (xtime (xtime a0) ^^^ a0 ^^^ xtime (xtime a2)) ::
      (xtime (xtime a1) ^^^ a1 ^^^ xtime (xtime a3)) ::
      (xtime (xtime a2) ^^^ a2 ^^^ xtime (xtime a0)) ::
      (xtime (xtime a3) ^^^ a3 ^^^ xtime (xtime a1)) ::
        aesMixColumns (aesMixColumns rest) := by
  rw [aesMixColumns, aesMixColumns]
  have t0 := xtime_lt a0
  have t1 := xtime_lt a1
  have t2 := xtime_lt a2
  have t3 := xtime_lt a3
  simp (disch := repeat (first | assumption | apply xor_lt_256 | apply xtime_lt)) only [xtime_xor]
  simp only [Nat.xor_assoc, Nat.xor_comm, nat_xor_left_comm, Nat.xor_self, Nat.xor_zero,
    Nat.zero_xor, Nat.xor_cancel_left]

theorem aesMixColumns_four_column (a0 a1 a2 a3 : Nat) (rest : List Nat)
    (h0 : a0 < 256) (h1 : a1 < 256) (h2 : a2 < 256) (h3 : a3 < 256) :
    aesMixColumns (aesMixColumns (aesMixColumns (aesMixColumns (a0 :: a1 :: a2 :: a3 :: rest)))) =
      a0 :: a1 :: a2 :: a3 ::
        aesMixColumns (aesMixColumns (aesMixColumns (aesMixColumns rest))) := by
  have t0 := xtime_lt (xtime a0)
  have t1 := xtime_lt (xtime a1)
  have t2 := xtime_lt (xtime a2)
  have t3 := xtime_lt (xtime a3)
  rw [aesMixColumns_two a0 a1 a2 a3 rest h0 h1 h2 h3,
    aesMixColumns_two _ _ _ _ _
      (xor_lt_256 _ _ (xor_lt_256 _ _ t0 h0) t2) (xor_lt_256 _ _ (xor_lt_256 _ _ t1 h1) t3)
      (xor_lt_256 _ _ (xor_lt_256 _ _ t2 h2) t0) (xor_lt_256 _ _ (xor_lt_256 _ _ t3 h3) t1)]
  simp (disch := repeat (first | assumption | apply xor_lt_256 | apply xtime_lt)) only [xtime_xor]
  simp only [Nat.xor_assoc, Nat.xor_comm, nat_xor_left_comm, Nat.xor_self, Nat.xor_zero,
    Nat.zero_xor, Nat.xor_cancel_left]

theorem aesMixColumns_four (s : List Nat) (hs : IsState s) :
    aesMixColumns (aesMixColumns (aesMixColumns (aesMixColumns s))) = s := by
  obtain ⟨a0, a1, a2, a3, a4, a5, a6, a7, a8, a9, a10, a11, a12, a13, a14, a15, rfl⟩ :=
    list_length_16 s hs.1
  have hb : ∀ b ∈ [a0, a1, a2, a3, a4, a5, a6, a7, a8, a9, a10, a11, a12, a13, a14, a15],
      b < 256 := hs.2
  rw [aesMixColumns_four_column a0 a1 a2 a3 _ (hb _ (by simp)) (hb _ (by simp)) (hb _ (by simp))
      (hb _ (by simp)),
    aesMixColumns_four_column a4 a5 a6 a7 _ (hb _ (by simp)) (hb _ (by simp)) (hb _ (by simp))
      (hb _ (by simp)),
    aesMixColumns_four_column a8 a9 a10 a11 _ (hb _ (by simp)) (hb _ (by simp)) (hb _ (by simp))
      (hb _ (by simp)),
    aesMixColumns_four_column a12 a13 a14 a15 _ (hb _ (by simp)) (hb _ (by simp))
      (hb _ (by simp)) (hb _ (by simp))]
  rfl

theorem aesMixColumns_lt (s : List Nat) (n : Nat) (hn : s.length ≤ n) (hs : ∀ b ∈ s, b < 256) :
    ∀ b ∈ aesMixColumns s, b < 256 := by
  induction n generalizing s with
  | zero =>
    have : s = [] := List.eq_nil_of_length_eq_zero (by omega)
    subst this
    simp [aesMixColumns]
  | succ n ih =>
    match s, hn, hs with
    | [], _, _ => simp [aesMixColumns]
    | [_], _, _ => simp [aesMixColumns]
    | [_, _], _, _ => simp [aesMixColumns]
    | [_, _, _], _, _ => simp [aesMixColumns]
    | a0 :: a1 :: a2 :: a3 :: rest, hn, hs =>
      have h0 : a0 < 256 := hs a0 (by simp)
      have h1 : a1 < 256 := hs a1 (by simp)
      have h2 : a2 < 256 := hs a2 (by simp)
      have h3 : a3 < 256 := hs a3 (by simp)
      have t0 := xtime_lt a0
      have t1 := xtime_lt a1
      have t2 := xtime_lt a2
      have t3 := xtime_lt a3
      intro b hb
      rw [aesMixColumns] at hb
      simp only [List.mem_cons] at hb
      rcases hb with rfl | rfl | rfl | rfl | hb
      · repeat (first | assumption | apply xor_lt_256)
      · repeat (first | assumption | apply xor_lt_256)
      · repeat (first | assumption | apply xor_lt_256)
      · repeat (first | assumption | apply xor_lt_256)
      · exact ih rest (by simp at hn; omega) (fun x hx => hs x (by simp [hx])) b hb

theorem aesMixColumns_length (s : List Nat) (hs : s.length = 16) :
    (aesMixColumns s).length = 16 := by
  obtain ⟨a0, a1, a2, a3, a4, a5, a6, a7, a8, a9, a10, a11, a12, a13, a14, a15, rfl⟩ :=
    list_length_16 s hs
  rfl

theorem aesMixColumns_isState (s : List Nat) (hs : IsState s) : IsState (aesMixColumns s) :=
  ⟨aesMixColumns_length s hs.1, aesMixColumns_lt s 16 (by rw [hs.1]) hs.2⟩

theorem aesMixColumns_injective (s s' : List Nat) (hs : IsState s) (hs' : IsState s')
    (h : aesMixColumns s = aesMixColumns s') : s = s' := by
  rw [← aesMixColumns_four s hs, ← aesMixColumns_four s' hs', h]

/-! ## The AES block encryption is injective -/

theorem aesRounds_isState (ks : List (List Nat)) (hks : ∀ k ∈ ks, IsState k) (s : List Nat)
    (hs : IsState s) : IsState (aesRounds ks s) := by
  induction ks generalizing s with
  | nil => exact hs
  | cons k ks ih =>
    cases ks with
    | nil =>
      exact xorNats_isState _ _ (aesShiftRows_isState _ (map_aesSub_isState s hs))
        (hks k (by simp))
    | cons k' ks =>
      rw [aesRounds]
      exact ih (fun x hx => hks x (by simp [hx])) _
        (xorNats_isState _ _
          (aesMixColumns_isState _ (aesShiftRows_isState _ (map_aesSub_isState s hs)))
          (hks k (by simp)))

theorem xorNats_injective (s s' k : List Nat) (hs : IsState s) (hs' : IsState s')
    (hk : IsState k) (h : xorNats s k = xorNats s' k) : s = s' := by
  rw [← xorNats_cancel s k (by rw [hs.1, hk.1]), ← xorNats_cancel s' k (by rw [hs'.1, hk.1]), h]

theorem aesRounds_injective (ks : List (List Nat)) (hks : ∀ k ∈ ks, IsState k) (s s' : List Nat)
    (hs : IsState s) (hs' : IsState s') (h : aesRounds ks s = aesRounds ks s') : s = s' := by
  induction ks generalizing s s' with
  | nil => exact h
  | cons k ks ih =>
    have hk : IsState k := hks k (by simp)
    have h1 := aesShiftRows_isState _ (map_aesSub_isState s hs)
    have h1' := aesShiftRows_isState _ (map_aesSub_isState s' hs')
    cases ks with
    | nil =>
      rw [aesRounds, aesRounds] at h
      have h2 := xorNats_injective _ _ k h1 h1' hk h
      have h3 := aesShiftRows_injective _ _ (map_aesSub_isState s hs).1
        (map_aesSub_isState s' hs').1 h2
      exact map_aesSub_injective s s' hs.2 hs'.2 h3
    | cons k' ks =>
      rw [aesRounds, aesRounds] at h
      have h4 := ih (fun x hx => hks x (by simp [hx])) _ _
        (xorNats_isState _ _ (aesMixColumns_isState _ h1) hk)
        (xorNats_isState _ _ (aesMixColumns_isState _ h1') hk) h
      have h5 := xorNats_injective _ _ k (aesMixColumns_isState _ h1)
        (aesMixColumns_isState _ h1') hk h4
      have h2 := aesMixColumns_injective _ _ h1 h1' h5
      have h3 := aesShiftRows_injective _ _ (map_aesSub_isState s hs).1
        (map_aesSub_isState s' hs').1 h2
      exact map_aesSub_injective s s' hs.2 hs'.2 h3

theorem beBytes_isState (x : Nat) : IsState (beBytes 16 x) :=
  ⟨beBytes_length 16 x, beBytes_lt 16 x⟩

theorem aesEncryptBlock_lt (c : AesCipher) (hc : c.WellFormed) (x : Nat) :
    aesEncryptBlock c x < 2 ^ 128 := by
  unfold aesEncryptBlock
  obtain ⟨hne, hk⟩ := hc
  cases he : c.enc with
  | nil => exact absurd he hne
  | cons k0 ks =>
    rw [he] at hk
    simp only
    have hs := aesRounds_isState ks (fun k h => hk k (by simp [h])) _
      (xorNats_isState _ _ (beBytes_isState x) (hk k0 (by simp)))
    have := beNat_lt _ hs.2
    rw [hs.1] at this
    exact this

theorem aesEncryptBlock_injective (c : AesCipher) (hc : c.WellFormed) (x y : Nat)
    (hx : x < 2 ^ 128) (hy : y < 2 ^ 128) (h : aesEncryptBlock c x = aesEncryptBlock c y) :
    x = y := by
  unfold aesEncryptBlock at h
  obtain ⟨hne, hk⟩ := hc
  cases he : c.enc with
  | nil => exact absurd he hne
  | cons k0 ks =>
    rw [he] at hk h
    simp only at h
    have hk0 := hk k0 (by simp)
    have hks : ∀ k ∈ ks, IsState k := fun k h => hk k (by simp [h])
    have hsx := xorNats_isState _ _ (beBytes_isState x) hk0
    have hsy := xorNats_isState _ _ (beBytes_isState y) hk0
    have hrx := aesRounds_isState ks hks _ hsx
    have hry := aesRounds_isState ks hks _ hsy
    have h1 := beNat_injective _ _ (by rw [hrx.1, hry.1]) hrx.2 hry.2 h
    have h2 := aesRounds_injective ks hks _ _ hsx hsy h1
    have h3 := xorNats_injective _ _ k0 (beBytes_isState x) (beBytes_isState y) hk0 h2
    exact beBytes_injective x y hx hy h3

/-! ## The cipher of a master key is well formed -/

theorem aesRcon_lt (i : Nat) : aesRcon.getD i 0 < 256 := by
  by_cases h : i < 10
  · interval_cases i <;> decide
  · rw [List.getD_eq_default _ _ (by simp [aesRcon]; omega)]
    norm_num

theorem rotateLeft_length (l : List Nat) (n : Nat) : (l.rotateLeft n).length = l.length := by
  unfold List.rotateLeft
  simp only
  split
  · rfl
  · simp only [List.length_append, List.length_drop, List.length_take]
    have := Nat.mod_lt n (show 0 < l.length by omega)
    omega

theorem xorNats_isWord (a b : List Nat) (ha : IsWord a) (hb : IsWord b) : IsWord (xorNats a b) :=
  ⟨by rw [xorNats_length a b (by rw [ha.1, hb.1]), ha.1], xorNats_lt a b ha.2 hb.2⟩

theorem getD_isWord (w : List (List Nat)) (hw : ∀ x ∈ w, IsWord x) (j : Nat) (hj : j < w.length) :
    IsWord (w.getD j []) := by
  rw [List.getD_eq_getElem _ _ hj]
  exact hw _ (List.getElem_mem hj)

theorem aesExpand_isWord (nk : Nat) (hnk : 0 < nk) (n : Nat) (w : List (List Nat))
    (hlen : nk ≤ w.length) (hw : ∀ x ∈ w, IsWord x) : ∀ x ∈ aesExpand nk n w, IsWord x := by
  induction n generalizing w with
  | zero => exact hw
  | succ n ih =>
    rw [aesExpand]
    have hprev := getD_isWord w hw (w.length - 1) (by omega)
    have hold := getD_isWord w hw (w.length - nk) (by omega)
    have hsub : IsWord ((w.getD (w.length - 1) []).map aesSub) :=
      ⟨by rw [List.length_map, hprev.1], fun b hb => by
        obtain ⟨a, _, rfl⟩ := List.mem_map.1 hb
        exact aesSub_lt a⟩
    have hrot : IsWord (xorNats (((w.getD (w.length - 1) []).rotateLeft 1).map aesSub)
        [aesRcon.getD (w.length / nk - 1) 0, 0, 0, 0]) := by
      apply xorNats_isWord
      · refine ⟨by rw [List.length_map, rotateLeft_length, hprev.1], fun b hb => ?_⟩
        obtain ⟨a, _, rfl⟩ := List.mem_map.1 hb
        exact aesSub_lt a
      · refine ⟨rfl, fun b hb => ?_⟩
        simp only [List.mem_cons, List.mem_singleton, List.not_mem_nil, or_false] at hb
        rcases hb with rfl | rfl | rfl | rfl
        · exact aesRcon_lt _
        · norm_num
        · norm_num
        · norm_num
    apply ih
    · rw [List.length_append]; omega
    · intro x hx
      rw [List.mem_append, List.mem_singleton] at hx
      rcases hx with hx | rfl
      · exact hw x hx
      · apply xorNats_isWord _ _ hold
        split
        · exact hrot
        · split
          · exact hsub
          · exact hprev

theorem aesExpand_length (nk n : Nat) (w : List (List Nat)) :
    (aesExpand nk n w).length = w.length + n := by
  induction n generalizing w with
  | zero => rfl
  | succ n ih =>
    rw [aesExpand, ih, List.length_append, List.length_singleton]
    omega

theorem aesRoundKeys_isState (n : Nat) (w : List (List Nat)) (hn : w.length ≤ n)
    (hw : ∀ x ∈ w, IsWord x) : ∀ k ∈ aesRoundKeys w, IsState k := by
  induction n generalizing w with
  | zero =>
    have : w = [] := List.eq_nil_of_length_eq_zero (by omega)
    subst this
    simp [aesRoundKeys]
  | succ n ih =>
    match w, hn, hw with
    | [], _, _ => simp [aesRoundKeys]
    | [_], _, _ => simp [aesRoundKeys]
    | [_, _], _, _ => simp [aesRoundKeys]
    | [_, _, _], _, _ => simp [aesRoundKeys]
    | w0 :: w1 :: w2 :: w3 :: rest, hn, hw =>
      have h0 := hw w0 (by simp)
      have h1 := hw w1 (by simp)
      have h2 := hw w2 (by simp)
      have h3 := hw w3 (by simp)
      intro k hk
      rw [aesRoundKeys, List.mem_cons] at hk
      rcases hk with rfl | hk
      · refine ⟨by simp [h0.1, h1.1, h2.1, h3.1], fun b hb => ?_⟩
        simp only [List.mem_append] at hb
        rcases hb with ((hb | hb) | hb) | hb
        · exact h0.2 b hb
        · exact h1.2 b hb
        · exact h2.2 b hb
        · exact h3.2 b hb
      · exact ih rest (by simp at hn; omega) (fun x hx => hw x (by simp [hx])) k hk

theorem aesRoundKeys_ne_nil (w : List (List Nat)) (h : 4 ≤ w.length) : aesRoundKeys w ≠ [] := by
  match w, h with
  | w0 :: w1 :: w2 :: w3 :: rest, _ => simp [aesRoundKeys]

theorem newCipher_wellFormed (key : Bytes) (h : key.length = 32) : (newCipher key).WellFormed := by
  have hw0 : ∀ x ∈ (List.range (key.length / 4)).map
      (fun i => ((key.map Fin.val).drop (4 * i)).take 4), IsWord x := by
    intro x hx
    obtain ⟨i, hi, rfl⟩ := List.mem_map.1 hx
    rw [List.mem_range, h] at hi
    refine ⟨?_, fun b hb => ?_⟩
    · rw [List.length_take, List.length_drop, List.length_map, h]
      omega
    · have hb1 := List.mem_of_mem_drop (List.mem_of_mem_take hb)
      obtain ⟨a, _, rfl⟩ := List.mem_map.1 hb1
      exact a.isLt
  have hlen0 : ((List.range (key.length / 4)).map
      (fun i => ((key.map Fin.val).drop (4 * i)).take 4)).length = key.length / 4 := by
    rw [List.length_map, List.length_range]
  unfold newCipher
  refine ⟨?_, ?_⟩
  · apply aesRoundKeys_ne_nil
    rw [aesExpand_length, hlen0, h]
    norm_num
  · exact aesRoundKeys_isState _ _ (le_refl _)
      (aesExpand_isWord _ (by rw [h]; norm_num) _ _ (by rw [hlen0]) hw0)

theorem masterCipher_wellFormed (k : GoString) : (masterCipher k).WellFormed :=
  newCipher_wellFormed _ (createHash_length k)

/-! ## Lemmas on GHASH -/

theorem gfShift_zero : gfShift 0 = 0 := by decide

theorem gfMulAux_zero (a n z : Nat) : gfMulAux a n 0 z = z := by
  induction n generalizing z with
  | zero => rfl
  | succ n ih =>
    rw [gfMulAux, gfShift_zero, ih]
    split <;> simp

theorem gfMul_zero (a : Nat) : gfMul a 0 = 0 := gfMulAux_zero a 128 0

theorem gfMulAux_xor (a b n v z1 z2 : Nat) :
    gfMulAux (a ^^^ b) n v (z1 ^^^ z2) = gfMulAux a n v z1 ^^^ gfMulAux b n v z2 := by
  induction n generalizing v z1 z2 with
  | zero => rfl
  | succ n ih =>
    simp only [gfMulAux, shiftRight_xor, Nat.xor_mod_two_eq]
    have ha := Nat.mod_two_eq_zero_or_one (a >>> n)
    have hb := Nat.mod_two_eq_zero_or_one (b >>> n)
    rcases ha with ha | ha <;> rcases hb with hb | hb
    · have h : ¬ ((a >>> n + b >>> n) % 2 = 1) := by omega
      simp only [h, ha, hb, if_false, Nat.zero_ne_one]
      exact ih _ _ _
    · have h : (a >>> n + b >>> n) % 2 = 1 := by omega
      simp only [h, ha, hb, if_true, if_false, Nat.zero_ne_one]
      rw [Nat.xor_assoc]
      exact ih _ _ _
    · have h : (a >>> n + b >>> n) % 2 = 1 := by omega
      simp only [h, ha, hb, if_true, if_false, Nat.zero_ne_one]
      rw [Nat.xor_assoc, Nat.xor_comm z2 v, ← Nat.xor_assoc]
      exact ih _ _ _
    · have h : ¬ ((a >>> n + b >>> n) % 2 = 1) := by omega
      simp only [h, ha, hb, if_true, if_false]
      have e : z1 ^^^ z2 = (z1 ^^^ v) ^^^ (z2 ^^^ v) := by
        rw [Nat.xor_assoc, Nat.xor_comm z2 v, ← Nat.xor_assoc v, Nat.xor_self, Nat.zero_xor]
      rw [e]
      exact ih _ _ _

theorem gfMul_xor (a b h : Nat) : gfMul (a ^^^ b) h = gfMul a h ^^^ gfMul b h := by
  have := gfMulAux_xor a b 128 h 0 0
  simpa [gfMul] using this

theorem nat_xor_eq_zero (a b : Nat) (h : a ^^^ b = 0) : a = b := by
  have : a ^^^ b ^^^ b = 0 ^^^ b := by rw [h]
  rwa [Nat.xor_assoc, Nat.xor_self, Nat.xor_zero, Nat.zero_xor] at this

theorem nat_xor_right_injective (a b e : Nat) (h : a ^^^ e = b ^^^ e) : a = b := by
  have : a ^^^ e ^^^ e = b ^^^ e ^^^ e := by rw [h]
  rwa [Nat.xor_assoc, Nat.xor_self, Nat.xor_zero, Nat.xor_assoc, Nat.xor_self, Nat.xor_zero]
    at this

/-- With a hash key other than zero, one step of GHASH keeps two states
apart. -/
theorem gfMul_ne (h : Nat) (hh : h < 2 ^ 128) (h0 : h ≠ 0) (u v : Nat)
    (huv : u ^^^ v < 2 ^ 128) (hne : u ≠ v) : gfMul u h ≠ gfMul v h := by
  intro he
  have h1 : gfMul (u ^^^ v) h = 0 := by rw [gfMul_xor, he, Nat.xor_self]
  rcases gfMul_eq_zero _ _ huv hh h1 with h2 | h2
  · exact hne (nat_xor_eq_zero u v h2)
  · exact h0 h2

theorem xor_xor_cancel_right (y x x' : Nat) : (y ^^^ x) ^^^ (y ^^^ x') = x ^^^ x' := by
  rw [Nat.xor_comm y x, Nat.xor_assoc, ← Nat.xor_assoc y, Nat.xor_self, Nat.zero_xor]

theorem xor_xor_cancel_left (y y' x : Nat) : (y ^^^ x) ^^^ (y' ^^^ x) = y ^^^ y' := by
  rw [Nat.xor_comm y' x, Nat.xor_assoc, ← Nat.xor_assoc x, Nat.xor_self, Nat.zero_xor]

theorem ghash_cons (h y x : Nat) (xs : List Nat) :
    ghash h y (x :: xs) = ghash h (gfMul (y ^^^ x) h) xs := rfl

theorem ghash_append (h y : Nat) (xs ys : List Nat) :
    ghash h y (xs ++ ys) = ghash h (ghash h y xs) ys := by
  simp [ghash]

theorem ghash_lt (h : Nat) (hh : h < 2 ^ 128) (y : Nat) (hy : y < 2 ^ 128) (xs : List Nat) :
    ghash h y xs < 2 ^ 128 := by
  induction xs generalizing y with
  | nil => exact hy
  | cons x xs ih =>
    rw [ghash_cons]
    exact ih _ (gfMul_lt _ _ hh)

theorem ghash_ne_of_state_ne (h : Nat) (hh : h < 2 ^ 128) (h0 : h ≠ 0) (xs : List Nat)
    (y y' : Nat) (hy : y < 2 ^ 128) (hy' : y' < 2 ^ 128) (hne : y ≠ y') :
    ghash h y xs ≠ ghash h y' xs := by
  induction xs generalizing y y' with
  | nil => exact hne
  | cons x xs ih =>
    rw [ghash_cons, ghash_cons]
    apply ih _ _ (gfMul_lt _ _ hh) (gfMul_lt _ _ hh)
    apply gfMul_ne h hh h0
    · rw [xor_xor_cancel_left]
      exact Nat.xor_lt_two_pow hy hy'
    · intro he
      exact hne (nat_xor_right_injective _ _ _ he)

/-- With a hash key other than zero, GHASH tells apart two sequences of blocks
that differ in one block. -/
theorem ghash_ne_of_block_ne (h : Nat) (hh : h < 2 ^ 128) (h0 : h ≠ 0) (y : Nat)
    (pre post : List Nat) (x x' : Nat) (hx : x < 2 ^ 128) (hx' : x' < 2 ^ 128) (hne : x ≠ x') :
    ghash h y (pre ++ x :: post) ≠ ghash h y (pre ++ x' :: post) := by
  rw [ghash_append, ghash_append, ghash_cons, ghash_cons]
  apply ghash_ne_of_state_ne h hh h0 _ _ _ (gfMul_lt _ _ hh) (gfMul_lt _ _ hh)
  apply gfMul_ne h hh h0
  · rw [xor_xor_cancel_right]
    exact Nat.xor_lt_two_pow hx hx'
  · intro he
    apply hne
    rw [Nat.xor_comm _ x, Nat.xor_comm _ x'] at he
    exact nat_xor_right_injective _ _ _ he

/-- With the hash key zero, GHASH of at least one block is zero. -/
theorem ghash_key_zero (y : Nat) (xs : List Nat) (x : Nat) : ghash 0 y (xs ++ [x]) = 0 := by
  rw [ghash_append, ghash_cons]
  exact gfMul_zero _

/-! ## The tag tells changed nonces and ciphertexts apart -/

theorem nat_set_ne_self (l : List Nat) (j y : Nat) (hj : j < l.length) (hy : y ≠ l.getD j 0) :
    l.set j y ≠ l := by
  intro h
  apply hy
  have : (l.set j y).getD j 0 = l.getD j 0 := by rw [h]
  rw [← this]
  simp [List.getD_eq_getElem?_getD, List.getElem?_set, hj]

theorem gcmPad_isState (l : List Nat) (hl : ∀ b ∈ l, b < 256) :
    IsState (l.take 16 ++ List.replicate (16 - (l.take 16).length) 0) := by
  constructor
  · rw [List.length_append, List.length_replicate, List.length_take]
    omega
  · intro b hb
    rw [List.mem_append] at hb
    rcases hb with hb | hb
    · exact hl b (List.mem_of_mem_take hb)
    · rw [List.eq_of_mem_replicate hb]
      norm_num

theorem gcmBlock_lt (l : List Nat) (hl : ∀ b ∈ l, b < 256) :
    beNat (l.take 16 ++ List.replicate (16 - (l.take 16).length) 0) < 2 ^ 128 := by
  have hs := gcmPad_isState l hl
  have := beNat_lt _ hs.2
  rw [hs.1] at this
  exact this

theorem set_lt (l : List Nat) (j y : Nat) (hl : ∀ b ∈ l, b < 256) (hy : y < 256) :
    ∀ b ∈ l.set j y, b < 256 := by
  intro b hb
  rcases List.mem_or_eq_of_mem_set hb with h | h
  · exact hl b h
  · rw [h]; exact hy

/-- A change of one byte changes exactly one of the blocks GHASH takes. -/
theorem gcmBlocks_set (n : Nat) (data : List Nat) (j y : Nat) (hd : ∀ b ∈ data, b < 256)
    (hy : y < 256) (hj : j < data.length) (hlen : data.length ≤ 16 * n)
    (hne : y ≠ data.getD j 0) :
    ∃ pre post : List Nat, ∃ x x' : Nat,
      gcmBlocks n data = pre ++ x :: post ∧ gcmBlocks n (data.set j y) = pre ++ x' :: post ∧
      x < 2 ^ 128 ∧ x' < 2 ^ 128 ∧ x ≠ x' := by
  induction n generalizing data j with
  | zero => omega
  | succ n ih =>
    rw [gcmBlocks, gcmBlocks]
    by_cases hj16 : j < 16
    · refine ⟨[], gcmBlocks n (data.drop 16), _, _, rfl, ?_, gcmBlock_lt data hd,
        gcmBlock_lt _ (set_lt data j y hd hy), ?_⟩
      · rw [List.drop_set_of_lt _ _ hj16]
        rfl
      · intro he
        have h1 := beNat_injective _ _
          (by rw [(gcmPad_isState data hd).1, (gcmPad_isState _ (set_lt data j y hd hy)).1])
          (gcmPad_isState data hd).2 (gcmPad_isState _ (set_lt data j y hd hy)).2 he
        have h2 := (List.append_inj h1
          (by simp only [List.length_take, List.length_set])).1
        rw [List.set_take] at h2
        refine nat_set_ne_self (data.take 16) j y (by rw [List.length_take]; omega) ?_ h2.symm
        have : (data.take 16).getD j 0 = data.getD j 0 := by
          simp [List.getD_eq_getElem?_getD, List.getElem?_take, hj16]
        rw [this]
        exact hne
    · have hgd : (data.drop 16).getD (j - 16) 0 = data.getD j 0 := by
        simp only [List.getD_eq_getElem?_getD, List.getElem?_drop]
        rw [show 16 + (j - 16) = j by omega]
      obtain ⟨pre, post, x, x', e1, e2, hx, hx', hxx⟩ := ih (data.drop 16) (j - 16)
        (fun b hb => hd b (List.mem_of_mem_drop hb))
        (by rw [List.length_drop]; omega) (by rw [List.length_drop]; omega)
        (by rw [hgd]; exact hne)
      have ht : (data.set j y).take 16 = data.take 16 := by
        rw [List.set_take, List.set_eq_of_length_le]
        rw [List.length_take]; omega
      have hdr : (data.set j y).drop 16 = (data.drop 16).set (j - 16) y := by
        rw [List.drop_set, if_neg hj16]
      rw [ht, hdr, e1, e2]
      exact ⟨_ :: pre, post, x, x', rfl, rfl, hx, hx', hxx⟩

theorem map_ofNat_injective (l l' : List Nat) (hl : ∀ b ∈ l, b < 256) (hl' : ∀ b ∈ l', b < 256)
    (h : (l.map Fin.ofNat : Bytes) = l'.map Fin.ofNat) : l = l' := by
  have hv : ∀ m : List Nat, (∀ b ∈ m, b < 256) →
      ((m.map Fin.ofNat : Bytes).map Fin.val) = m := by
    intro m hm
    rw [List.map_map]
    conv_rhs => rw [← List.map_id m]
    apply List.map_congr_left
    intro b hb
    exact Nat.mod_eq_of_lt (hm b hb)
  rw [← hv l hl, ← hv l' hl', h]

theorem bytes_val_lt (b : Bytes) : ∀ x ∈ b.map Fin.val, x < 256 := by
  intro x hx
  obtain ⟨a, _, rfl⟩ := List.mem_map.1 hx
  exact a.isLt

/-- The tag is `GHASH xor E(J0)`; two tags are equal only if these numbers
are. -/
theorem gcmTag_injective (u v : Nat) (hu : u < 2 ^ 128) (hv : v < 2 ^ 128)
    (h : ((beBytes 16 u).map Fin.ofNat : Bytes) = (beBytes 16 v).map Fin.ofNat) : u = v :=
  beBytes_injective u v hu hv
    (map_ofNat_injective _ _ (beBytes_lt 16 u) (beBytes_lt 16 v) h)

theorem gcmAuth_set_ne (c : AesCipher) (hc : c.WellFormed) (hh : aesEncryptBlock c 0 ≠ 0)
    (nonce ct : Bytes) (j : Nat) (y : Byte) (hj : j < ct.length) (hy : y ≠ ct.getD j 0) :
    gcmAuth c nonce (ct.set j y) ≠ gcmAuth c nonce ct := by
  have hH := aesEncryptBlock_lt c hc 0
  have hne : y.val ≠ (ct.map Fin.val).getD j 0 := by
    intro he
    apply hy
    apply Fin.val_injective
    rw [he]
    simp [List.getD_eq_getElem?_getD, hj]
  obtain ⟨pre, post, x, x', e1, e2, hx, hx', hxx⟩ :=
    gcmBlocks_set ((ct.length + 15) / 16) (ct.map Fin.val) j y.val (bytes_val_lt ct) y.isLt
      (by rw [List.length_map]; exact hj) (by rw [List.length_map]; omega) hne
  unfold gcmAuth
  simp only [List.length_set, List.map_set, e1, e2, List.append_assoc, List.cons_append]
  intro he
  have h1 := gcmTag_injective _ _
    (Nat.xor_lt_two_pow (ghash_lt _ hH 0 (by norm_num) _) (aesEncryptBlock_lt c hc _))
    (Nat.xor_lt_two_pow (ghash_lt _ hH 0 (by norm_num) _) (aesEncryptBlock_lt c hc _)) he
  have h2 := nat_xor_right_injective _ _ _ h1
  exact ghash_ne_of_block_ne _ hH hh 0 pre _ x x' hx hx' hxx h2.symm

theorem gcmAuth_key_zero (c : AesCipher) (hh : aesEncryptBlock c 0 = 0) (nonce ct ct' : Bytes) :
    gcmAuth c nonce ct = gcmAuth c nonce ct' := by
  unfold gcmAuth
  simp only [hh, ghash_key_zero]

theorem gcmAuth_nonce_ne (c : AesCipher) (hc : c.WellFormed) (nonce nonce' ct : Bytes)
    (hn : nonce.length = 12) (hn' : nonce'.length = 12) (hne : nonce' ≠ nonce) :
    gcmAuth c nonce' ct ≠ gcmAuth c nonce ct := by
  have hH := aesEncryptBlock_lt c hc 0
  unfold gcmAuth
  simp only
  intro he
  have h1 := gcmTag_injective _ _
    (Nat.xor_lt_two_pow (ghash_lt _ hH 0 (by norm_num) _) (aesEncryptBlock_lt c hc _))
    (Nat.xor_lt_two_pow (ghash_lt _ hH 0 (by norm_num) _) (aesEncryptBlock_lt c hc _)) he
  rw [Nat.xor_comm, Nat.xor_comm (ghash _ _ _)] at h1
  have h2 := nat_xor_right_injective _ _ _ h1
  have hb : ∀ m : Bytes, m.length = 12 → beNat (m.map Fin.val) < 2 ^ 96 := by
    intro m hm
    have := beNat_lt _ (bytes_val_lt m)
    rw [List.length_map, hm] at this
    exact this
  have hJ : ∀ m : Bytes, m.length = 12 → gcmCounterBlock (m.map Fin.val) 1 < 2 ^ 128 := by
    intro m hm
    have := hb m hm
    unfold gcmCounterBlock
    omega
  have h3 := aesEncryptBlock_injective c hc _ _ (hJ nonce' hn') (hJ nonce hn) h2
  unfold gcmCounterBlock at h3
  have h4 : beNat (nonce'.map Fin.val) = beNat (nonce.map Fin.val) := by omega
  have h5 := beNat_injective _ _ (by rw [List.length_map, List.length_map, hn, hn'])
    (bytes_val_lt nonce') (bytes_val_lt nonce) h4
  exact hne (List.map_injective_iff.2 Fin.val_injective h5)

/-! ## Tampering with the nonce or the ciphertext -/

/-- What the blob of `Encrypt` decodes to after a digit of its nonce or
ciphertext part has been given another value: one byte of the nonce, positions
0 to 23, or of the ciphertext has changed. -/
theorem hexDecodeString_set_body (p k : GoString) (nonce : Bytes) (i : Nat) (x : Byte)
    (hn : nonce.length = 12)
    (hx1 : fromHexChar x ≠ none)
    (hx2 : fromHexChar x ≠ fromHexChar ((hexEncodeToString (sealedBytes k nonce p)).getD i 0))
    (hi : i < 2 * (p.length + 12)) :
    ∃ y : Byte,
      (i < 24 → y ≠ nonce.getD (i / 2) 0 ∧
        hexDecodeString ((hexEncodeToString (sealedBytes k nonce p)).set i x) =
          .ok (nonce.set (i / 2) y ++ gcmCounterCrypt (masterCipher k) nonce p ++
            gcmAuth (masterCipher k) nonce (gcmCounterCrypt (masterCipher k) nonce p))) ∧
      (24 ≤ i → y ≠ (gcmCounterCrypt (masterCipher k) nonce p).getD (i / 2 - 12) 0 ∧
        hexDecodeString ((hexEncodeToString (sealedBytes k nonce p)).set i x) =
          .ok (nonce ++ (gcmCounterCrypt (masterCipher k) nonce p).set (i / 2 - 12) y ++
            gcmAuth (masterCipher k) nonce (gcmCounterCrypt (masterCipher k) nonce p))) := by
  have hlen := sealedBytes_length k nonce p hn
  have hi' : i < 2 * (sealedBytes k nonce p).length := by rw [hlen]; omega
  have hdec := hexDecodeString_set (sealedBytes k nonce p) i x hi'
  have hget := fromHexChar_getD_encode (sealedBytes k nonce p) i hi'
  rw [hget] at hx2
  cases hv : fromHexChar x with
  | none => exact absurd hv hx1
  | some v =>
    rw [hv] at hdec hx2
    have hv16 := fromHexChar_lt x v hv
    have hne : v ≠ (if i % 2 = 0 then ((sealedBytes k nonce p).getD (i / 2) 0).val / 16
        else ((sealedBytes k nonce p).getD (i / 2) 0).val % 16) := fun h => hx2 (by rw [h])
    have hy := setNibble_ne _ i v hv16 hne
    simp only at hdec
    refine ⟨setNibble ((sealedBytes k nonce p).getD (i / 2) 0) i v, ?_, ?_⟩
    · intro hi24
      have hj : i / 2 < nonce.length := by rw [hn]; omega
      have hgetD : (sealedBytes k nonce p).getD (i / 2) 0 = nonce.getD (i / 2) 0 := by
        unfold sealedBytes
        rw [List.append_assoc, List.getD_append _ _ _ _ hj]
      have hset : (sealedBytes k nonce p).set (i / 2)
            (setNibble ((sealedBytes k nonce p).getD (i / 2) 0) i v) =
          nonce.set (i / 2) (setNibble ((sealedBytes k nonce p).getD (i / 2) 0) i v) ++
            gcmCounterCrypt (masterCipher k) nonce p ++
            gcmAuth (masterCipher k) nonce (gcmCounterCrypt (masterCipher k) nonce p) := by
        unfold sealedBytes
        rw [List.append_assoc, List.set_append_left _ _ hj, List.append_assoc]
      rw [hset] at hdec
      refine ⟨?_, hdec⟩
      rw [← hgetD]
      exact hy
    · intro hi24
      have hj1 : nonce.length ≤ i / 2 := by rw [hn]; omega
      have hj2 : i / 2 - nonce.length < (gcmCounterCrypt (masterCipher k) nonce p).length := by
        rw [gcmCounterCrypt_length, hn]; omega
      have hgetD : (sealedBytes k nonce p).getD (i / 2) 0 =
          (gcmCounterCrypt (masterCipher k) nonce p).getD (i / 2 - 12) 0 := by
        unfold sealedBytes
        rw [List.append_assoc, List.getD_append_right _ _ _ _ hj1,
          List.getD_append _ _ _ _ hj2, hn]
      have hset : (sealedBytes k nonce p).set (i / 2)
            (setNibble ((sealedBytes k nonce p).getD (i / 2) 0) i v) =
          nonce ++ (gcmCounterCrypt (masterCipher k) nonce p).set (i / 2 - 12)
              (setNibble ((sealedBytes k nonce p).getD (i / 2) 0) i v) ++
            gcmAuth (masterCipher k) nonce (gcmCounterCrypt (masterCipher k) nonce p) := by
        unfold sealedBytes
        rw [List.append_assoc, List.set_append_right _ _ hj1, List.set_append_left _ _ hj2,
          List.append_assoc, hn]
      rw [hset] at hdec
      refine ⟨?_, hdec⟩
      rw [← hgetD]
      exact hy

/-- A changed nonce never passes the check of the tag. -/
theorem Decrypt_set_nonce (p k : GoString) (nonce : Bytes) (i : Nat) (x : Byte)
    (hn : nonce.length = 12)
    (hx1 : fromHexChar x ≠ none)
    (hx2 : fromHexChar x ≠ fromHexChar ((hexEncodeToString (sealedBytes k nonce p)).getD i 0))
    (hi : i < 24) :
    Decrypt ((hexEncodeToString (sealedBytes k nonce p)).set i x) k =
      .returned ([], some authError) := by
  obtain ⟨y, h1, _⟩ := hexDecodeString_set_body p k nonce i x hn hx1 hx2 (by omega)
  obtain ⟨hy, hdec⟩ := h1 hi
  rw [Decrypt_blob _ k _ _ _ (by rw [List.length_set]; exact hn) (gcmAuth_length _ _ _) hdec]
  rw [if_pos]
  right
  exact gcmAuth_nonce_ne _ (masterCipher_wellFormed k) nonce _ _ hn
    (by rw [List.length_set]; exact hn) (set_ne_self nonce _ y (by rw [hn]; omega) hy)

/-- A changed ciphertext passes the check of the tag exactly when the hash
key is zero; the plaintext returned then is not the one encrypted. -/
theorem Decrypt_set_ciphertext (p k : GoString) (nonce : Bytes) (i : Nat) (x : Byte)
    (hn : nonce.length = 12) (hp : p.length ≤ gcmMaxPlaintext)
    (hx1 : fromHexChar x ≠ none)
    (hx2 : fromHexChar x ≠ fromHexChar ((hexEncodeToString (sealedBytes k nonce p)).getD i 0))
    (hi1 : 24 ≤ i) (hi2 : i < 2 * (p.length + 12)) :
    (aesEncryptBlock (masterCipher k) 0 ≠ 0 →
      Decrypt ((hexEncodeToString (sealedBytes k nonce p)).set i x) k =
        .returned ([], some authError)) ∧
    (aesEncryptBlock (masterCipher k) 0 = 0 →
      ∃ q : GoString, q ≠ p ∧ q.length = p.length ∧
        Decrypt ((hexEncodeToString (sealedBytes k nonce p)).set i x) k = .returned (q, none)) := by
  obtain ⟨y, _, h2⟩ := hexDecodeString_set_body p k nonce i x hn hx1 hx2 hi2
  obtain ⟨hy, hdec⟩ := h2 hi1
  have hj : i / 2 - 12 < (gcmCounterCrypt (masterCipher k) nonce p).length := by
    rw [gcmCounterCrypt_length]; omega
  have hd := Decrypt_blob _ k _ _ _ hn (gcmAuth_length _ _ _) hdec
  have hl : ¬ ((gcmCounterCrypt (masterCipher k) nonce p).set (i / 2 - 12) y).length >
      gcmMaxPlaintext := by
    rw [List.length_set, gcmCounterCrypt_length]; omega
  constructor
  · intro hh
    rw [hd, if_pos]
    right
    exact gcmAuth_set_ne _ (masterCipher_wellFormed k) hh nonce _ _ y hj hy
  · intro hh
    refine ⟨gcmCounterCrypt (masterCipher k) nonce
      ((gcmCounterCrypt (masterCipher k) nonce p).set (i / 2 - 12) y), ?_, ?_, ?_⟩
    · intro he
      have h3 := congrArg (gcmCounterCrypt (masterCipher k) nonce) he
      rw [gcmCounterCrypt_involutive] at h3
      exact set_ne_self _ _ y hj hy h3
    · rw [gcmCounterCrypt_length, List.length_set, gcmCounterCrypt_length]
    · rw [hd, if_neg]
      rintro (h | h)
      · exact hl h
      · exact h (gcmAuth_key_zero _ hh _ _ _)

/-! ## Lemmas on identifiers -/

theorem xtob_hextable (b : Byte) :
    xtob (hextable.getD (b.val / 16) 0) (hextable.getD (b.val % 16) 0) = some b := by
  simp only [xtob, fromHexChar_hi, fromHexChar_lo, byte_of_nibbles]

/-- The canonical form of an identifier has 36 characters. -/
theorem UUID_String_length (u : UUID) : u.String.length = 36 := by
  obtain ⟨bytes, size⟩ := u
  obtain ⟨b0, b1, b2, b3, b4, b5, b6, b7, b8, b9, b10, b11, b12, b13, b14, b15, rfl⟩ :=
    list_length_16 bytes size
  rfl

/-- Function `uuid.Parse` reads the canonical form of an identifier back. -/
theorem uuidParse_String (u : UUID) : uuidParse u.String = .ok u := by
  obtain ⟨bytes, size⟩ := u
  obtain ⟨b0, b1, b2, b3, b4, b5, b6, b7, b8, b9, b10, b11, b12, b13, b14, b15, rfl⟩ :=
    list_length_16 bytes size
  unfold uuidParse
  rw [if_pos (UUID_String_length _)]
  simp only [UUID.String, hexEncodeToString, List.take, List.drop, List.flatMap_cons,
    List.flatMap_nil, List.append_nil, List.cons_append, List.nil_append, List.getD_cons_zero,
    List.getD_cons_succ, xtobAll, xtob_hextable, ne_eq, not_true_eq_false, or_self, if_false,
    List.length_cons, List.length_nil]
  rfl

theorem uuidNewRandom_ne_nil (rand : Bytes) (h : 16 ≤ rand.length) :
    (uuidNewRandom rand).1 ≠ UUID.Nil := by
  unfold uuidNewRandom
  rw [dif_neg (by omega)]
  intro he
  have hb := congrArg (fun u : UUID => (u.bytes.getD 6 0).val) he
  simp only [UUID.Nil] at hb
  have h6 : 6 < (rand.take 16).length := by rw [List.length_take]; omega
  rw [List.getD_eq_getElem?_getD, List.getElem?_set, if_neg (by decide),
    List.getElem?_set, if_pos rfl, if_pos h6] at hb
  simp only [Option.getD_some] at hb
  change (((rand.take 16).getD 6 0).val % 16 + 64) % 256 = 0 at hb
  omega

/-! ## Lemmas on the lookups -/

theorem find?_append_new (rows : List Secret) (s : Secret) (f : Secret → Bool)
    (h : ∀ r ∈ rows, f r = false) (hs : f s = true) : (rows ++ [s]).find? f = some s := by
  rw [List.find?_append, List.find?_eq_none.2 (fun r hr => by simp [h r hr])]
  simp [hs]

theorem GetEncryptedSecretByID_eq (db : DB) (id : GoString) (u : UUID)
    (hu : uuidParse id = .ok u) (hf : db.fault = none) :
    service.GetEncryptedSecretByID db id =
      match db.rows.find? (fun r => r.ID = u) with
      | none => (some Secret.zero,
          some (.errorf2 "failed to retrieve secret by ID '%s': %v" u.String .recordNotFound))
      | some r => (some r, none) := by
  unfold service.GetEncryptedSecretByID repository.GetByID
  rw [hu, hf]
  simp only
  cases db.rows.find? (fun r => r.ID = u) <;> rfl

theorem GetEncryptedSecretByKey_eq (db : DB) (key : GoString) (hf : db.fault = none) :
    service.GetEncryptedSecretByKey db key =
      match db.rows.find? (fun r => r.Key = key) with
      | none => (some Secret.zero,
          some (.errorf2 "failed to retrieve secret by key '%s': %v" key .recordNotFound))
      | some r => (some r, none) := by
  unfold service.GetEncryptedSecretByKey repository.GetByKey
  rw [hf]
  simp only
  cases db.rows.find? (fun r => r.Key = key) <;> rfl

theorem getSecretFromQuery_ok (db : DB) (q : GoString) (u : UUID) (hu : uuidParse q = .ok u) :
    getSecretFromQuery db q =
      ([.GetEncryptedSecretByID q], service.GetEncryptedSecretByID db q) := by
  unfold getSecretFromQuery
  rw [hu]
  rfl

theorem getSecretFromQuery_error (db : DB) (q : GoString) (e : GoError)
    (hu : uuidParse q = .error e) :
    getSecretFromQuery db q =
      ([.GetEncryptedSecretByKey q], service.GetEncryptedSecretByKey db q) := by
  unfold getSecretFromQuery
  rw [hu]
  rfl

/-! ## Lemmas on creation -/

/-- The record `CreateSecret` hands to `Save` when the random source delivers
and the plaintext is not too long. -/
theorem CreateSecret_eq (db : DB) (now : Time) (key p k : GoString) (rand : Bytes)
    (hr : 28 ≤ rand.length) (hp : p.length ≤ gcmMaxPlaintext) :
    service.CreateSecret db now key p k rand =
      match repository.Save db now
        { ID := (uuidNewRandom (rand.drop 12)).1, Key := key,
          EncryptedValue := hexEncodeToString (sealedBytes k (rand.take 12) p),
          CreatedAt := 0, UpdatedAt := 0 } with
      | (db', _, some err) =>
        .returned (([], [], some (.errorf "failed to store secret in the database: %v" err)), db')
      | (db', saved, none) => .returned ((saved.ID.String, saved.Key, none), db') := by
  unfold service.CreateSecret
  rw [CreateSecretModel_eq, if_neg (by omega), if_neg (by omega), if_neg (by omega)]

theorem CreateSecret_panics (db : DB) (now : Time) (key p k : GoString) (rand : Bytes)
    (hr : 12 ≤ rand.length) (hp : p.length > gcmMaxPlaintext) :
    service.CreateSecret db now key p k rand =
      .panicked "crypto/cipher: message too large for GCM" := by
  unfold service.CreateSecret
  rw [CreateSecretModel_eq, if_neg (by omega), if_pos hp]

theorem CreateSecret_duplicate (rows : List Secret) (now : Time) (key p k : GoString)
    (rand : Bytes) (hr : 28 ≤ rand.length) (hp : p.length ≤ gcmMaxPlaintext)
    (hkey : ∃ r ∈ rows, r.Key = key) :
    service.CreateSecret ⟨rows, none⟩ now key p k rand =
      .returned (([], [], some (.errorf "failed to store secret in the database: %v"
        (.uniqueViolation
          (if rows.any (fun r => r.ID = (uuidNewRandom (rand.drop 12)).1) then "secrets_pkey"
           else "secrets_key")))), ⟨rows, none⟩) := by
  rw [CreateSecret_eq _ now key p k rand hr hp]
  unfold repository.Save
  simp only
  by_cases h1 : (rows.any fun r => decide (r.ID = (uuidNewRandom (rand.drop 12)).1)) = true
  · rw [if_pos h1, if_pos h1]
  · rw [if_neg h1, if_neg h1]
    obtain ⟨r, hr1, hr2⟩ := hkey
    rw [if_pos (List.any_eq_true.mpr ⟨r, hr1, by simpa using hr2⟩)]

theorem CreateSecret_fault (rows : List Secret) (e : GoError) (now : Time) (key p k : GoString)
    (rand : Bytes) (hr : 28 ≤ rand.length) (hp : p.length ≤ gcmMaxPlaintext) :
    service.CreateSecret ⟨rows, some e⟩ now key p k rand =
      .returned (([], [], some (.errorf "failed to store secret in the database: %v" e)),
        ⟨rows, some e⟩) := by
  rw [CreateSecret_eq _ now key p k rand hr hp]
  rfl

/-- Handler `CreateSecret` answers every error of the service the same way. -/
theorem handlers_CreateSecret_error (db db' : DB) (now : Time) (key p k : GoString)
    (rand : Bytes) (err : GoError) (hk : key ≠ []) (hp : p ≠ [])
    (h : service.CreateSecret db now key p k rand = .returned (([], [], some err), db')) :
    handlers.CreateSecret db now (some (key, p)) k rand =
      .returned (⟨500, .error "Failed to create secret"⟩, db') := by
  unfold handlers.CreateSecret
  simp only [hk, hp, or_self, if_false, h]

/-! ## Lemmas on update and deletion -/

theorem uuidParse_ok_ne_nil (id : GoString) (u : UUID) (h : uuidParse id = .ok u) : id ≠ [] := by
  intro he
  subst he
  simp [uuidParse] at h

/-- What `UpdateSecret` does when the identifier parses, the random source
delivers the nonce and the plaintext is not too long. -/
theorem UpdateSecret_eq (db : DB) (now : Time) (id p k : GoString) (rand : Bytes) (u : UUID)
    (hu : uuidParse id = .ok u) (hr : 12 ≤ rand.length) (hp : p.length ≤ gcmMaxPlaintext) :
    service.UpdateSecret db now id p k rand =
      match db.fault with
      | some e => .returned (some (.errorf "failed to update secret: %v" e), db)
      | none =>
        .returned (none, { db with rows := db.rows.map (fun r =>
          if r.ID = u then
            { r with EncryptedValue := hexEncodeToString (sealedBytes k (rand.take 12) p),
                     UpdatedAt := now }
          else r) }) := by
  unfold service.UpdateSecret repository.Update
  rw [hu, Encrypt_eq, if_neg (by omega), if_neg (by omega)]
  cases db.fault <;> rfl

theorem DeleteSecret_eq (db : DB) (id : GoString) (u : UUID) (hu : uuidParse id = .ok u) :
    service.DeleteSecret db id =
      match db.fault with
      | some e => (some (.errorf "failed to delete secret by ID: %v" e), db)
      | none => (none, { db with rows := db.rows.filter (fun r => r.ID ≠ u) }) := by
  unfold service.DeleteSecret repository.Delete
  rw [hu]
  cases db.fault <;> rfl

theorem map_update_absent (rows : List Secret) (u : UUID) (g : Secret → Secret)
    (h : ∀ r ∈ rows, r.ID ≠ u) : rows.map (fun r => if r.ID = u then g r else r) = rows := by
  conv_rhs => rw [← List.map_id rows]
  apply List.map_congr_left
  intro r hr
  rw [if_neg (h r hr)]
  rfl

theorem filter_delete_absent (rows : List Secret) (u : UUID) (h : ∀ r ∈ rows, r.ID ≠ u) :
    rows.filter (fun r => r.ID ≠ u) = rows := by
  rw [List.filter_eq_self]
  intro r hr
  simpa using h r hr

/-- A lookup that fails makes handler `UpdateSecret` answer 404. -/
theorem getSecretFromQuery_absent (db : DB) (id : GoString) (u : UUID)
    (hu : uuidParse id = .ok u) (h : ∀ r ∈ db.rows, r.ID ≠ u) :
    ∃ err, (getSecretFromQuery db id).2 = (some Secret.zero, some err) := by
  rw [getSecretFromQuery_ok db id u hu]
  unfold service.GetEncryptedSecretByID repository.GetByID
  rw [hu]
  cases hf : db.fault with
  | some e => exact ⟨_, rfl⟩
  | none =>
    simp only
    rw [List.find?_eq_none.2 (fun r hr => by simpa using h r hr)]
    exact ⟨_, rfl⟩

theorem find?_eq_some_of_unique (rows : List Secret) (f : Secret → Bool) (a : Secret)
    (ha : a ∈ rows) (hfa : f a = true) (huniq : ∀ x ∈ rows, f x = true → x = a) :
    rows.find? f = some a := by
  induction rows with
  | nil => simp at ha
  | cons x xs ih =>
    rw [List.find?_cons]
    cases hx : f x with
    | true =>
      simp only
      rw [huniq x (by simp) hx]
    | false =>
      simp only
      rcases List.mem_cons.1 ha with rfl | ha'
      · rw [hfa] at hx; exact absurd hx (by simp)
      · exact ih ha' (fun y hy => huniq y (by simp [hy]))

/-! ## The table keeps identifiers and keys unique -/

theorem Consistent_empty (fault : Option GoError) : (⟨[], fault⟩ : DB).Consistent :=
  ⟨List.nodup_nil, List.nodup_nil⟩

theorem Save_consistent (db : DB) (now : Time) (secret : Secret) (h : db.Consistent) :
    (repository.Save db now secret).1.Consistent := by
  unfold repository.Save
  cases hf : db.fault with
  | some e => exact h
  | none =>
    simp only
    by_cases h1 : (db.rows.any fun r => decide (r.ID = secret.ID)) = true
    · rw [if_pos h1]; exact h
    · rw [if_neg h1]
      by_cases h2 : (db.rows.any fun r => decide (r.Key = secret.Key)) = true
      · rw [if_pos h2]; exact h
      · rw [if_neg h2]
        unfold DB.Consistent
        simp only [List.map_append, List.map_cons, List.map_nil]
        constructor
        · refine List.Nodup.append h.1 (List.nodup_singleton _) ?_
          rw [List.disjoint_singleton]
          intro hm
          obtain ⟨r, hr, he⟩ := List.mem_map.1 hm
          exact h1 (List.any_eq_true.mpr ⟨r, hr, by simpa using he⟩)
        · refine List.Nodup.append h.2 (List.nodup_singleton _) ?_
          rw [List.disjoint_singleton]
          intro hm
          obtain ⟨r, hr, he⟩ := List.mem_map.1 hm
          exact h2 (List.any_eq_true.mpr ⟨r, hr, by simpa using he⟩)

theorem Update_consistent (db : DB) (now : Time) (u : UUID) (v : GoString) (h : db.Consistent) :
    (repository.Update db now u v).1.Consistent := by
  unfold repository.Update
  cases hf : db.fault with
  | some e => exact h
  | none =>
    unfold DB.Consistent
    simp only [List.map_map]
    have e1 : (Secret.ID ∘ fun r : Secret =>
        if r.ID = u then { r with EncryptedValue := v, UpdatedAt := now } else r) = Secret.ID := by
      funext r
      simp only [Function.comp]
      split <;> rfl
    have e2 : (Secret.Key ∘ fun r : Secret =>
        if r.ID = u then { r with EncryptedValue := v, UpdatedAt := now } else r) =
        Secret.Key := by
      funext r
      simp only [Function.comp]
      split <;> rfl
    rw [e1, e2]
    exact h

theorem Delete_consistent (db : DB) (u : UUID) (h : db.Consistent) :
    (repository.Delete db u).1.Consistent := by
  unfold repository.Delete
  cases hf : db.fault with
  | some e => exact h
  | none =>
    exact ⟨(List.Nodup.sublist
        (List.Sublist.map _ (List.filter_sublist db.rows)) h.1),
      (List.Nodup.sublist (List.Sublist.map _ (List.filter_sublist db.rows)) h.2)⟩

/-! ## Lemmas on handler `GetSecretByQuery` -/

/-- What handler `GetSecretByQuery` answers, by the result of the lookup and of
the decryption. -/
theorem GetSecretByQuery_error (db : DB) (q k : GoString) (s : Option Secret) (err : GoError)
    (hq : q ≠ []) (h : (getSecretFromQuery db q).2 = (s, some err)) :
    handlers.GetSecretByQuery db q k = .returned ⟨404, .error "Secret not found"⟩ := by
  simp only [handlers.GetSecretByQuery, hq, if_false, h]

theorem GetSecretByQuery_found (db : DB) (q k : GoString) (s : Secret)
    (hq : q ≠ []) (h : (getSecretFromQuery db q).2 = (some s, none)) :
    (∀ v, service.DecryptSecret s k = .returned (v, none) →
      handlers.GetSecretByQuery db q k = .returned ⟨200, .secretPlain s.Key v⟩) ∧
    (∀ v err, service.DecryptSecret s k = .returned (v, some err) →
      handlers.GetSecretByQuery db q k = .returned ⟨500, .error "Something went wrong"⟩) ∧
    (∀ msg, service.DecryptSecret s k = .panicked msg →
      handlers.GetSecretByQuery db q k = .panicked msg) := by
  refine ⟨fun v hd => ?_, fun v err hd => ?_, fun msg hd => ?_⟩
  · simp only [handlers.GetSecretByQuery, hq, if_false, h, hd]
  · simp only [handlers.GetSecretByQuery, hq, if_false, h, hd]
  · simp only [handlers.GetSecretByQuery, hq, if_false, h, hd]

/-! ## Lemmas on sequences of updates and deletions -/

theorem UpdateSecret_absent (db db' : DB) (now : Time) (id p k : GoString) (rand : Bytes)
    (e : Option GoError) (u : UUID) (hu : ∀ r ∈ db.rows, r.ID ≠ u)
    (h : service.UpdateSecret db now id p k rand = .returned (e, db')) :
    db'.fault = db.fault ∧ ∀ r ∈ db'.rows, r.ID ≠ u := by
  obtain ⟨rows, fault⟩ := db
  unfold service.UpdateSecret repository.Update at h
  cases hp : uuidParse id with
  | error err =>
    rw [hp] at h
    simp only [Outcome.returned.injEq, Prod.mk.injEq] at h
    rw [← h.2]
    exact ⟨rfl, hu⟩
  | ok v =>
    rw [hp] at h
    simp only at h
    rcases he : Encrypt p k rand with ⟨c, _ | err⟩ | msg
    · rw [he] at h
      cases fault with
      | some ef =>
        simp only [Outcome.returned.injEq, Prod.mk.injEq] at h
        rw [← h.2]
        exact ⟨rfl, hu⟩
      | none =>
        simp only [Outcome.returned.injEq, Prod.mk.injEq] at h
        rw [← h.2]
        refine ⟨rfl, ?_⟩
        intro r hr
        obtain ⟨r0, hr0, rfl⟩ := List.mem_map.1 hr
        by_cases hv : r0.ID = v
        · rw [if_pos hv]; exact hu r0 hr0
        · rw [if_neg hv]; exact hu r0 hr0
    · rw [he] at h
      simp only [Outcome.returned.injEq, Prod.mk.injEq] at h
      rw [← h.2]
      exact ⟨rfl, hu⟩
    · rw [he] at h
      simp at h

theorem DeleteSecret_absent (db : DB) (id : GoString) (u : UUID)
    (hu : ∀ r ∈ db.rows, r.ID ≠ u) :
    (service.DeleteSecret db id).2.fault = db.fault ∧
      ∀ r ∈ (service.DeleteSecret db id).2.rows, r.ID ≠ u := by
  obtain ⟨rows, fault⟩ := db
  unfold service.DeleteSecret repository.Delete
  cases hp : uuidParse id with
  | error err => exact ⟨rfl, hu⟩
  | ok v =>
    cases fault with
    | some ef => exact ⟨rfl, hu⟩
    | none =>
      refine ⟨rfl, ?_⟩
      intro r hr
      exact hu r (List.mem_filter.1 hr).1

theorem run_absent (db : DB) (c : IdCall) (u : UUID) (hu : ∀ r ∈ db.rows, r.ID ≠ u) :
    (c.run db).fault = db.fault ∧ ∀ r ∈ (c.run db).rows, r.ID ≠ u := by
  cases c with
  | update now id p k rand =>
    rcases h : service.UpdateSecret db now id p k rand with ⟨e, db'⟩ | msg
    · simp only [IdCall.run, h]
      exact UpdateSecret_absent db db' now id p k rand e u hu h
    · simp only [IdCall.run, h]
      exact ⟨trivial, hu⟩
  | delete id =>
    simp only [IdCall.run]
    exact DeleteSecret_absent db id u hu

theorem runCalls_absent (calls : List IdCall) (db : DB) (u : UUID)
    (hu : ∀ r ∈ db.rows, r.ID ≠ u) :
    (runCalls db calls).fault = db.fault ∧ ∀ r ∈ (runCalls db calls).rows, r.ID ≠ u := by
  induction calls generalizing db with
  | nil => exact ⟨rfl, hu⟩
  | cons c cs ih =>
    have h1 := run_absent db c u hu
    have h2 := ih (c.run db) h1.2
    exact ⟨h2.1.trans h1.1, h2.2⟩


/-! ## Lemmas on the events -/

theorem Encrypt_events_eq (p k : GoString) (rand : Bytes) :
    Encrypt.events p k rand =
      if rand.length < 12 then
        [.log .error (.errorf "failed to generate nonce: %v" .randRead)]
      else [] := by
  simp only [Encrypt.events, aesNewCipher_createHash, cipherNewGCM_eq, ioReadFull, Gcm.NonceSize]
  by_cases h : rand.length < 12
  · simp [h]
  · simp [h]

theorem Decrypt_events_eq (s k : GoString) (b : Bytes) (hs : hexDecodeString s = .ok b) :
    Decrypt.events s k =
      if b.length < 12 then []
      else if b.length < 28 ∨ b.length > gcmMaxPlaintext + 28 ∨
          gcmAuth (masterCipher k) (b.take 12) ((b.drop 12).take (b.length - 28)) ≠
            b.drop (b.length - 16) then
        [.log .error authError]
      else [] := by
  simp only [Decrypt.events, hs, aesNewCipher_createHash, cipherNewGCM_eq, Gcm.NonceSize, Gcm.Open,
    masterCipher, authError]
  by_cases h1 : b.length < 12
  · simp [h1]
  · have h2 : (List.take 12 b).length = 12 := by simp; omega
    have h3 : (List.drop 12 b).length = b.length - 12 := by simp
    simp only [h1, h2, h3, if_false, ne_eq, not_true_eq_false]
    by_cases h4 : b.length < 28
    · have : b.length - 12 < 16 := by omega
      simp [h4, this]
    · have h5 : ¬ (b.length - 12 < 16) := by omega
      have h6 : b.length - 12 - 16 = b.length - 28 := by omega
      have h7 : List.drop (b.length - 28) (List.drop 12 b) = List.drop (b.length - 16) b := by
        rw [List.drop_drop]; congr 1; omega
      by_cases h8 : b.length > gcmMaxPlaintext + 28
      · have : b.length - 12 > gcmMaxPlaintext + 16 := by omega
        simp [h4, h5, h8, this]
      · have : ¬ (b.length - 12 > gcmMaxPlaintext + 16) := by omega
        simp only [h4, h5, h8, this, h6, h7, if_false, false_or]
        by_cases h9 : gcmAuth (newCipher (createHash k)) (List.take 12 b)
            (List.take (b.length - 28) (List.drop 12 b)) = List.drop (b.length - 16) b
        · simp [h9]
        · simp [h9]

/-- The errors `Decrypt` returns: the error of the decoding, which is made of
the blob alone, or the one error of the authentication. Either is what the call
passes to the logger, and the call passes nothing else. -/
theorem Decrypt_error_cases (s k p : GoString) (e : GoError)
    (h : Decrypt s k = .returned (p, some e)) :
    p = [] ∧ Decrypt.events s k = [.log .error e] ∧
    ((∃ err, hexDecodeString s = .error err ∧
      e = .errorf "failed to decode encrypted secret: %v" err) ∨
    ((∃ b, hexDecodeString s = .ok b) ∧ e = authError)) := by
  cases hd : hexDecodeString s with
  | error err =>
    simp only [Decrypt, hd, Outcome.returned.injEq, Prod.mk.injEq, Option.some.injEq] at h
    refine ⟨h.1.symm, ?_, Or.inl ⟨err, rfl, h.2.symm⟩⟩
    simp only [Decrypt.events, hd, h.2]
  | ok b =>
    rw [Decrypt_eq s k b hd] at h
    rw [Decrypt_events_eq s k b hd]
    by_cases h1 : b.length < 12
    · rw [if_pos h1] at h; simp at h
    · rw [if_neg h1] at h
      rw [if_neg h1]
      split at h
      · rename_i hc
        simp only [Outcome.returned.injEq, Prod.mk.injEq, Option.some.injEq] at h
        obtain ⟨hp, he⟩ := h
        subst he
        rw [if_pos hc]
        exact ⟨hp.symm, rfl, Or.inr ⟨⟨b, rfl⟩, rfl⟩⟩
      · simp at h

/-- Two master keys under which `Decrypt` fails: the same result, the same
events. -/
theorem Decrypt_error_independent (s k1 k2 p1 p2 : GoString) (e1 e2 : GoError)
    (h1 : Decrypt s k1 = .returned (p1, some e1)) (h2 : Decrypt s k2 = .returned (p2, some e2)) :
    p1 = p2 ∧ e1 = e2 ∧ Decrypt.events s k1 = Decrypt.events s k2 := by
  obtain ⟨hp1, hev1, hc1⟩ := Decrypt_error_cases s k1 p1 e1 h1
  obtain ⟨hp2, hev2, hc2⟩ := Decrypt_error_cases s k2 p2 e2 h2
  have he : e1 = e2 := by
    rcases hc1 with ⟨err1, hd1, rfl⟩ | ⟨⟨b1, hd1⟩, rfl⟩
    · rcases hc2 with ⟨err2, hd2, rfl⟩ | ⟨⟨b2, hd2⟩, rfl⟩
      · rw [hd1] at hd2
        rw [Except.error.inj hd2]
      · rw [hd1] at hd2; simp at hd2
    · rcases hc2 with ⟨err2, hd2, rfl⟩ | ⟨⟨b2, hd2⟩, rfl⟩
      · rw [hd1] at hd2; simp at hd2
      · rfl
  exact ⟨hp1.trans hp2.symm, he, by rw [hev1, hev2, he]⟩

theorem Encrypt_error (p k c : GoString) (rand : Bytes) (e : GoError)
    (h : Encrypt p k rand = .returned (c, some e)) :
    rand.length < 12 ∧ c = [] ∧ e = .errorf "failed to generate nonce: %v" .randRead := by
  rw [Encrypt_eq] at h
  by_cases h1 : rand.length < 12
  · rw [if_pos h1] at h
    simp only [Outcome.returned.injEq, Prod.mk.injEq, Option.some.injEq] at h
    exact ⟨h1, h.1.symm, h.2.symm⟩
  · rw [if_neg h1] at h
    split at h <;> simp at h


/-! ## Lemmas on the master key in errors and events -/

theorem Encrypt_events_independent (p k1 k2 : GoString) (rand : Bytes) :
    Encrypt.events p k1 rand = Encrypt.events p k2 rand := by
  rw [Encrypt_events_eq, Encrypt_events_eq]

/-- A call of `Encrypt` that does not succeed has a result that is made of the
plaintext's length and of the random source alone. -/
theorem Encrypt_failure_independent (p k1 k2 : GoString) (rand : Bytes)
    (h1 : ∀ c, Encrypt p k1 rand ≠ .returned (c, none)) :
    Encrypt p k1 rand = Encrypt p k2 rand := by
  rw [Encrypt_eq] at h1
  rw [Encrypt_eq, Encrypt_eq]
  by_cases h : rand.length < 12
  · rw [if_pos h, if_pos h]
  · rw [if_neg h] at h1
    rw [if_neg h, if_neg h]
    by_cases hp : p.length > gcmMaxPlaintext
    · rw [if_pos hp, if_pos hp]
    · rw [if_neg hp] at h1
      exact absurd rfl (h1 _)

/-- A call of `Decrypt` that succeeds under neither of two master keys has the
same result and the same events under both. -/
theorem Decrypt_failure_independent (s k1 k2 : GoString)
    (h1 : ∀ v, Decrypt s k1 ≠ .returned (v, none))
    (h2 : ∀ v, Decrypt s k2 ≠ .returned (v, none)) :
    Decrypt s k1 = Decrypt s k2 ∧ Decrypt.events s k1 = Decrypt.events s k2 := by
  cases hd : hexDecodeString s with
  | error err => simp only [Decrypt, Decrypt.events, hd, and_self]
  | ok b =>
    rw [Decrypt_eq s k1 b hd] at h1
    rw [Decrypt_eq s k2 b hd] at h2
    rw [Decrypt_eq s k1 b hd, Decrypt_eq s k2 b hd, Decrypt_events_eq s k1 b hd,
      Decrypt_events_eq s k2 b hd]
    by_cases h : b.length < 12
    · simp only [if_pos h, and_self]
    · rw [if_neg h] at h1 h2
      simp only [if_neg h]
      split at h1
      · split at h2
        · rename_i c1 c2
          rw [if_pos c1, if_pos c2, if_pos c1, if_pos c2]
          exact ⟨rfl, rfl⟩
        · exact absurd rfl (h2 _)
      · exact absurd rfl (h1 _)

/-- The same for `DecryptSecret`. -/
theorem DecryptSecret_failure_independent (secret : Secret) (k1 k2 : GoString)
    (h1 : ∀ v, service.DecryptSecret secret k1 ≠ .returned (v, none))
    (h2 : ∀ v, service.DecryptSecret secret k2 ≠ .returned (v, none)) :
    service.DecryptSecret secret k1 = service.DecryptSecret secret k2 ∧
      service.DecryptSecret.events secret k1 = service.DecryptSecret.events secret k2 := by
  have key : ∀ k, (∀ v, service.DecryptSecret secret k ≠ .returned (v, none)) →
      ∀ v, Decrypt secret.EncryptedValue k ≠ .returned (v, none) := by
    intro k h v hv
    apply h v
    simp only [service.DecryptSecret, hv]
  obtain ⟨he, hev⟩ := Decrypt_failure_independent secret.EncryptedValue k1 k2 (key k1 h1) (key k2 h2)
  simp only [service.DecryptSecret, service.DecryptSecret.events, he, hev, and_self]

theorem CreateSecretModel_events_eq (key p k : GoString) (rand : Bytes) :
    CreateSecretModel.events key p k rand =
      if rand.length < 12 then
        [.log .error (.errorf "failed to generate nonce: %v" .randRead),
         .log .error (.errorf "failed to encrypt secret: %v"
           (.errorf "failed to generate nonce: %v" .randRead))]
      else [] := by
  unfold CreateSecretModel.events
  rw [Encrypt_events_eq, Encrypt_eq]
  by_cases h : rand.length < 12
  · simp only [if_pos h]
    rfl
  · simp only [if_neg h]
    by_cases hp : p.length > gcmMaxPlaintext
    · simp only [if_pos hp]
      rfl
    · simp only [if_neg hp]
      rfl

/-- The events of `CreateSecret`: three messages when the nonce cannot be
read; none when the call panics; otherwise the call of `Save`, with the record
made of the identifier, the key and the blob, followed by a message when `Save`
fails. -/
theorem CreateSecret_events_eq (db : DB) (now : Time) (key p k : GoString) (rand : Bytes) :
    service.CreateSecret.events db now key p k rand =
      if rand.length < 12 then
        [.log .error (.errorf "failed to generate nonce: %v" .randRead),
         .log .error (.errorf "failed to encrypt secret: %v"
           (.errorf "failed to generate nonce: %v" .randRead)),
         .log .error (.errorf "failed to create secret: %v"
           (.errorf "failed to encrypt secret: %v"
             (.errorf "failed to generate nonce: %v" .randRead)))]
      else if p.length > gcmMaxPlaintext then []
      else if rand.length < 28 then []
      else
        .repo (.Save { ID := (uuidNewRandom (rand.drop 12)).1, Key := key,
                       EncryptedValue := hexEncodeToString (sealedBytes k (rand.take 12) p),
                       CreatedAt := 0, UpdatedAt := 0 }) ::
          match (repository.Save db now
              { ID := (uuidNewRandom (rand.drop 12)).1, Key := key,
                EncryptedValue := hexEncodeToString (sealedBytes k (rand.take 12) p),
                CreatedAt := 0, UpdatedAt := 0 }).2.2 with
          | some err =>
            [.log .error (.errorf "failed to store secret in the database: %v" err)]
          | none => [] := by
  unfold service.CreateSecret.events
  rw [CreateSecretModel_events_eq, CreateSecretModel_eq]
  by_cases h : rand.length < 12
  · simp only [if_pos h]
    rfl
  · simp only [if_neg h]
    by_cases hp : p.length > gcmMaxPlaintext
    · simp only [if_pos hp]
      rfl
    · simp only [if_neg hp]
      by_cases hr : rand.length < 28
      · simp only [if_pos hr]
        rfl
      · simp only [if_neg hr, List.nil_append]
        rcases hs : repository.Save db now
              { ID := (uuidNewRandom (rand.drop 12)).1, Key := key,
                EncryptedValue := hexEncodeToString (sealedBytes k (rand.take 12) p),
                CreatedAt := 0, UpdatedAt := 0 } with ⟨db', saved, _ | err⟩
        · rfl
        · rfl

/-- The error of `Save` is made of the connection, the identifier and the key
of the record. -/
theorem Save_error_eq (db : DB) (now : Time) (s : Secret) :
    (repository.Save db now s).2.2 =
      match db.fault with
      | some e => some e
      | none =>
        if db.rows.any (fun r => r.ID = s.ID) then some (.uniqueViolation "secrets_pkey")
        else if db.rows.any (fun r => r.Key = s.Key) then some (.uniqueViolation "secrets_key")
        else none := by
  unfold repository.Save
  cases db.fault with
  | some e => rfl
  | none =>
    simp only
    by_cases h1 : (db.rows.any fun r => decide (r.ID = s.ID)) = true
    · rw [if_pos h1, if_pos h1]
    · rw [if_neg h1, if_neg h1]
      by_cases h2 : (db.rows.any fun r => decide (r.Key = s.Key)) = true
      · rw [if_pos h2, if_pos h2]
      · rw [if_neg h2, if_neg h2]

/-- A call of `Save` that fails leaves the table. -/
theorem Save_error_db (db : DB) (now : Time) (s : Secret) (e : GoError)
    (h : (repository.Save db now s).2.2 = some e) : (repository.Save db now s).1 = db := by
  unfold repository.Save at h ⊢
  cases hf : db.fault with
  | some e => rfl
  | none =>
    rw [hf] at h
    simp only at h ⊢
    by_cases h1 : (db.rows.any fun r => decide (r.ID = s.ID)) = true
    · rw [if_pos h1]
    · rw [if_neg h1] at h ⊢
      by_cases h2 : (db.rows.any fun r => decide (r.Key = s.Key)) = true
      · rw [if_pos h2]
      · rw [if_neg h2] at h
        simp at h


theorem logMessages_log_cons (level : LogLevel) (err : GoError) (events : List Event) :
    logMessages (.log level err :: events) = (level, err) :: logMessages events := rfl

theorem logMessages_repo_cons (call : RepoCall) (events : List Event) :
    logMessages (.repo call :: events) = logMessages events := rfl

theorem logMessages_nil : logMessages [] = [] := rfl

/-- The result of `CreateSecret` when `Save` fails. -/
theorem CreateSecret_save_error (db : DB) (now : Time) (key p k : GoString) (rand : Bytes)
    (hr : 28 ≤ rand.length) (hp : p.length ≤ gcmMaxPlaintext) (e : GoError)
    (he : (repository.Save db now
      { ID := (uuidNewRandom (rand.drop 12)).1, Key := key,
        EncryptedValue := hexEncodeToString (sealedBytes k (rand.take 12) p),
        CreatedAt := 0, UpdatedAt := 0 }).2.2 = some e) :
    service.CreateSecret db now key p k rand =
      .returned (([], [], some (.errorf "failed to store secret in the database: %v" e)), db) := by
  rw [CreateSecret_eq db now key p k rand hr hp]
  have hd := Save_error_db db now _ e he
  rcases hs : repository.Save db now
    { ID := (uuidNewRandom (rand.drop 12)).1, Key := key,
      EncryptedValue := hexEncodeToString (sealedBytes k (rand.take 12) p),
      CreatedAt := 0, UpdatedAt := 0 } with ⟨db1, saved1, e1⟩
  rw [hs] at he hd
  simp only at he hd
  subst he
  subst hd
  simp only

/-- A call of `CreateSecret` that does not succeed under a master key has the
same result and passes the same messages to the logger under any other. -/
theorem CreateSecret_failure_independent (db : DB) (now : Time) (key p k1 k2 : GoString)
    (rand : Bytes)
    (h1 : ∀ id key' db', service.CreateSecret db now key p k1 rand ≠
      .returned ((id, key', none), db')) :
    service.CreateSecret db now key p k1 rand = service.CreateSecret db now key p k2 rand ∧
      logMessages (service.CreateSecret.events db now key p k1 rand) =
        logMessages (service.CreateSecret.events db now key p k2 rand) := by
  rw [CreateSecret_events_eq, CreateSecret_events_eq]
  by_cases h : rand.length < 12
  · simp only [service.CreateSecret, CreateSecretModel_eq, if_pos h, and_self]
  · by_cases hp : p.length > gcmMaxPlaintext
    · simp only [service.CreateSecret, CreateSecretModel_eq, if_neg h, if_pos hp, and_self]
    · by_cases hr : rand.length < 28
      · simp only [service.CreateSecret, CreateSecretModel_eq, if_neg h, if_neg hp, if_pos hr,
          and_self]
      · simp only [if_neg h, if_neg hp, if_neg hr, logMessages_repo_cons]
        have he1 := Save_error_eq db now
          { ID := (uuidNewRandom (rand.drop 12)).1, Key := key,
            EncryptedValue := hexEncodeToString (sealedBytes k1 (rand.take 12) p),
            CreatedAt := 0, UpdatedAt := 0 }
        have he2 := Save_error_eq db now
          { ID := (uuidNewRandom (rand.drop 12)).1, Key := key,
            EncryptedValue := hexEncodeToString (sealedBytes k2 (rand.take 12) p),
            CreatedAt := 0, UpdatedAt := 0 }
        simp only at he1 he2
        rw [← he1] at he2
        rw [he2]
        refine ⟨?_, rfl⟩
        cases hs : (repository.Save db now
          { ID := (uuidNewRandom (rand.drop 12)).1, Key := key,
            EncryptedValue := hexEncodeToString (sealedBytes k1 (rand.take 12) p),
            CreatedAt := 0, UpdatedAt := 0 }).2.2 with
        | none =>
          exfalso
          rw [CreateSecret_eq db now key p k1 rand (by omega) (by omega)] at h1
          rcases hs1 : repository.Save db now
            { ID := (uuidNewRandom (rand.drop 12)).1, Key := key,
              EncryptedValue := hexEncodeToString (sealedBytes k1 (rand.take 12) p),
              CreatedAt := 0, UpdatedAt := 0 } with ⟨db1, saved1, e1⟩
          rw [hs1] at hs h1
          simp only at hs
          subst hs
          exact h1 _ _ _ rfl
        | some e =>
          rw [CreateSecret_save_error db now key p k1 rand (by omega) (by omega) e hs,
            CreateSecret_save_error db now key p k2 rand (by omega) (by omega) e (he2.trans hs)]

/-- The events of `UpdateSecret` when the identifier parses. -/
theorem UpdateSecret_events_eq (db : DB) (now : Time) (id p k : GoString) (rand : Bytes)
    (u : UUID) (hu : uuidParse id = .ok u) :
    service.UpdateSecret.events db now id p k rand =
      if rand.length < 12 then
        [.log .error (.errorf "failed to generate nonce: %v" .randRead),
         .log .error (.errorf "failed to encrypt secret: %v"
           (.errorf "failed to generate nonce: %v" .randRead))]
      else if p.length > gcmMaxPlaintext then []
      else
        .repo (.Update u (hexEncodeToString (sealedBytes k (rand.take 12) p))) ::
          match db.fault with
          | some e => [.log .error (.errorf "failed to update secret: %v" e)]
          | none => [] := by
  unfold service.UpdateSecret.events repository.Update
  rw [hu, Encrypt_events_eq, Encrypt_eq]
  by_cases h : rand.length < 12
  · simp only [if_pos h]
    rfl
  · simp only [if_neg h]
    by_cases hp : p.length > gcmMaxPlaintext
    · simp only [if_pos hp]
      rfl
    · simp only [if_neg hp, List.nil_append, sealedBytes]
      cases hf : db.fault with
      | some e => simp only
      | none => simp only

/-- A call of `UpdateSecret` that does not succeed under a master key has the
same result and passes the same messages to the logger under any other. -/
theorem UpdateSecret_failure_independent (db : DB) (now : Time) (id p k1 k2 : GoString)
    (rand : Bytes)
    (h1 : ∀ db', service.UpdateSecret db now id p k1 rand ≠ .returned (none, db')) :
    service.UpdateSecret db now id p k1 rand = service.UpdateSecret db now id p k2 rand ∧
      logMessages (service.UpdateSecret.events db now id p k1 rand) =
        logMessages (service.UpdateSecret.events db now id p k2 rand) := by
  cases hu : uuidParse id with
  | error err => simp only [service.UpdateSecret, service.UpdateSecret.events, hu, and_self]
  | ok u =>
    rw [UpdateSecret_events_eq db now id p k1 rand u hu,
      UpdateSecret_events_eq db now id p k2 rand u hu]
    by_cases h : rand.length < 12
    · simp only [service.UpdateSecret, hu, Encrypt_eq, if_pos h, and_self]
    · by_cases hp : p.length > gcmMaxPlaintext
      · simp only [service.UpdateSecret, hu, Encrypt_eq, if_neg h, if_pos hp, and_self]
      · rw [UpdateSecret_eq db now id p k1 rand u hu (by omega) (by omega)] at h1
        rw [UpdateSecret_eq db now id p k1 rand u hu (by omega) (by omega),
          UpdateSecret_eq db now id p k2 rand u hu (by omega) (by omega)]
        simp only [if_neg h, if_neg hp, logMessages_repo_cons, and_true]
        cases hf : db.fault with
        | some e => simp only
        | none =>
          rw [hf] at h1
          exact absurd rfl (h1 _)


/-- The record `CreateSecret` hands to `Save`. -/
theorem CreateSecret_saved_record (db : DB) (now : Time) (key p k : GoString) (rand : Bytes)
    (secret : Secret)
    (h : .repo (.Save secret) ∈ service.CreateSecret.events db now key p k rand) :
    28 ≤ rand.length ∧ p.length ≤ gcmMaxPlaintext ∧
    secret = { ID := (uuidNewRandom (rand.drop 12)).1, Key := key,
               EncryptedValue := hexEncodeToString (sealedBytes k (rand.take 12) p),
               CreatedAt := 0, UpdatedAt := 0 } := by
  rw [CreateSecret_events_eq] at h
  by_cases h1 : rand.length < 12
  · rw [if_pos h1] at h
    simp at h
  · rw [if_neg h1] at h
    by_cases hp : p.length > gcmMaxPlaintext
    · rw [if_pos hp] at h
      simp at h
    · rw [if_neg hp] at h
      by_cases hr : rand.length < 28
      · rw [if_pos hr] at h
        simp at h
      · rw [if_neg hr] at h
        refine ⟨by omega, by omega, ?_⟩
        rcases List.mem_cons.1 h with h | h
        · simp only [Event.repo.injEq, RepoCall.Save.injEq] at h
          exact h
        · exfalso
          cases hs : (repository.Save db now
            { ID := (uuidNewRandom (rand.drop 12)).1, Key := key,
              EncryptedValue := hexEncodeToString (sealedBytes k (rand.take 12) p),
              CreatedAt := 0, UpdatedAt := 0 }).2.2 with
          | none => rw [hs] at h; simp at h
          | some e => rw [hs] at h; simp at h

/-- What `Encrypt` returns when the random source delivers and the plaintext
is not too long. -/
theorem Encrypt_ok (p k : GoString) (rand : Bytes) (hr : 12 ≤ rand.length)
    (hp : p.length ≤ gcmMaxPlaintext) :
    Encrypt p k rand = .returned (hexEncodeToString (sealedBytes k (rand.take 12) p), none) := by
  rw [Encrypt_eq, if_neg (by omega), if_neg (by omega)]
  simp only [sealedBytes]

theorem Encrypt_short_rand (p k : GoString) (rand : Bytes) (hr : rand.length < 12) :
    Encrypt p k rand =
      .returned ([], some (.errorf "failed to generate nonce: %v" .randRead)) := by
  rw [Encrypt_eq, if_pos hr]

theorem DecryptSecret_of_Decrypt_error (secret : Secret) (k v : GoString) (e : GoError)
    (h : Decrypt secret.EncryptedValue k = .returned (v, some e)) :
    service.DecryptSecret secret k =
      .returned ([], some (.errorf "failed to decrypt secret: %v" e)) := by
  simp only [service.DecryptSecret, h]

theorem DecryptSecret_of_Decrypt_ok (secret : Secret) (k v : GoString)
    (h : Decrypt secret.EncryptedValue k = .returned (v, none)) :
    service.DecryptSecret secret k = .returned (v, none) := by
  simp only [service.DecryptSecret, h]


/-! ## Lemmas on the forms `uuid.Parse` accepts -/

set_option maxRecDepth 100000 in
theorem fromHexChar_asciiLower : ∀ c : Byte, fromHexChar (asciiLower c) = fromHexChar c := by
  decide!

set_option maxRecDepth 100000 in
theorem asciiLower_eq_hyphen : ∀ c : Byte, asciiLower c = 45 ↔ c = 45 := by
  decide!

set_option maxRecDepth 100000 in
theorem asciiLower_idem : ∀ c : Byte, asciiLower (asciiLower c) = asciiLower c := by
  decide!

theorem xtob_asciiLower (x1 x2 : Byte) : xtob (asciiLower x1) (asciiLower x2) = xtob x1 x2 := by
  simp only [xtob, fromHexChar_asciiLower]

theorem getD_map_asciiLower (t : GoString) (i : Nat) :
    (t.map asciiLower).getD i 0 = asciiLower (t.getD i 0) := by
  rw [List.getD_eq_getElem?_getD, List.getD_eq_getElem?_getD, List.getElem?_map]
  cases t[i]? <;> rfl

theorem xtobAll_map_asciiLower (t : GoString) (pos : List Nat) :
    xtobAll (t.map asciiLower) pos = xtobAll t pos := by
  induction pos with
  | nil => rfl
  | cons x pos ih => simp only [xtobAll, getD_map_asciiLower, xtob_asciiLower, ih]
theorem map_asciiLower_take_map (t : GoString) (n : Nat) :
    ((t.map asciiLower).take n).map asciiLower = (t.take n).map asciiLower := by
  rw [← List.map_take, List.map_map]
  congr 1
  funext c
  exact asciiLower_idem c

/-- Function `uuid.Parse` does not look at the case of the letters. -/
theorem uuidParse_map_asciiLower (t : GoString) (u : UUID)
    (h : uuidParse (t.map asciiLower) = .ok u) : uuidParse t = .ok u := by
  unfold uuidParse at h ⊢
  simp only [List.length_map, ← List.map_drop, getD_map_asciiLower, xtobAll_map_asciiLower,
    asciiLower_eq_hyphen, map_asciiLower_take_map, ne_eq] at h
  simp only [ne_eq]
  by_cases h36 : t.length = 36
  · rw [if_pos h36] at h ⊢
    exact h
  · rw [if_neg h36] at h ⊢
    by_cases h45 : t.length = 36 + 9
    · rw [if_pos h45] at h ⊢
      by_cases hp : ¬ (t.take 9).map asciiLower = [117, 114, 110, 58, 117, 117, 105, 100, 58]
      · rw [if_pos hp] at h
        simp at h
      · rw [if_neg hp] at h ⊢
        exact h
    · rw [if_neg h45] at h ⊢
      exact h

theorem uuidParse_hex32 (u : UUID) : uuidParse (hexEncodeToString u.bytes) = .ok u := by
  have hl : (hexEncodeToString u.bytes).length = 32 := by
    rw [hexEncodeToString_length, u.size]
  obtain ⟨bytes, size⟩ := u
  obtain ⟨b0, b1, b2, b3, b4, b5, b6, b7, b8, b9, b10, b11, b12, b13, b14, b15, rfl⟩ :=
    list_length_16 bytes size
  unfold uuidParse
  rw [if_neg (by rw [hl]; decide), if_neg (by rw [hl]; decide), if_neg (by rw [hl]; decide),
    if_pos hl]
  simp only [hexEncodeToString, List.flatMap_cons,
    List.flatMap_nil, List.append_nil, List.cons_append, List.nil_append, List.getD_cons_zero,
    List.getD_cons_succ, xtobAll, xtob_hextable, List.length_cons, List.length_nil]
  rfl

theorem uuidParse_urn (u : UUID) :
    uuidParse ([117, 114, 110, 58, 117, 117, 105, 100, 58] ++ u.String) = .ok u := by
  have h := uuidParse_String u
  have hl := UUID_String_length u
  unfold uuidParse at h ⊢
  rw [if_pos hl] at h
  rw [if_neg (by rw [List.length_append, hl]; decide),
    if_pos (by rw [List.length_append, hl]; rfl),
    if_neg (by rw [List.take_left' (by rfl)]; decide), List.drop_left' (by rfl)]
  exact h

theorem uuidParse_braces (u : UUID) (c1 c2 : Byte) :
    uuidParse (c1 :: (u.String ++ [c2])) = .ok u := by
  have hl : (c1 :: (u.String ++ [c2])).length = 38 := by
    rw [List.length_cons, List.length_append, UUID_String_length]
    rfl
  obtain ⟨bytes, size⟩ := u
  obtain ⟨b0, b1, b2, b3, b4, b5, b6, b7, b8, b9, b10, b11, b12, b13, b14, b15, rfl⟩ :=
    list_length_16 bytes size
  unfold uuidParse
  rw [if_neg (by rw [hl]; decide), if_neg (by rw [hl]; decide), if_pos hl]
  simp only [UUID.String, hexEncodeToString, List.take, List.drop, List.flatMap_cons,
    List.flatMap_nil, List.append_nil, List.cons_append, List.nil_append, List.getD_cons_zero,
    List.getD_cons_succ, xtobAll, xtob_hextable, ne_eq, not_true_eq_false, or_self, if_false,
    List.length_cons, List.length_nil]
  rfl


/-! ## Lemmas on an update under another master key -/

/-- What `Decrypt` makes, under master key `k2`, of the blob of `p` under
master key `k1`. -/
theorem Decrypt_sealedBytes_other_key (p k1 k2 : GoString) (nonce : Bytes)
    (hn : nonce.length = 12) (hp : p.length ≤ gcmMaxPlaintext) :
    Decrypt (hexEncodeToString (sealedBytes k1 nonce p)) k2 =
      if gcmAuth (masterCipher k2) nonce (gcmCounterCrypt (masterCipher k1) nonce p) ≠
          gcmAuth (masterCipher k1) nonce (gcmCounterCrypt (masterCipher k1) nonce p) then
        .returned ([], some authError)
      else
        .returned (gcmCounterCrypt (masterCipher k2) nonce
          (gcmCounterCrypt (masterCipher k1) nonce p), none) := by
  have hd := Decrypt_blob (hexEncodeToString (sealedBytes k1 nonce p)) k2 nonce
    (gcmCounterCrypt (masterCipher k1) nonce p)
    (gcmAuth (masterCipher k1) nonce (gcmCounterCrypt (masterCipher k1) nonce p))
    hn (gcmAuth_length _ _ _) (hexDecodeString_encode _)
  have hl : ¬ (gcmCounterCrypt (masterCipher k1) nonce p).length > gcmMaxPlaintext := by
    rw [gcmCounterCrypt_length]; omega
  rw [hd]
  simp only [hl, false_or]

/-- An update after a creation, under any master key: it succeeds when the
random source delivers the nonce and the plaintext is not too long, and the
record fetched afterwards holds the blob of the update. -/
theorem fetch_after_create_update (db db1 : DB) (now1 now2 : Time)
    (key v1 v2 m1 m2 id key' : GoString) (rand1 rand2 : Bytes)
    (hc : service.CreateSecret db now1 key v1 m1 rand1 = .returned ((id, key', none), db1))
    (hr : 12 ≤ rand2.length) (hp : v2.length ≤ gcmMaxPlaintext) :
    ∃ db2, service.UpdateSecret db1 now2 id v2 m2 rand2 = .returned (none, db2) ∧
      service.GetEncryptedSecretByID db2 id =
        (some { ID := (uuidNewRandom (rand1.drop 12)).1, Key := key,
                EncryptedValue := hexEncodeToString (sealedBytes m2 (rand2.take 12) v2),
                CreatedAt := now1, UpdatedAt := now2 }, none) := by
  obtain ⟨_, _, hf, hnew, _, hid, hdb1⟩ :=
    CreateSecret_returned db db1 now1 key v1 m1 id key' rand1 hc
  have hpu : uuidParse id = .ok (uuidNewRandom (rand1.drop 12)).1 := by
    rw [hid, uuidParse_String]
  subst hdb1
  obtain ⟨rows, fault⟩ := db
  simp only at hf hnew
  subst hf
  rw [UpdateSecret_eq _ now2 id v2 m2 rand2 _ hpu hr hp]
  refine ⟨_, rfl, ?_⟩
  rw [GetEncryptedSecretByID_eq _ id _ hpu rfl]
  simp only
  rw [List.find?_map, find?_append_new rows _ _
    (fun r hr => by
      have := (hnew r hr).1
      simp [this])
    (by simp)]
  simp


/-! ## Lemmas on the sanitize hook -/

theorem mem_stringsReplaceAll (s : GoString) (old : Byte) (new : GoString) (c : Byte)
    (h : c ∈ stringsReplaceAll s old new) : c ∈ new ∨ (c ∈ s ∧ c ≠ old) := by
  unfold stringsReplaceAll at h
  obtain ⟨x, hx, hc⟩ := List.mem_flatMap.1 h
  by_cases hxo : x = old
  · rw [if_pos hxo] at hc
    exact Or.inl hc
  · rw [if_neg hxo] at hc
    rw [List.mem_singleton] at hc
    subst hc
    exact Or.inr ⟨hx, hxo⟩

/-- The three replacements are one pass: every byte is copied, but newline,
carriage return and tab, which become a backslash and a letter. -/
theorem escapeMessage_eq (message : GoString) :
    escapeMessage message =
      message.flatMap (fun c =>
        if c = 10 then [92, 110] else if c = 13 then [92, 114]
        else if c = 9 then [92, 116] else [c]) := by
  unfold escapeMessage stringsReplaceAll
  induction message with
  | nil => rfl
  | cons c s ih =>
    simp only [List.flatMap_cons, List.flatMap_append] at ih ⊢
    rw [ih]
    congr 1
    by_cases h10 : c = 10
    · subst h10; rfl
    · by_cases h13 : c = 13
      · subst h13; rfl
      · by_cases h9 : c = 9
        · subst h9; rfl
        · simp [h10, h13, h9]

/-- The masking step copies bytes of its input and writes asterisks. -/
theorem mem_replaceAllAux (label : Label) (fuel : Nat) (s : Bytes) (c : Byte)
    (h : c ∈ replaceAllAux label fuel s) : c ∈ s ∨ c = 42 := by
  induction fuel generalizing s with
  | zero => exact Or.inl h
  | succ fuel ih =>
    cases s with
    | nil => exact Or.inl h
    | cons x s =>
      unfold replaceAllAux at h
      cases hm : matchSensitive label (x :: s) with
      | none =>
        rw [hm] at h
        simp only at h
        rcases List.mem_cons.1 h with h | h
        · exact Or.inl (by rw [h]; exact List.mem_cons_self _ _)
        · rcases ih s h with h | h
          · exact Or.inl (List.mem_cons_of_mem _ h)
          · exact Or.inr h
      | some gm =>
        obtain ⟨g1, m⟩ := gm
        rw [hm] at h
        simp only at h
        rcases List.mem_append.1 h with h | h
        · rcases List.mem_append.1 h with h | h
          · exact Or.inl (List.mem_of_mem_take h)
          · right
            simp only [List.mem_cons, List.mem_singleton, List.not_mem_nil, or_false,
              or_self] at h
            exact h
        · rcases ih _ h with h | h
          · exact Or.inl (List.mem_of_mem_drop h)
          · exact Or.inr h

theorem mem_regexpReplaceAllString (label : Label) (s : GoString) (c : Byte)
    (h : c ∈ regexpReplaceAllString label s) : c ∈ s ∨ c = 42 :=
  mem_replaceAllAux label s.length s c h

/-- No newline, carriage return or tab after the three replacements. -/
theorem escapeMessage_clean (message : GoString) (c : Byte) (h : c ∈ escapeMessage message) :
    c ≠ 10 ∧ c ≠ 13 ∧ c ≠ 9 := by
  unfold escapeMessage at h
  rcases mem_stringsReplaceAll _ _ _ _ h with h | ⟨h, h9⟩
  · simp only [List.mem_cons, List.mem_singleton, List.not_mem_nil, or_false] at h
    rcases h with h | h <;> subst h <;> decide
  · rcases mem_stringsReplaceAll _ _ _ _ h with h | ⟨h, h13⟩
    · simp only [List.mem_cons, List.mem_singleton, List.not_mem_nil, or_false] at h
      rcases h with h | h <;> subst h <;> decide
    · rcases mem_stringsReplaceAll _ _ _ _ h with h | ⟨h, h10⟩
      · simp only [List.mem_cons, List.mem_singleton, List.not_mem_nil, or_false] at h
        rcases h with h | h <;> subst h <;> decide
      · exact ⟨h10, h13, h9⟩

/-- The masking steps keep a property of bytes that the asterisk has. -/
theorem mem_foldl_regexpReplaceAllString (patterns : List Label) (s : GoString) (c : Byte)
    (h : c ∈ patterns.foldl (fun m pattern => regexpReplaceAllString pattern m) s) :
    c ∈ s ∨ c = 42 := by
  induction patterns generalizing s with
  | nil => exact Or.inl h
  | cons p ps ih =>
    rw [List.foldl_cons] at h
    rcases ih _ h with h | h
    · exact mem_regexpReplaceAllString p s c h
    · exact Or.inr h


/-! ## Lemmas on the masking of a message without spaces -/

theorem takeWhile_isSpace_of_solid (s : Bytes) (h : ∀ c ∈ s, isSpace c = false) :
    s.takeWhile isSpace = [] := by
  cases s with
  | nil => rfl
  | cons c t => rw [List.takeWhile_cons, h c (List.mem_cons_self _ _)]; rfl

theorem takeWhile_not_isSpace_of_solid (s : Bytes) (h : ∀ c ∈ s, isSpace c = false) :
    s.takeWhile (fun c => !isSpace c) = s := by
  induction s with
  | nil => rfl
  | cons c t ih =>
    rw [List.takeWhile_cons, h c (List.mem_cons_self _ _)]
    simp only [Bool.not_false, if_true]
    rw [ih (fun x hx => h x (List.mem_cons_of_mem _ hx))]

theorem replaceAllAux_nil (label : Label) (fuel : Nat) : replaceAllAux label fuel [] = [] := by
  cases fuel <;> rfl

/-- A match in a message without spaces: group 1 ends behind a sign `=`, and
the value is the rest of the message. -/
theorem matchSensitive_solid (label : Label) (s : Bytes) (g1 m : Nat)
    (hs : ∀ c ∈ s, isSpace c = false) (h : matchSensitive label s = some (g1, m)) :
    1 ≤ g1 ∧ g1 < m ∧ m = s.length ∧ s[g1 - 1]? = some 61 := by
  unfold matchSensitive at h
  cases hn : matchLabel label s with
  | none => rw [hn] at h; simp at h
  | some n =>
    rw [hn] at h
    have hd : ∀ c ∈ s.drop n, isSpace c = false := fun c hc => hs c (List.mem_of_mem_drop hc)
    simp only [takeWhile_isSpace_of_solid _ hd, List.length_nil, List.drop_zero,
      Nat.add_zero] at h
    cases hs1 : s.drop n with
    | nil => rw [hs1] at h; simp at h
    | cons x s2 =>
      rw [hs1] at h
      have hs2 : ∀ c ∈ s2, isSpace c = false := fun c hc =>
        hd c (by rw [hs1]; exact List.mem_cons_of_mem _ hc)
      by_cases hx : x = 61
      · subst hx
        simp only [takeWhile_isSpace_of_solid _ hs2, List.length_nil, List.drop_zero,
          Nat.add_zero, takeWhile_not_isSpace_of_solid _ hs2] at h
        by_cases hv : s2.length = 0
        · rw [if_pos hv] at h; simp at h
        · rw [if_neg hv] at h
          simp only [Option.some.injEq, Prod.mk.injEq] at h
          obtain ⟨h1, h2⟩ := h
          have hlen : s.length = n + (1 + s2.length) := by
            have := congrArg List.length hs1
            rw [List.length_drop, List.length_cons] at this
            omega
          have hget : s[n]? = some 61 := by
            have := congrArg (fun l => l[0]?) hs1
            simpa [List.getElem?_drop] using this
          refine ⟨by omega, by omega, by omega, ?_⟩
          rw [← h1]
          simpa using hget
      · exfalso
        revert h
        split
        · rename_i heq
          exact absurd (List.cons.inj heq).1 hx
        · simp


theorem mem_of_getElem?_eq_some {l : Bytes} {i : Nat} {a : Byte} (h : l[i]? = some a) :
    a ∈ l := by
  obtain ⟨hi, rfl⟩ := List.getElem?_eq_some.1 h
  exact List.getElem_mem _

/-- One masking step on a message without spaces: the message is left as it
is, or it is cut behind a sign `=` and five asterisks are appended. -/
theorem replaceAllAux_solid (label : Label) (fuel : Nat) (s : Bytes)
    (hs : ∀ c ∈ s, isSpace c = false) :
    replaceAllAux label fuel s = s ∨
      ∃ e, 1 ≤ e ∧ e < s.length ∧ s[e - 1]? = some 61 ∧
        replaceAllAux label fuel s = s.take e ++ [42, 42, 42, 42, 42] := by
  induction fuel generalizing s with
  | zero => exact Or.inl rfl
  | succ fuel ih =>
    cases s with
    | nil => exact Or.inl rfl
    | cons x t =>
      unfold replaceAllAux
      cases hm : matchSensitive label (x :: t) with
      | some gm =>
        obtain ⟨g1, m⟩ := gm
        obtain ⟨h1, h2, h3, h4⟩ := matchSensitive_solid label (x :: t) g1 m hs hm
        right
        refine ⟨g1, h1, by omega, h4, ?_⟩
        simp only
        rw [h3, List.drop_length, replaceAllAux_nil, List.append_nil]
      | none =>
        simp only
        rcases ih t (fun c hc => hs c (List.mem_cons_of_mem _ hc)) with h | ⟨e, h1, h2, h3, h4⟩
        · exact Or.inl (by rw [h])
        · right
          refine ⟨e + 1, by omega, by rw [List.length_cons]; omega, ?_, ?_⟩
          · have : e + 1 - 1 = (e - 1) + 1 := by omega
            rw [this, List.getElem?_cons_succ]
            exact h3
          · rw [h4, List.take_succ_cons, List.cons_append]

/-- One masking step on `L=w`, where `L` has no sign `=` and nothing is a
space: the outcome is `L=w'` for a `w'` without spaces that is not empty, and
when `w` has no sign `=` either, the outcome is the message itself or
`L=*****`. -/
theorem regexpReplaceAllString_labelled (label : Label) (L w : Bytes)
    (hL : ∀ c ∈ L, isSpace c = false ∧ c ≠ 61) (hw : ∀ c ∈ w, isSpace c = false)
    (hne : w ≠ []) :
    (∃ w', regexpReplaceAllString label (L ++ 61 :: w) = L ++ 61 :: w' ∧
      (∀ c ∈ w', isSpace c = false) ∧ w' ≠ []) ∧
    ((∀ c ∈ w, c ≠ 61) →
      regexpReplaceAllString label (L ++ 61 :: w) = L ++ 61 :: w ∨
      regexpReplaceAllString label (L ++ 61 :: w) = L ++ 61 :: [42, 42, 42, 42, 42]) := by
  have hs : ∀ c ∈ L ++ 61 :: w, isSpace c = false := by
    intro c hc
    rcases List.mem_append.1 hc with h | h
    · exact (hL c h).1
    · rcases List.mem_cons.1 h with h | h
      · subst h; rfl
      · exact hw c h
  unfold regexpReplaceAllString
  rcases replaceAllAux_solid label (L ++ 61 :: w).length (L ++ 61 :: w) hs with
    h | ⟨e, h1, h2, h3, h4⟩
  · rw [h]
    exact ⟨⟨w, rfl, hw, hne⟩, fun _ => Or.inl rfl⟩
  · rw [h4]
    have he : L.length ≤ e - 1 := by
      by_contra hlt
      have hlt : e - 1 < L.length := by omega
      rw [List.getElem?_append_left hlt] at h3
      have hmem := mem_of_getElem?_eq_some h3
      exact (hL 61 hmem).2 rfl
    have htake : (L ++ 61 :: w).take e = L ++ 61 :: w.take (e - 1 - L.length) := by
      have : e = L.length + ((e - 1 - L.length) + 1) := by omega
      rw [this, List.take_append, List.take_succ_cons]
      congr 3
      omega
    rw [htake, List.append_assoc, List.cons_append]
    refine ⟨⟨_, rfl, ?_, by simp⟩, fun h61 => Or.inr ?_⟩
    · intro c hc
      rcases List.mem_append.1 hc with h | h
      · exact hw c (List.mem_of_mem_take h)
      · simp only [List.mem_cons, List.mem_singleton, List.not_mem_nil, or_false,
          or_self] at h
        subst h
        rfl
    · have he' : e - 1 = L.length := by
        by_contra hne'
        have hgt : L.length < e - 1 := by omega
        rw [List.getElem?_append_right (by omega)] at h3
        have hpos : e - 1 - L.length = (e - 1 - L.length - 1) + 1 := by omega
        rw [hpos, List.getElem?_cons_succ] at h3
        exact h61 61 (mem_of_getElem?_eq_some h3) rfl
      rw [he', Nat.sub_self, List.take_zero, List.nil_append]

/-- The masking step of a pattern whose label matches `L`. -/
theorem regexpReplaceAllString_own (label : Label) (L w : Bytes)
    (hm : matchLabel label (L ++ 61 :: w) = some L.length)
    (hw : ∀ c ∈ w, isSpace c = false) (hne : w ≠ []) :
    regexpReplaceAllString label (L ++ 61 :: w) = L ++ 61 :: [42, 42, 42, 42, 42] := by
  have hms : matchSensitive label (L ++ 61 :: w) =
      some (L.length + 1, L.length + 1 + w.length) := by
    unfold matchSensitive
    rw [hm]
    simp only [List.drop_left, List.takeWhile_cons, show isSpace 61 = false by rfl,
      Bool.false_eq_true, if_false, List.length_nil, List.drop_zero, Nat.add_zero,
      takeWhile_isSpace_of_solid _ hw, takeWhile_not_isSpace_of_solid _ hw]
    rw [if_neg (by
      intro h
      exact hne (List.length_eq_zero.1 h))]
  unfold regexpReplaceAllString
  have hlen : (L ++ 61 :: w).length = (L.length + w.length) + 1 := by
    rw [List.length_append, List.length_cons]
    omega
  rw [hlen]
  cases hM : L ++ 61 :: w with
  | nil => simp at hM
  | cons x t =>
    unfold replaceAllAux
    rw [← hM, hms]
    simp only
    have hd : (L ++ 61 :: w).drop (L.length + 1 + w.length) = [] := by
      apply List.drop_eq_nil_of_le
      rw [List.length_append, List.length_cons]
      omega
    have ht : (L ++ 61 :: w).take (L.length + 1) = L ++ [61] := by
      rw [List.take_append, List.take_succ_cons, List.take_zero]
    rw [hd, replaceAllAux_nil, List.append_nil, ht, List.append_assoc]
    rfl


/-! ## Lemmas on the match of a label in any letter case -/

set_option maxRecDepth 100000 in
theorem asciiLower_letter : ∀ x : Byte, 97 ≤ (asciiLower x).val → (asciiLower x).val ≤ 122 →
    (x = asciiLower x ∨ x = Fin.ofNat ((asciiLower x).val - 32)) ∧ x ≠ 226 ∧ x ≠ 197 ∧
      isSpace x = false ∧ x ≠ 61 ∧ x ≠ 45 ∧ x ≠ 95 := by
  decide!

set_option maxRecDepth 100000 in
theorem asciiLower_fixed : ∀ x : Byte, (asciiLower x).val < 65 ∨ 90 < (asciiLower x).val →
    ((asciiLower x).val < 97 ∨ 122 < (asciiLower x).val) → asciiLower x = x := by
  decide!

theorem matchLabel_cons (alts : List Bytes) (rest : Label) (s : Bytes) :
    matchLabel (alts :: rest) s =
      alts.findSome? (fun a =>
        if a.isPrefixOf s then (matchLabel rest (s.drop a.length)).map (fun n => a.length + n)
        else none) := rfl

theorem findSome?_two_or (f : Bytes → Option Nat) (a b : Bytes) (extra : List Bytes)
    (v : Option Nat) (ha : f a = v ∨ f a = none) (hb : f b = v ∨ f b = none)
    (hab : f a = v ∨ f b = v) (he : ∀ l ∈ extra, f l = none) :
    ([a, b] ++ extra).findSome? f = v := by
  have hex : extra.findSome? f = none := List.findSome?_eq_none_iff.2 he
  cases v with
  | none =>
    apply List.findSome?_eq_none_iff.2
    intro l hl
    rcases List.mem_append.1 hl with h | h
    · simp only [List.mem_cons, List.mem_singleton, List.not_mem_nil, or_false] at h
      rcases h with h | h
      · subst h; rcases ha with h | h <;> exact h
      · subst h; rcases hb with h | h <;> exact h
    · exact he l h
  | some n =>
    simp only [List.cons_append, List.nil_append, List.findSome?_cons]
    rcases ha with ha | ha
    · rw [ha]
    · rw [ha]
      simp only
      rcases hab with h | h
      · rw [ha] at h; simp at h
      · rw [h]

/-- A letter of a label under `(?i)` takes the letter in either case. -/
theorem matchLabel_foldLetter (x : Byte) (h1 : 97 ≤ (asciiLower x).val)
    (h2 : (asciiLower x).val ≤ 122) (rest : Label) (t : Bytes) :
    matchLabel (foldLetter (asciiLower x) :: rest) (x :: t) =
      (matchLabel rest t).map (fun n => 1 + n) := by
  obtain ⟨hx, h226, h197, _⟩ := asciiLower_letter x h1 h2
  have key : ∀ a : Byte,
      (if ([a] : Bytes).isPrefixOf (x :: t) = true then
        Option.map (fun n => ([a] : Bytes).length + n)
          (matchLabel rest (List.drop ([a] : Bytes).length (x :: t)))
      else none) = if a = x then (matchLabel rest t).map (fun n => 1 + n) else none := by
    intro a
    by_cases h : a = x
    · simp [h, List.isPrefixOf]
    · simp [h, List.isPrefixOf]
  rw [matchLabel_cons]
  unfold foldLetter
  apply findSome?_two_or
  · rw [key]
    by_cases h : asciiLower x = x
    · exact Or.inl (if_pos h)
    · exact Or.inr (if_neg h)
  · rw [key]
    by_cases h : Fin.ofNat ((asciiLower x).val - 32) = x
    · exact Or.inl (if_pos h)
    · exact Or.inr (if_neg h)
  · rw [key, key]
    rcases hx with hx | hx
    · exact Or.inl (if_pos hx.symm)
    · exact Or.inr (if_pos hx.symm)
  · intro l hl
    have hl' : l = [226, 132, 170] ∨ l = [197, 191] := by
      by_cases hc1 : asciiLower x = 107
      · rw [if_pos hc1, List.mem_singleton] at hl
        exact Or.inl hl
      · rw [if_neg hc1] at hl
        by_cases hc2 : asciiLower x = 115
        · rw [if_pos hc2, List.mem_singleton] at hl
          exact Or.inr hl
        · rw [if_neg hc2] at hl
          simp at hl
    rcases hl' with rfl | rfl
    · have : ([226, 132, 170] : Bytes).isPrefixOf (x :: t) = false := by
        simp only [List.isPrefixOf, Bool.and_eq_false_imp, beq_iff_eq]
        intro h
        exact absurd h.symm h226
      rw [this]
      rfl
    · have : ([197, 191] : Bytes).isPrefixOf (x :: t) = false := by
        simp only [List.isPrefixOf, Bool.and_eq_false_imp, beq_iff_eq]
        intro h
        exact absurd h.symm h197
      rw [this]
      rfl


/-- The letters of a word under `(?i)` take the word in any letter case. -/
theorem matchLabel_letters (chars : List Byte) (hchars : ∀ c ∈ chars, 97 ≤ c.val ∧ c.val ≤ 122)
    (L : Bytes) (hL : L.map asciiLower = chars) (rest : Label) (s : Bytes) :
    matchLabel (chars.map foldLetter ++ rest) (L ++ s) =
      (matchLabel rest s).map (fun n => L.length + n) := by
  induction chars generalizing L with
  | nil =>
    rw [List.map_eq_nil_iff] at hL
    subst hL
    simp only [List.map_nil, List.nil_append, List.length_nil, Nat.zero_add]
    cases matchLabel rest s <;> rfl
  | cons c cs ih =>
    cases L with
    | nil => simp at hL
    | cons x L' =>
      rw [List.map_cons] at hL
      obtain ⟨hx, hL'⟩ := List.cons.inj hL
      subst hx
      have hc := hchars _ (List.mem_cons_self _ _)
      rw [List.map_cons, List.cons_append, List.cons_append,
        matchLabel_foldLetter x hc.1 hc.2,
        ih (fun c hc' => hchars c (List.mem_cons_of_mem _ hc')) L' hL']
      cases matchLabel rest s with
      | none => rfl
      | some n =>
        simp only [Option.map_some', List.length_cons]
        congr 1
        omega

/-- The same for a label that is a word. -/
theorem matchLabel_labelOf (chars : List Byte)
    (hchars : ∀ c ∈ chars, 97 ≤ c.val ∧ c.val ≤ 122)
    (L : Bytes) (hL : L.map asciiLower = chars) (s : Bytes) :
    matchLabel (chars.map foldLetter) (L ++ s) = some L.length := by
  have h := matchLabel_letters chars hchars L hL [] s
  rw [List.append_nil] at h
  rw [h]
  rfl

/-- Item `[-_]?` before a separator and before another byte. -/
theorem matchLabel_separator (x : Byte) (hx : x = 45 ∨ x = 95) (rest : Label) (t : Bytes)
    (n : Nat) (h : matchLabel rest t = some n) :
    matchLabel ([[45], [95], []] :: rest) (x :: t) = some (1 + n) := by
  rw [matchLabel_cons]
  rcases hx with rfl | rfl
  · simp [List.findSome?_cons, List.isPrefixOf, h]
  · simp [List.findSome?_cons, List.isPrefixOf, h]

theorem matchLabel_no_separator (x : Byte) (h45 : x ≠ 45) (h95 : x ≠ 95) (rest : Label)
    (t : Bytes) (n : Nat) (h : matchLabel rest (x :: t) = some n) :
    matchLabel ([[45], [95], []] :: rest) (x :: t) = some n := by
  rw [matchLabel_cons]
  simp [List.findSome?_cons, List.isPrefixOf, h, Ne.symm h45, Ne.symm h95]


set_option maxRecDepth 100000 in
theorem asciiLower_label_byte : ∀ x : Byte,
    ((97 ≤ (asciiLower x).val ∧ (asciiLower x).val ≤ 122) ∨ asciiLower x = 45 ∨
      asciiLower x = 95) →
    isSpace x = false ∧ x ≠ 61 ∧ (asciiLower x = 45 → x = 45) ∧ (asciiLower x = 95 → x = 95) := by
  decide!

set_option maxRecDepth 100000 in
theorem letters_password : ∀ c ∈ goString "password", 97 ≤ c.val ∧ c.val ≤ 122 := by
  decide!

set_option maxRecDepth 100000 in
theorem letters_token : ∀ c ∈ goString "token", 97 ≤ c.val ∧ c.val ≤ 122 := by
  decide!

set_option maxRecDepth 100000 in
theorem letters_api : ∀ c ∈ goString "api", 97 ≤ c.val ∧ c.val ≤ 122 := by
  decide!

set_option maxRecDepth 100000 in
theorem letters_master : ∀ c ∈ goString "master", 97 ≤ c.val ∧ c.val ≤ 122 := by
  decide!

set_option maxRecDepth 100000 in
theorem letters_key : ∀ c ∈ goString "key", 97 ≤ c.val ∧ c.val ≤ 122 := by
  decide!

set_option maxRecDepth 100000 in
theorem letters_secret : ∀ c ∈ goString "secret", 97 ≤ c.val ∧ c.val ≤ 122 := by
  decide!

/-- Pattern `api[-_]?key` takes `api`, an optional separator and `key`, in any
letter case. -/
theorem matchLabel_api (A R : Bytes) (s : Bytes) (hA : A.map asciiLower = goString "api")
    (hR : R.map asciiLower = goString "key" ∨
      ∃ x K, R = x :: K ∧ (x = 45 ∨ x = 95) ∧ K.map asciiLower = goString "key") :
    matchLabel (labelOf "api" ++ [[[45], [95], []]] ++ labelOf "key") (A ++ (R ++ s)) =
      some (A.length + R.length) := by
  have hkey := letters_key
  have hapi := letters_api
  rw [List.append_assoc, List.singleton_append]
  unfold labelOf
  rw [matchLabel_letters (goString "api") hapi A hA]
  rcases hR with hR | ⟨x, K, rfl, hx, hK⟩
  · cases R with
    | nil => exact absurd hR (by rw [List.map_nil]; intro h; exact absurd (congrArg List.length h) (by decide))
    | cons x K =>
      have hx : asciiLower x = 107 := (List.cons.inj hR).1
      obtain ⟨_, _, _, _, _, h45, h95⟩ :=
        asciiLower_letter x (by rw [hx]; decide) (by rw [hx]; decide)
      rw [List.cons_append, matchLabel_no_separator x h45 h95 _ _ (x :: K).length
        (by rw [← List.cons_append]; exact matchLabel_labelOf _ hkey _ hR s)]
      rfl
  · rw [List.cons_append, matchLabel_separator x hx _ _ K.length
      (matchLabel_labelOf _ hkey K hK s)]
    simp only [Option.map_some', List.length_cons]
    congr 1
    omega


theorem flatMap_singleton_of (l : Bytes) (f : Byte → Bytes) (h : ∀ c ∈ l, f c = [c]) :
    l.flatMap f = l := by
  induction l with
  | nil => rfl
  | cons x t ih =>
    rw [List.flatMap_cons, h x (List.mem_cons_self _ _),
      ih (fun c hc => h c (List.mem_cons_of_mem _ hc))]
    rfl

/-- The three replacements on `L=v` when `L` has no space: `L` and the sign
`=` are copied. -/
theorem escapeMessage_labelled (L v : Bytes) (hL : ∀ c ∈ L, isSpace c = false) :
    escapeMessage (L ++ 61 :: v) = L ++ 61 :: escapeMessage v := by
  rw [escapeMessage_eq, escapeMessage_eq, List.flatMap_append, List.flatMap_cons]
  rw [flatMap_singleton_of L _ (fun c hc => by
    have h := hL c hc
    have h10 : c ≠ 10 := by rintro rfl; exact absurd h (by decide)
    have h13 : c ≠ 13 := by rintro rfl; exact absurd h (by decide)
    have h9 : c ≠ 9 := by rintro rfl; exact absurd h (by decide)
    rw [if_neg h10, if_neg h13, if_neg h9])]
  rfl

/-- A value without space or form feed has, after the three replacements, no
space of any kind, and it is not empty when the value is not. -/
theorem escapeMessage_solid (v : Bytes) (hv : v ≠ []) (h32 : (32 : Byte) ∉ v)
    (h12 : (12 : Byte) ∉ v) :
    (∀ c ∈ escapeMessage v, isSpace c = false) ∧ escapeMessage v ≠ [] := by
  constructor
  · intro c hc
    obtain ⟨h10, h13, h9⟩ := escapeMessage_clean v c hc
    have hc32 : c ≠ 32 := by
      rintro rfl
      rw [escapeMessage_eq] at hc
      obtain ⟨x, hx, hxc⟩ := List.mem_flatMap.1 hc
      by_cases hx10 : x = 10
      · rw [if_pos hx10] at hxc; revert hxc; decide
      · rw [if_neg hx10] at hxc
        by_cases hx13 : x = 13
        · rw [if_pos hx13] at hxc; revert hxc; decide
        · rw [if_neg hx13] at hxc
          by_cases hx9 : x = 9
          · rw [if_pos hx9] at hxc; revert hxc; decide
          · rw [if_neg hx9, List.mem_singleton] at hxc
            exact h32 (hxc ▸ hx)
    have hc12 : c ≠ 12 := by
      rintro rfl
      rw [escapeMessage_eq] at hc
      obtain ⟨x, hx, hxc⟩ := List.mem_flatMap.1 hc
      by_cases hx10 : x = 10
      · rw [if_pos hx10] at hxc; revert hxc; decide
      · rw [if_neg hx10] at hxc
        by_cases hx13 : x = 13
        · rw [if_pos hx13] at hxc; revert hxc; decide
        · rw [if_neg hx13] at hxc
          by_cases hx9 : x = 9
          · rw [if_pos hx9] at hxc; revert hxc; decide
          · rw [if_neg hx9, List.mem_singleton] at hxc
            exact h12 (hxc ▸ hx)
    simp only [isSpace, Bool.or_eq_false_iff, decide_eq_false_iff_not]
    exact ⟨⟨⟨⟨h9, h10⟩, hc12⟩, h13⟩, hc32⟩
  · cases v with
    | nil => exact absurd rfl hv
    | cons x t =>
      rw [escapeMessage_eq, List.flatMap_cons]
      intro h
      have := (List.append_eq_nil.1 h).1
      by_cases hx10 : x = 10
      · rw [if_pos hx10] at this; simp at this
      · rw [if_neg hx10] at this
        by_cases hx13 : x = 13
        · rw [if_pos hx13] at this; simp at this
        · rw [if_neg hx13] at this
          by_cases hx9 : x = 9
          · rw [if_pos hx9] at this; simp at this
          · rw [if_neg hx9] at this; simp at this

set_option maxRecDepth 100000 in
theorem asterisks_solid :
    ∀ c ∈ ([42, 42, 42, 42, 42] : Bytes), isSpace c = false ∧ c ≠ 61 := by
  decide!

/-- The masking steps on `L=w`: the steps before the pattern of `L` keep the
form, the pattern of `L` makes `L=*****` of it, and the steps after it leave
that. -/
theorem foldl_masks (L : Bytes) (hL : ∀ c ∈ L, isSpace c = false ∧ c ≠ 61)
    (pre post : List Label) (own : Label)
    (hown : ∀ s, matchLabel own (L ++ s) = some L.length)
    (w : Bytes) (hw : ∀ c ∈ w, isSpace c = false) (hne : w ≠ []) :
    (pre ++ own :: post).foldl (fun m pattern => regexpReplaceAllString pattern m)
        (L ++ 61 :: w) =
      L ++ 61 :: [42, 42, 42, 42, 42] := by
  induction pre generalizing w with
  | cons p ps ih =>
    rw [List.cons_append, List.foldl_cons]
    obtain ⟨w', hw', hs', hne'⟩ := (regexpReplaceAllString_labelled p L w hL hw hne).1
    rw [hw']
    exact ih w' hs' hne'
  | nil =>
    rw [List.nil_append, List.foldl_cons, regexpReplaceAllString_own own L w (hown _) hw hne]
    clear hown
    induction post with
    | nil => rfl
    | cons p ps ih =>
      rw [List.foldl_cons]
      have h := (regexpReplaceAllString_labelled p L [42, 42, 42, 42, 42] hL
        (fun c hc => (asterisks_solid c hc).1) (List.cons_ne_nil _ _)).2
        (fun c hc => (asterisks_solid c hc).2)
      rcases h with h | h <;> rw [h] <;> exact ih


/-- A label in any letter case has no space and no sign `=`. -/
theorem label_bytes (label L : Bytes) (hL : L.map asciiLower = label)
    (hlabel : ∀ c ∈ label, (97 ≤ c.val ∧ c.val ≤ 122) ∨ c = 45 ∨ c = 95) :
    ∀ c ∈ L, isSpace c = false ∧ c ≠ 61 := by
  intro c hc
  have hm : asciiLower c ∈ label := by
    rw [← hL]
    exact List.mem_map_of_mem _ hc
  obtain ⟨h1, h2, _⟩ := asciiLower_label_byte c (hlabel _ hm)
  exact ⟨h1, h2⟩

theorem letters_label (label : Bytes) (h : ∀ c ∈ label, 97 ≤ c.val ∧ c.val ≤ 122) :
    ∀ c ∈ label, (97 ≤ c.val ∧ c.val ≤ 122) ∨ c = 45 ∨ c = 95 :=
  fun c hc => Or.inl (h c hc)

set_option maxRecDepth 100000 in
theorem letters_apikey :
    ∀ c ∈ goString "apikey", (97 ≤ c.val ∧ c.val ≤ 122) ∨ c = 45 ∨ c = 95 := by
  decide!

set_option maxRecDepth 100000 in
theorem letters_api_key :
    ∀ c ∈ goString "api_key", (97 ≤ c.val ∧ c.val ≤ 122) ∨ c = 45 ∨ c = 95 := by
  decide!

set_option maxRecDepth 100000 in
theorem letters_api_hyphen_key :
    ∀ c ∈ goString "api-key", (97 ≤ c.val ∧ c.val ≤ 122) ∨ c = 45 ∨ c = 95 := by
  decide!

/-- The labels with a separator: the pattern takes the whole label. -/
theorem matchLabel_api_separator (L : Bytes) (sep : Byte) (hsep : sep = 45 ∨ sep = 95)
    (hL : L.map asciiLower = goString "api" ++ sep :: goString "key") (s : Bytes) :
    matchLabel (labelOf "api" ++ [[[45], [95], []]] ++ labelOf "key") (L ++ s) =
      some L.length := by
  have hlen : L.length = 7 := by
    have := congrArg List.length hL
    rw [List.length_map] at this
    rw [this]
    rfl
  have hA : (L.take 3).map asciiLower = goString "api" := by
    rw [List.map_take, hL]
    rfl
  have hR : (L.drop 3).map asciiLower = sep :: goString "key" := by
    rw [List.map_drop, hL]
    rfl
  cases hd : L.drop 3 with
  | nil => rw [hd] at hR; exact absurd hR (by simp)
  | cons x K =>
    rw [hd, List.map_cons] at hR
    obtain ⟨hx, hK⟩ := List.cons.inj hR
    have hx' : x = 45 ∨ x = 95 := by
      rcases hsep with h | h
      · left
        exact (asciiLower_label_byte x (Or.inr (Or.inl (hx.trans h)))).2.2.1 (hx.trans h)
      · right
        exact (asciiLower_label_byte x (Or.inr (Or.inr (hx.trans h)))).2.2.2 (hx.trans h)
    have h := matchLabel_api (L.take 3) (L.drop 3) s hA
      (Or.inr ⟨x, K, hd, hx', hK⟩)
    rw [← List.append_assoc, List.take_append_drop, ← List.length_append,
      List.take_append_drop] at h
    exact h

theorem matchLabel_apikey (L : Bytes) (hL : L.map asciiLower = goString "apikey") (s : Bytes) :
    matchLabel (labelOf "api" ++ [[[45], [95], []]] ++ labelOf "key") (L ++ s) =
      some L.length := by
  have hA : (L.take 3).map asciiLower = goString "api" := by
    rw [List.map_take, hL]
    rfl
  have hR : (L.drop 3).map asciiLower = goString "key" := by
    rw [List.map_drop, hL]
    rfl
  have h := matchLabel_api (L.take 3) (L.drop 3) s hA (Or.inl hR)
  rw [← List.append_assoc, List.take_append_drop, ← List.length_append,
    List.take_append_drop] at h
  exact h

/-- Method `Fire` on `L=v`, for a label that has no space and no sign `=` and
is taken whole by one of the patterns. -/
theorem Fire_labelled (L v : Bytes) (hL : ∀ c ∈ L, isSpace c = false ∧ c ≠ 61)
    (pre post : List Label) (own : Label) (hp : sensitivePatterns = pre ++ own :: post)
    (hown : ∀ s, matchLabel own (L ++ s) = some L.length)
    (hv : v ≠ []) (h32 : (32 : Byte) ∉ v) (h12 : (12 : Byte) ∉ v) :
    SanitizeHook.Fire (L ++ 61 :: v) = L ++ 61 :: [42, 42, 42, 42, 42] := by
  unfold SanitizeHook.Fire
  obtain ⟨hs, hne⟩ := escapeMessage_solid v hv h32 h12
  rw [escapeMessage_labelled L v (fun c hc => (hL c hc).1), hp]
  exact foldl_masks L hL pre post own hown _ hs hne


/-! ## The inputs of the test suite, evaluated -/

set_option maxRecDepth 100000 in
/-- The blob of the test suite's plaintext and master key under `testNonce`. -/
theorem Encrypt_test_vector :
    Encrypt testPlainTextSecret testMasterKey testNonce = .returned (testBlob, none) := by
  decide!

set_option maxRecDepth 100000 in
/-- The blob of `twoKeyPlaintext` under the test suite's master key and
`twoKeyNonce`. -/
theorem Encrypt_two_key_vector :
    Encrypt twoKeyPlaintext testMasterKey twoKeyNonce = .returned (twoKeyBlob, none) := by
  decide!

set_option maxRecDepth 100000 in
/-- Decryption of the stored test blob with the wrong master key. -/
theorem DecryptSecret_wrong_key_vector :
    service.DecryptSecret testStored wrongMasterKey =
      .returned ([], some (.errorf "failed to decrypt secret: %v" authError)) := by
  decide!

set_option maxRecDepth 100000 in
/-- Decryption, with the right master key, of the test blob with one digit of
its ciphertext changed. -/
theorem DecryptSecret_tampered_vector :
    service.DecryptSecret { testStored with EncryptedValue := testBlobTampered } testMasterKey =
      .returned ([], some (.errorf "failed to decrypt secret: %v" authError)) := by
  decide!

set_option maxRecDepth 100000 in
/-- The record made of the test suite's inputs. -/
theorem CreateSecretModel_test_vector :
    CreateSecretModel testKey testPlainTextSecret testMasterKey testRand =
      .returned (some testSecret, none) := by
  decide!

set_option maxRecDepth 100000 in
/-- Creation of the test suite's secret in an empty table at time 1. -/
theorem CreateSecret_test_vector :
    service.CreateSecret ⟨[], none⟩ 1 testKey testPlainTextSecret testMasterKey testRand =
      .returned ((goString "10111213-1415-4617-9819-1a1b1c1d1e1f", testKey, none),
        ⟨[testStored], none⟩) := by
  decide!

set_option maxRecDepth 100000 in
/-- Update of the test suite's secret at time 2. -/
theorem UpdateSecret_test_vector :
    service.UpdateSecret ⟨[testStored], none⟩ 2 (goString "10111213-1415-4617-9819-1a1b1c1d1e1f")
        newPlainSecret testMasterKey testNonce =
      .returned (none,
        ⟨[{ testStored with EncryptedValue := testUpdatedBlob, UpdatedAt := 2 }], none⟩) := by
  decide!

set_option maxRecDepth 100000 in
/-- Update of the test suite's secret at time 2 in a table of two rows. -/
theorem UpdateSecret_two_rows_vector :
    service.UpdateSecret ⟨[testStored, otherStored], none⟩ 2 testIDString newPlainSecret
        testMasterKey testNonce =
      .returned (none,
        ⟨[{ testStored with EncryptedValue := testUpdatedBlob, UpdatedAt := 2 },
          otherStored], none⟩) := by
  rw [UpdateSecret_eq _ 2 testIDString newPlainSecret testMasterKey testNonce testID (by rfl)
    (by decide) (by decide)]
  decide!

set_option maxRecDepth 100000 in
/-- Decryption of the tampered test blob with the right master key. -/
theorem Decrypt_tampered_vector :
    Decrypt testBlobTampered testMasterKey = .returned ([], some authError) := by
  decide!

set_option maxRecDepth 100000 in
/-- Decryption of the tampered test blob with the wrong master key. -/
theorem Decrypt_tampered_wrong_key_vector :
    Decrypt testBlobTampered wrongMasterKey = .returned ([], some authError) := by
  decide!

set_option maxRecDepth 100000 in
/-- Decryption of `twoKeyBlob` with the wrong master key: sixteen bytes and no
error. -/
theorem Decrypt_two_key_vector :
    Decrypt twoKeyBlob wrongMasterKey =
      .returned ([234, 57, 175, 245, 220, 118, 121, 215, 49, 84, 23, 124, 87, 248, 215, 197],
        none) := by
  decide!

/-- The record of the test suite's inputs, as `CreateSecretModel` makes it. -/
theorem testSecret_record :
    ({ ID := (uuidNewRandom (testRand.drop 12)).1, Key := testKey,
       EncryptedValue := hexEncodeToString
         (sealedBytes testMasterKey (testRand.take 12) testPlainTextSecret),
       CreatedAt := 0, UpdatedAt := 0 } : Secret) = testSecret := by
  have h := CreateSecretModel_test_vector
  rw [CreateSecretModel_eq, if_neg (by decide), if_neg (by decide), if_neg (by decide)] at h
  simp only [Outcome.returned.injEq, Prod.mk.injEq, Option.some.injEq, and_true] at h
  exact h

/-- Decryption of the test blob with the test suite's master key. -/
theorem Decrypt_test_vector :
    Decrypt testBlob testMasterKey = .returned (testPlainTextSecret, none) := by
  obtain ⟨_, _, h⟩ := Encrypt_returned _ _ _ _ Encrypt_test_vector
  rw [h]
  exact Decrypt_sealedBytes testPlainTextSecret testMasterKey (testNonce.take 12) (by decide)
    (by decide)

set_option maxRecDepth 100000 in
/-- Creation of the test suite's secret under `wrongMasterKey` in an empty
table at time 1. -/
theorem CreateSecret_wrong_key_vector :
    service.CreateSecret ⟨[], none⟩ 1 testKey testPlainTextSecret wrongMasterKey testRand =
      .returned ((testIDString, testKey, none), ⟨[wrongKeyStored], none⟩) := by
  decide!

/-- The blob of `twoKeyPlaintext`, as bytes encoded. -/
theorem twoKeyBlob_sealed :
    hexEncodeToString (sealedBytes testMasterKey (twoKeyNonce.take 12) twoKeyPlaintext) =
      twoKeyBlob :=
  (Encrypt_returned _ _ _ _ Encrypt_two_key_vector).2.2.symm

set_option maxRecDepth 100000 in
/-- Update of the test suite's secret when the clock still reads 1, the time
of the creation. -/
theorem UpdateSecret_same_instant_vector :
    service.UpdateSecret ⟨[testStored], none⟩ 1 testIDString newPlainSecret testMasterKey
        testNonce =
      .returned (none,
        ⟨[{ testStored with EncryptedValue := testUpdatedBlob, UpdatedAt := 1 }], none⟩) := by
  rw [UpdateSecret_eq _ 1 testIDString newPlainSecret testMasterKey testNonce testID (by rfl)
    (by decide) (by decide)]
  decide!

/-! ## C1: round trip -/

/-- C1, as stated, fails on a plaintext of 68,719,476,705 bytes, one more than
`((1<<32)-2)*16`: `Seal` panics with "message too large for GCM", so `Encrypt`
does not return a blob. -/
theorem C1_counterexample :
    Encrypt (List.replicate 68719476705 0) testMasterKey testNonce =
      .panicked "crypto/cipher: message too large for GCM" := by
  rw [Encrypt_eq, if_neg (by decide), if_pos]
  rw [List.length_replicate]
  decide

/-- C1 (amended): for every plaintext `p` of at most `((1<<32)-2)*16` bytes
(the empty string and byte strings that are not UTF-8 included), every master
key `k` and every random source that delivers the twelve bytes of the nonce,
`Encrypt p k` returns a blob `c` and no error, and `Decrypt c k` returns
exactly `p` and no error. -/
theorem C1_round_trip (p k : GoString) (rand : Bytes)
    (hr : 12 ≤ rand.length) (hp : p.length ≤ gcmMaxPlaintext) :
    ∃ c, Encrypt p k rand = .returned (c, none) ∧ Decrypt c k = .returned (p, none) := by
  rw [Encrypt_eq, if_neg (by omega), if_neg (by omega)]
  exact ⟨_, rfl, Decrypt_sealedBytes p k (rand.take 12) (by simp; omega) hp⟩

/-- C1 (amended) at the plaintext `ff fe 00`, which is not UTF-8, the master key
of the test suite and the nonce `testNonce`. -/
theorem C1_round_trip_witness :
    12 ≤ testNonce.length ∧ ([255, 254, 0] : GoString).length ≤ gcmMaxPlaintext ∧
      ∃ c, Encrypt [255, 254, 0] testMasterKey testNonce = .returned (c, none) ∧
        Decrypt c testMasterKey = .returned ([255, 254, 0], none) :=
  ⟨by decide, by decide,
    C1_round_trip [255, 254, 0] testMasterKey testNonce (by decide) (by decide)⟩

/-! ## C2: tamper-evidence -/

set_option maxRecDepth 100000 in
/-- C2, as stated, fails when a lower-case hexadecimal letter of the blob is
replaced by its upper-case form: the blob of the test suite's plaintext and
master key under `testNonce` starts with `a`; with `A` in its place the blob is
a different string, and `Decrypt` returns the plaintext and no error. -/
theorem C2_counterexample :
    Encrypt testPlainTextSecret testMasterKey testNonce = .returned (testBlob, none) ∧
    testBlob.set 0 65 = testBlobUpper ∧ testBlobUpper ≠ testBlob ∧
    Decrypt testBlobUpper testMasterKey = .returned (testPlainTextSecret, none) :=
  ⟨Encrypt_test_vector, by decide!, by decide!, by decide!⟩

/-- C2 (amended): let `c` be the blob `Encrypt p k` returns, and let the
character at position `i` of `c` be replaced by a different byte `x`.
If `x` is not a hexadecimal digit, `Decrypt` returns the decoding error and the
empty plaintext. If `x` is the same digit in the other case, the blob decodes
to the same bytes and `Decrypt` returns `p`. If `x` is a digit of another
value, `Decrypt` returns the authentication error and the empty plaintext
whenever `i` is among the first 24 positions (the nonce) or the last 32 (the
tag), and, for `i` in the ciphertext, whenever the hash key of GCM, the AES
encryption of the zero block under the key derived from `k`, is not zero; for
`i` in the ciphertext and a hash key that is zero, `Decrypt` returns no error
and a plaintext of the length of `p` that is not `p`. -/
theorem C2_tamper (p k : GoString) (rand : Bytes) (c : GoString) (i : Nat) (x : Byte)
    (hc : Encrypt p k rand = .returned (c, none)) (hi : i < c.length) (hx : x ≠ c.getD i 0) :
    c.set i x ≠ c ∧
    (fromHexChar x = none →
      Decrypt (c.set i x) k =
        .returned ([], some (.errorf "failed to decode encrypted secret: %v" (.hexInvalidByte x)))) ∧
    (fromHexChar x = fromHexChar (c.getD i 0) → Decrypt (c.set i x) k = .returned (p, none)) ∧
    (fromHexChar x ≠ none → fromHexChar x ≠ fromHexChar (c.getD i 0) →
      (i < 24 ∨ c.length - 32 ≤ i ∨ aesEncryptBlock (masterCipher k) 0 ≠ 0 →
        Decrypt (c.set i x) k = .returned ([], some authError)) ∧
      (24 ≤ i → i < c.length - 32 → aesEncryptBlock (masterCipher k) 0 = 0 →
        ∃ q : GoString, q ≠ p ∧ q.length = p.length ∧
          Decrypt (c.set i x) k = .returned (q, none))) := by
  obtain ⟨hr, hp, rfl⟩ := Encrypt_returned p k rand c hc
  have hn : (rand.take 12).length = 12 := by simp; omega
  have hlen : (hexEncodeToString (sealedBytes k (rand.take 12) p)).length = 2 * (p.length + 28) := by
    rw [hexEncodeToString_length, sealedBytes_length k _ p hn]
  rw [hlen] at hi ⊢
  obtain ⟨h1, h2, h3⟩ := Decrypt_set p k (rand.take 12) i x hn hp hi
  refine ⟨set_ne_self _ _ _ (by rw [hlen]; exact hi) hx, h1, h2, ?_⟩
  intro hx1 hx2
  constructor
  · intro h
    by_cases hi1 : i < 24
    · exact Decrypt_set_nonce p k (rand.take 12) i x hn hx1 hx2 hi1
    · by_cases hi2 : 2 * (p.length + 28) - 32 ≤ i
      · exact h3 hx1 hx2 (by omega)
      · rcases h with h | h | h
        · exact absurd h hi1
        · exact absurd h hi2
        · exact (Decrypt_set_ciphertext p k (rand.take 12) i x hn hp hx1 hx2 (by omega)
            (by omega)).1 h
  · intro hi1 hi2 hh
    exact (Decrypt_set_ciphertext p k (rand.take 12) i x hn hp hx1 hx2 hi1 (by omega)).2 hh

set_option maxRecDepth 100000 in
/-- C2 (amended) at the blob of the test suite's plaintext and master key under
`testNonce`, with the `7` at position 30, in the ciphertext, replaced by `8`:
the hash key is not zero and `Decrypt` returns the authentication error. -/
theorem C2_tamper_witness :
    Encrypt testPlainTextSecret testMasterKey testNonce = .returned (testBlob, none) ∧
    30 < testBlob.length ∧ (56 : Byte) ≠ testBlob.getD 30 0 ∧
    aesEncryptBlock (masterCipher testMasterKey) 0 ≠ 0 ∧
    Decrypt (testBlob.set 30 56) testMasterKey = .returned ([], some authError) :=
  ⟨Encrypt_test_vector, by decide!, by decide!, by decide!,
    ((C2_tamper testPlainTextSecret testMasterKey testNonce testBlob 30 56
      Encrypt_test_vector (by decide!) (by decide!)).2.2.2
      (by decide!) (by decide!)).1 (Or.inr (Or.inr (by decide!)))⟩

/-! ## C3: key-sensitivity -/

set_option maxRecDepth 100000 in
/-- C3, as stated, fails for the plaintext `.J4~Q2@?q^jg21db`, the master keys
`test-master-key-1234` and `not-the-true-key` of the test suite and the nonce
`5f 5e c1 d2 bc 99 0e fe f8 7d 61 6d`: the tag of the blob is right under both
derived keys, so `Decrypt` with the second key returns no error, and sixteen
bytes that are not the plaintext. -/
theorem C3_counterexample :
    Encrypt twoKeyPlaintext testMasterKey twoKeyNonce = .returned (twoKeyBlob, none) ∧
    testMasterKey ≠ wrongMasterKey ∧
    Decrypt twoKeyBlob wrongMasterKey =
      .returned ([234, 57, 175, 245, 220, 118, 121, 215, 49, 84, 23, 124, 87, 248, 215, 197], none) :=
  ⟨Encrypt_two_key_vector, by decide!, Decrypt_two_key_vector⟩

/-- C3 (amended): let `c` be the blob `Encrypt p k1` returns. `Decrypt c k2`
returns the authentication error and the empty plaintext whenever the tag of
the ciphertext computed with the key derived from `k2` differs from the stored
tag, computed with the key derived from `k1`; when the two tags are equal it
returns, with no error, the ciphertext xor the key stream of `k2`. -/
theorem C3_key_sensitivity (p k1 k2 : GoString) (rand : Bytes) (c : GoString)
    (hc : Encrypt p k1 rand = .returned (c, none)) :
    (gcmAuth (masterCipher k2) (rand.take 12) (gcmCounterCrypt (masterCipher k1) (rand.take 12) p) ≠
        gcmAuth (masterCipher k1) (rand.take 12)
          (gcmCounterCrypt (masterCipher k1) (rand.take 12) p) →
      Decrypt c k2 = .returned ([], some authError)) ∧
    (gcmAuth (masterCipher k2) (rand.take 12) (gcmCounterCrypt (masterCipher k1) (rand.take 12) p) =
        gcmAuth (masterCipher k1) (rand.take 12)
          (gcmCounterCrypt (masterCipher k1) (rand.take 12) p) →
      Decrypt c k2 =
        .returned (gcmCounterCrypt (masterCipher k2) (rand.take 12)
          (gcmCounterCrypt (masterCipher k1) (rand.take 12) p), none)) := by
  obtain ⟨hr, hp, rfl⟩ := Encrypt_returned p k1 rand c hc
  have hn : (rand.take 12).length = 12 := by simp; omega
  have hd := Decrypt_blob (hexEncodeToString (sealedBytes k1 (rand.take 12) p)) k2 (rand.take 12)
    (gcmCounterCrypt (masterCipher k1) (rand.take 12) p)
    (gcmAuth (masterCipher k1) (rand.take 12) (gcmCounterCrypt (masterCipher k1) (rand.take 12) p))
    hn (gcmAuth_length _ _ _) (hexDecodeString_encode _)
  have hl : ¬ (gcmCounterCrypt (masterCipher k1) (rand.take 12) p).length > gcmMaxPlaintext := by
    rw [gcmCounterCrypt_length]; omega
  constructor
  · intro h
    rw [hd, if_pos (Or.inr h)]
  · intro h
    rw [hd, if_neg]
    rintro (h' | h')
    · exact hl h'
    · exact h' h

set_option maxRecDepth 100000 in
/-- C3 (amended) at the plaintext and the two master keys of the test suite,
under `testNonce`: the tags differ and `Decrypt` with `not-the-true-key` returns
the authentication error. -/
theorem C3_key_sensitivity_witness :
    Encrypt testPlainTextSecret testMasterKey testNonce = .returned (testBlob, none) ∧
    Decrypt testBlob wrongMasterKey = .returned ([], some authError) :=
  ⟨Encrypt_test_vector,
    (C3_key_sensitivity testPlainTextSecret testMasterKey wrongMasterKey testNonce testBlob
      Encrypt_test_vector).1 (by decide!)⟩

/-! ## C4: a blob too short to hold a nonce -/

/-- C4 fails on the code: when the hexadecimal string decodes to fewer than
twelve bytes, `Decrypt` does not return an error value; the slice expression
that splits nonce and ciphertext panics. -/
theorem C4_short_blob_panics (s k : GoString) (b : Bytes)
    (hs : hexDecodeString s = .ok b) (hb : b.length < 12) :
    Decrypt s k = .panicked "runtime error: slice bounds out of range" := by
  rw [Decrypt_eq s k b hs, if_pos hb]

/-- C4 at the empty string and at the eleven-byte blob `00 .. 00`, with the
master key of the test suite. -/
theorem C4_short_blob_panics_witness :
    Decrypt [] testMasterKey = .panicked "runtime error: slice bounds out of range" ∧
      Decrypt (goString "0000000000000000000000") testMasterKey =
        .panicked "runtime error: slice bounds out of range" :=
  ⟨C4_short_blob_panics [] testMasterKey [] rfl (by decide),
    C4_short_blob_panics (goString "0000000000000000000000") testMasterKey (List.replicate 11 0)
      (by rfl) (by decide)⟩

/-! ## C5: a blob that is not hexadecimal -/

/-- C5: for every master key and every string that is not well-formed
hexadecimal (its length is odd, or it holds a character outside `0-9`, `a-f`,
`A-F`), `Decrypt` returns an error, the decoding error of `encoding/hex`
wrapped, together with the empty string as plaintext. -/
theorem C5_malformed_hex (s k : GoString)
    (h : s.length % 2 = 1 ∨
      ∃ ch ∈ s, ¬ ((48 ≤ ch.val ∧ ch.val ≤ 57) ∨ (97 ≤ ch.val ∧ ch.val ≤ 102) ∨
        (65 ≤ ch.val ∧ ch.val ≤ 70))) :
    ∃ e, Decrypt s k =
        .returned ([], some (.errorf "failed to decode encrypted secret: %v" e)) ∧
      (e = .hexErrLength ∨ ∃ ch ∈ s, e = .hexInvalidByte ch) := by
  have h' : s.length % 2 = 1 ∨ ∃ ch ∈ s, fromHexChar ch = none := by
    rcases h with h | ⟨ch, hch, hn⟩
    · exact Or.inl h
    · exact Or.inr ⟨ch, hch, fromHexChar_eq_none ch hn⟩
  obtain ⟨e, he, hcase⟩ := hexDecodeString_error s h'
  exact ⟨e, by simp only [Decrypt, he], hcase⟩

/-- C5 at the string `abc`, of odd length, with the master key of the test
suite. -/
theorem C5_malformed_hex_witness :
    (goString "abc").length % 2 = 1 ∧
      ∃ e, Decrypt (goString "abc") testMasterKey =
          .returned ([], some (.errorf "failed to decode encrypted secret: %v" e)) ∧
        (e = .hexErrLength ∨ ∃ ch ∈ goString "abc", e = .hexInvalidByte ch) :=
  ⟨by decide, C5_malformed_hex (goString "abc") testMasterKey (Or.inl (by decide))⟩

/-! ## C6: the format of the blob -/

/-- C6: when `Encrypt p k` returns a blob `c` and no error, `c` consists of
lower-case hexadecimal digits, its length is `2 * (12 + len(p) + 16)`, its first
24 characters encode the twelve bytes of the nonce taken from the random
source, and the rest encodes what `Seal` makes of `p` under that nonce: the
ciphertext, as long as `p`, followed by the tag of 16 bytes. -/
theorem C6_blob_format (p k : GoString) (rand : Bytes) (c : GoString)
    (hc : Encrypt p k rand = .returned (c, none)) :
    (∀ ch ∈ c, (48 ≤ ch.val ∧ ch.val ≤ 57) ∨ (97 ≤ ch.val ∧ ch.val ≤ 102)) ∧
    c.length = 2 * (12 + p.length + 16) ∧
    (rand.take 12).length = 12 ∧
    c.take 24 = hexEncodeToString (rand.take 12) ∧
    c.drop 24 = hexEncodeToString
      (gcmCounterCrypt (masterCipher k) (rand.take 12) p ++
        gcmAuth (masterCipher k) (rand.take 12) (gcmCounterCrypt (masterCipher k) (rand.take 12) p)) ∧
    Gcm.Seal { cipher := masterCipher k, nonceSize := 12, tagSize := 16 } [] (rand.take 12) p =
      .returned (gcmCounterCrypt (masterCipher k) (rand.take 12) p ++
        gcmAuth (masterCipher k) (rand.take 12) (gcmCounterCrypt (masterCipher k) (rand.take 12) p)) ∧
    (gcmCounterCrypt (masterCipher k) (rand.take 12) p).length = p.length ∧
    (gcmAuth (masterCipher k) (rand.take 12)
      (gcmCounterCrypt (masterCipher k) (rand.take 12) p)).length = 16 := by
  obtain ⟨hr, hp, rfl⟩ := Encrypt_returned p k rand c hc
  have hn : (rand.take 12).length = 12 := by simp; omega
  have hsplit : hexEncodeToString (sealedBytes k (rand.take 12) p) =
      hexEncodeToString (rand.take 12) ++ hexEncodeToString
        (gcmCounterCrypt (masterCipher k) (rand.take 12) p ++
          gcmAuth (masterCipher k) (rand.take 12)
            (gcmCounterCrypt (masterCipher k) (rand.take 12) p)) := by
    rw [sealedBytes, List.append_assoc, hexEncodeToString_append]
  have h24 : (hexEncodeToString (rand.take 12)).length = 24 := by
    rw [hexEncodeToString_length, hn]
  refine ⟨fun ch hch => hexEncodeToString_lower _ ch hch, ?_, hn, ?_, ?_, ?_,
    gcmCounterCrypt_length _ _ _, gcmAuth_length _ _ _⟩
  · rw [hexEncodeToString_length, sealedBytes_length k _ p hn]; omega
  · rw [hsplit, ← h24, List.take_left]
  · rw [hsplit, ← h24, List.drop_left]
  · simp only [Gcm.Seal, hn, ne_eq, not_true_eq_false, if_false, List.nil_append]
    rw [if_neg (by omega)]

/-- C6 at the plaintext and master key of the test suite, under `testNonce`:
the blob has 80 characters and starts with the nonce. -/
theorem C6_blob_format_witness :
    Encrypt testPlainTextSecret testMasterKey testNonce = .returned (testBlob, none) ∧
    testBlob.length = 2 * (12 + testPlainTextSecret.length + 16) ∧
    testBlob.take 24 = hexEncodeToString (testNonce.take 12) :=
  ⟨Encrypt_test_vector,
    (C6_blob_format testPlainTextSecret testMasterKey testNonce testBlob Encrypt_test_vector).2.1,
    (C6_blob_format testPlainTextSecret testMasterKey testNonce testBlob
      Encrypt_test_vector).2.2.2.1⟩

/-! ## C7: the errors of a failed decryption -/

set_option maxRecDepth 100000 in
/-- C7, as stated, fails for a tampered blob that is no longer hexadecimal:
on the stored blob of the test suite `DecryptSecret` with the wrong key
`not-the-true-key` returns the authentication error, while `DecryptSecret` with
the right key on the blob whose first character has been replaced by `g`
returns a different error, the decoding error. -/
theorem C7_counterexample :
    service.DecryptSecret testStored wrongMasterKey =
      .returned ([], some (.errorf "failed to decrypt secret: %v"
        (.errorf "failed to decrypt secret: %v" .errOpen))) ∧
    service.DecryptSecret { testStored with EncryptedValue := testBlobNotHex } testMasterKey =
      .returned ([], some (.errorf "failed to decrypt secret: %v"
        (.errorf "failed to decode encrypted secret: %v" (.hexInvalidByte 103)))) ∧
    GoError.errorf "failed to decrypt secret: %v"
        (.errorf "failed to decrypt secret: %v" .errOpen) ≠
      GoError.errorf "failed to decrypt secret: %v"
        (.errorf "failed to decode encrypted secret: %v" (.hexInvalidByte 103)) :=
  ⟨DecryptSecret_wrong_key_vector, by decide!, by decide!⟩

/-- C7 (amended): whenever `DecryptSecret` returns an error for a record whose
stored value is well-formed hexadecimal, under any master key, the plaintext
returned is empty and the error is the one value "failed to decrypt secret:
failed to decrypt secret: cipher: message authentication failed". So the error
for a wrong master key and the error for a tampered value that is still
hexadecimal are the same. -/
theorem C7_undifferentiated (s1 s2 : Secret) (k1 k2 v1 v2 : GoString) (b1 b2 : Bytes)
    (e1 e2 : GoError)
    (hb1 : hexDecodeString s1.EncryptedValue = .ok b1)
    (hb2 : hexDecodeString s2.EncryptedValue = .ok b2)
    (h1 : service.DecryptSecret s1 k1 = .returned (v1, some e1))
    (h2 : service.DecryptSecret s2 k2 = .returned (v2, some e2)) :
    e1 = e2 ∧ e1 = .errorf "failed to decrypt secret: %v" authError ∧ v1 = [] ∧ v2 = [] := by
  have key : ∀ (s : Secret) (k v : GoString) (b : Bytes) (e : GoError),
      hexDecodeString s.EncryptedValue = .ok b →
      service.DecryptSecret s k = .returned (v, some e) →
      e = .errorf "failed to decrypt secret: %v" authError ∧ v = [] := by
    intro s k v b e hb h
    unfold service.DecryptSecret at h
    rw [Decrypt_eq _ k b hb] at h
    split_ifs at h <;> simp at h
    exact ⟨h.2.symm, h.1⟩
  obtain ⟨ha, hv1⟩ := key s1 k1 v1 b1 e1 hb1 h1
  obtain ⟨hb, hv2⟩ := key s2 k2 v2 b2 e2 hb2 h2
  exact ⟨ha.trans hb.symm, ha, hv1, hv2⟩

/-- C7 (amended) at the stored blob of the test suite, decrypted with
`not-the-true-key`, and at the same blob with one digit of its ciphertext
changed, decrypted with the right key. -/
theorem C7_undifferentiated_witness :
    service.DecryptSecret testStored wrongMasterKey =
      .returned ([], some (.errorf "failed to decrypt secret: %v" authError)) ∧
    service.DecryptSecret { testStored with EncryptedValue := testBlobTampered } testMasterKey =
      .returned ([], some (.errorf "failed to decrypt secret: %v" authError)) ∧
    GoError.errorf "failed to decrypt secret: %v" authError =
      GoError.errorf "failed to decrypt secret: %v" authError :=
  ⟨DecryptSecret_wrong_key_vector, DecryptSecret_tampered_vector,
    (C7_undifferentiated testStored { testStored with EncryptedValue := testBlobTampered }
      wrongMasterKey testMasterKey [] []
      [171, 1, 2, 3, 4, 5, 6, 7, 8, 9, 10, 11, 8, 41, 98, 114, 144, 159, 29, 150,
        36, 21, 101, 7, 89, 58, 14, 104, 242, 96, 149, 134, 182, 173, 122, 206, 252, 215, 150, 184]
      [171, 1, 2, 3, 4, 5, 6, 7, 8, 9, 10, 11, 8, 41, 98, 130, 144, 159, 29, 150,
        36, 21, 101, 7, 89, 58, 14, 104, 242, 96, 149, 134, 182, 173, 122, 206, 252, 215, 150, 184]
      (.errorf "failed to decrypt secret: %v" authError)
      (.errorf "failed to decrypt secret: %v" authError)
      (by rfl) (by rfl) DecryptSecret_wrong_key_vector DecryptSecret_tampered_vector).1⟩

/-! ## C8: empty key, empty plaintext -/

set_option maxRecDepth 100000 in
/-- C8, as stated, fails: with an empty key, and with an empty plaintext,
`CreateSecretModel` returns a record and no error. -/
theorem C8_counterexample :
    CreateSecretModel [] testPlainTextSecret testMasterKey testRand =
      .returned (some { ID := testID, Key := [], EncryptedValue := testBlob,
                        CreatedAt := 0, UpdatedAt := 0 }, none) ∧
    CreateSecretModel testKey [] testMasterKey testRand =
      .returned (some { ID := testID, Key := testKey, EncryptedValue := testEmptyBlob,
                        CreatedAt := 0, UpdatedAt := 0 }, none) := by
  decide!

/-- C8 (amended): `CreateSecretModel` does not look at whether the key or the
plaintext is empty. For every key and every plaintext of at most
`((1<<32)-2)*16` bytes, the empty ones included, it returns a record with that
key and no error when the random source delivers the 28 bytes asked for; the
only error it returns, with no record, is the one of `Encrypt` when the random
source does not deliver the nonce. -/
theorem C8_no_validation (key p k : GoString) (rand : Bytes) :
    (28 ≤ rand.length → p.length ≤ gcmMaxPlaintext →
      ∃ s, CreateSecretModel key p k rand = .returned (some s, none) ∧ s.Key = key) ∧
    (rand.length < 12 →
      CreateSecretModel key p k rand =
        .returned (none, some (.errorf "failed to encrypt secret: %v"
          (.errorf "failed to generate nonce: %v" .randRead)))) ∧
    (∀ r e, CreateSecretModel key p k rand = .returned (r, some e) →
      r = none ∧ rand.length < 12) := by
  rw [CreateSecretModel_eq]
  refine ⟨?_, ?_, ?_⟩
  · intro h1 h2
    rw [if_neg (by omega), if_neg (by omega), if_neg (by omega)]
    exact ⟨_, rfl, rfl⟩
  · intro h1
    rw [if_pos h1]
  · intro r e h
    by_cases h1 : rand.length < 12
    · rw [if_pos h1] at h
      simp only [Outcome.returned.injEq, Prod.mk.injEq] at h
      exact ⟨h.1.symm, h1⟩
    · rw [if_neg h1] at h
      by_cases h2 : p.length > gcmMaxPlaintext
      · rw [if_pos h2] at h; simp at h
      · rw [if_neg h2] at h
        by_cases h3 : rand.length < 28
        · rw [if_pos h3] at h; simp at h
        · rw [if_neg h3] at h; simp at h

/-- C8 (amended) at the empty key and the empty plaintext. -/
theorem C8_no_validation_witness :
    28 ≤ testRand.length ∧ ([] : GoString).length ≤ gcmMaxPlaintext ∧
      ∃ s, CreateSecretModel [] [] testMasterKey testRand = .returned (some s, none) ∧
        s.Key = [] :=
  ⟨by decide, by decide,
    (C8_no_validation [] [] testMasterKey testRand).1 (by decide) (by decide)⟩

/-! ## C9: the key is stored verbatim -/

/-- C9: when `CreateSecret` succeeds, the key it returns is the key argument,
and the table has gained exactly one row, whose `Key` is the key argument and
whose identifier is the one returned. -/
theorem C9_key_verbatim (db db' : DB) (now : Time) (key p k id key' : GoString) (rand : Bytes)
    (h : service.CreateSecret db now key p k rand = .returned ((id, key', none), db')) :
    key' = key ∧
      ∃ s : Secret, s.Key = key ∧ s.ID.String = id ∧ db'.rows = db.rows ++ [s] := by
  obtain ⟨-, -, -, -, h1, h2, h3⟩ := CreateSecret_returned db db' now key p k id key' rand h
  exact ⟨h1, ⟨_, rfl, h2.symm, by rw [h3]⟩⟩

/-- C9 at the inputs of `TestServiceCreateSecret`, on an empty table at time 1. -/
theorem C9_key_verbatim_witness :
    service.CreateSecret ⟨[], none⟩ 1 testKey testPlainTextSecret testMasterKey testRand =
      .returned ((goString "10111213-1415-4617-9819-1a1b1c1d1e1f", testKey, none),
        ⟨[testStored], none⟩) ∧
    testKey = testKey ∧
    ∃ s : Secret, s.Key = testKey ∧ s.ID.String = goString "10111213-1415-4617-9819-1a1b1c1d1e1f" ∧
      [testStored] = ([] : List Secret) ++ [s] :=
  ⟨CreateSecret_test_vector,
    C9_key_verbatim ⟨[], none⟩ ⟨[testStored], none⟩ 1 testKey testPlainTextSecret testMasterKey
      (goString "10111213-1415-4617-9819-1a1b1c1d1e1f") testKey testRand CreateSecret_test_vector⟩

/-! ## C10: the stored value is not the plaintext -/

/-- C10: the `EncryptedValue` of the record `CreateSecretModel` returns for the
plaintext `p` is different from `p`; and when `UpdateSecret` succeeds with the
new plaintext `p`, the value it has written to the rows with the identifier is
different from `p`. -/
theorem C10_never_plaintext (p k : GoString) (rand : Bytes) :
    (∀ (key : GoString) (s : Secret) (e : Option GoError),
      CreateSecretModel key p k rand = .returned (some s, e) → s.EncryptedValue ≠ p) ∧
    (∀ (db db' : DB) (now : Time) (id : GoString),
      service.UpdateSecret db now id p k rand = .returned (none, db') →
      ∃ (u : UUID) (v : GoString), uuidParse id = .ok u ∧ v ≠ p ∧
        db'.rows = db.rows.map (fun r =>
          if r.ID = u then { r with EncryptedValue := v, UpdatedAt := now } else r)) := by
  constructor
  · intro key s e h
    rw [CreateSecretModel_eq] at h
    split_ifs at h with h1 h2 h3
    · simp at h
    · simp only [Outcome.returned.injEq, Prod.mk.injEq, Option.some.injEq] at h
      rw [← h.1]
      exact blob_ne_plaintext p k _ (by simp; omega)
  · intro db db' now id h
    obtain ⟨u, hu, hr, -, -, hdb⟩ := UpdateSecret_returned db db' now id p k rand h
    exact ⟨u, _, hu, blob_ne_plaintext p k (rand.take 12) (by simp; omega), by rw [hdb]⟩

/-- C10 at the inputs of `TestCreateSecretModel`, and at those of
`TestServiceUpdateSecret` on the table that holds the record created, at
time 2. -/
theorem C10_never_plaintext_witness :
    CreateSecretModel testKey testPlainTextSecret testMasterKey testRand =
      .returned (some testSecret, none) ∧
    testSecret.EncryptedValue ≠ testPlainTextSecret ∧
    service.UpdateSecret ⟨[testStored], none⟩ 2 (goString "10111213-1415-4617-9819-1a1b1c1d1e1f")
        newPlainSecret testMasterKey testNonce =
      .returned (none,
        ⟨[{ testStored with EncryptedValue := testUpdatedBlob, UpdatedAt := 2 }], none⟩) ∧
    ∃ (u : UUID) (v : GoString),
      uuidParse (goString "10111213-1415-4617-9819-1a1b1c1d1e1f") = .ok u ∧ v ≠ newPlainSecret ∧
        [{ testStored with EncryptedValue := testUpdatedBlob, UpdatedAt := 2 }] =
          [testStored].map (fun r =>
            if r.ID = u then { r with EncryptedValue := v, UpdatedAt := 2 } else r) :=
  ⟨CreateSecretModel_test_vector,
    (C10_never_plaintext testPlainTextSecret testMasterKey testRand).1 testKey testSecret none
      CreateSecretModel_test_vector,
    UpdateSecret_test_vector,
    (C10_never_plaintext newPlainSecret testMasterKey testNonce).2 ⟨[testStored], none⟩
      ⟨[{ testStored with EncryptedValue := testUpdatedBlob, UpdatedAt := 2 }], none⟩ 2
      (goString "10111213-1415-4617-9819-1a1b1c1d1e1f") UpdateSecret_test_vector⟩

/-! ## C11: identifiers -/

/-- C11: when `CreateSecret` succeeds, the table has one more row, the record
persisted; its `ID` is not the nil UUID, the id string returned is the canonical
form of that `ID` and has 36 characters, `uuid.Parse` of the id string succeeds
with that `ID`, and `getSecretFromQuery` on the id string makes the one call
`GetEncryptedSecretByID`. -/
theorem C11_identifier (db db' : DB) (now : Time) (key p k id key' : GoString) (rand : Bytes)
    (h : service.CreateSecret db now key p k rand = .returned ((id, key', none), db')) :
    ∃ s : Secret, db'.rows = db.rows ++ [s] ∧ s.ID ≠ UUID.Nil ∧ id = s.ID.String ∧
      id.length = 36 ∧ uuidParse id = .ok s.ID ∧
      getSecretFromQuery db' id =
        ([.GetEncryptedSecretByID id], service.GetEncryptedSecretByID db' id) := by
  obtain ⟨hr, _, _, _, _, hid, hdb⟩ := CreateSecret_returned db db' now key p k id key' rand h
  refine ⟨_, by rw [hdb], uuidNewRandom_ne_nil (rand.drop 12) (by rw [List.length_drop]; omega), hid, ?_, ?_, ?_⟩
  · rw [hid]; exact UUID_String_length _
  · rw [hid]; exact uuidParse_String _
  · exact getSecretFromQuery_ok db' id _ (by rw [hid]; exact uuidParse_String _)

/-- C11 at the creation of the test suite's secret in an empty table: the
record persisted is `testStored`, with identifier `testID`. -/
theorem C11_identifier_witness :
    service.CreateSecret ⟨[], none⟩ 1 testKey testPlainTextSecret testMasterKey testRand =
      .returned ((testIDString, testKey, none), ⟨[testStored], none⟩) ∧
    ∃ s : Secret, (⟨[testStored], none⟩ : DB).rows = (⟨[], none⟩ : DB).rows ++ [s] ∧
      s.ID ≠ UUID.Nil ∧ testIDString = s.ID.String ∧
      testIDString.length = 36 ∧ uuidParse testIDString = .ok s.ID ∧
      getSecretFromQuery ⟨[testStored], none⟩ testIDString =
        ([.GetEncryptedSecretByID testIDString],
          service.GetEncryptedSecretByID ⟨[testStored], none⟩ testIDString) :=
  ⟨CreateSecret_test_vector,
    C11_identifier ⟨[], none⟩ ⟨[testStored], none⟩ 1 testKey testPlainTextSecret testMasterKey
      testIDString testKey testRand CreateSecret_test_vector⟩

/-! ## C12: query resolution -/

/-- C12: `getSecretFromQuery` makes exactly one call of the service. When
`uuid.Parse` accepts the query, the call is `GetEncryptedSecretByID` and the
result is its result; when no row has the parsed identifier the result is the
not-found error of that lookup, whatever the keys of the rows are. When
`uuid.Parse` rejects the query, the call is `GetEncryptedSecretByKey` and the
result is its result. -/
theorem C12_query_resolution (db : DB) (q : GoString) :
    (∀ u, uuidParse q = .ok u →
      getSecretFromQuery db q =
        ([.GetEncryptedSecretByID q], service.GetEncryptedSecretByID db q) ∧
      (db.fault = none → (∀ r ∈ db.rows, r.ID ≠ u) →
        (getSecretFromQuery db q).2 =
          (some Secret.zero,
            some (.errorf2 "failed to retrieve secret by ID '%s': %v" u.String
              .recordNotFound)))) ∧
    (∀ e, uuidParse q = .error e →
      getSecretFromQuery db q =
        ([.GetEncryptedSecretByKey q], service.GetEncryptedSecretByKey db q)) := by
  refine ⟨fun u hu => ⟨getSecretFromQuery_ok db q u hu, fun hf hno => ?_⟩,
    fun e he => getSecretFromQuery_error db q e he⟩
  rw [getSecretFromQuery_ok db q u hu, GetEncryptedSecretByID_eq db q u hu hf,
    List.find?_eq_none.2 (fun r hr => by simpa using hno r hr)]

/-- C12 at a table whose one record has the key `uuidShapedKey`, which has the
form of an identifier, and the identifier `testID`: the query `uuidShapedKey`
is looked up as an identifier and not found, although the lookup by key
returns the record. -/
theorem C12_query_resolution_witness :
    uuidParse uuidShapedKey = .ok uuidShapedID ∧
    service.GetEncryptedSecretByKey ⟨[uuidShapedStored], none⟩ uuidShapedKey =
      (some uuidShapedStored, none) ∧
    getSecretFromQuery ⟨[uuidShapedStored], none⟩ uuidShapedKey =
      ([.GetEncryptedSecretByID uuidShapedKey],
        service.GetEncryptedSecretByID ⟨[uuidShapedStored], none⟩ uuidShapedKey) ∧
    (getSecretFromQuery ⟨[uuidShapedStored], none⟩ uuidShapedKey).2 =
      (some Secret.zero,
        some (.errorf2 "failed to retrieve secret by ID '%s': %v" uuidShapedID.String
          .recordNotFound)) :=
  ⟨by rfl, by decide,
    ((C12_query_resolution ⟨[uuidShapedStored], none⟩ uuidShapedKey).1 uuidShapedID (by rfl)).1,
    ((C12_query_resolution ⟨[uuidShapedStored], none⟩ uuidShapedKey).1 uuidShapedID (by rfl)).2
      rfl (by decide)⟩

/-! ## C13: dual addressing -/

/-- C13: after `CreateSecret key v m` has returned `id`, for a key that
`uuid.Parse` rejects, the lookups by identifier, `GetEncryptedSecretByID id`
and `getSecretFromQuery id`, and the lookups by key,
`GetEncryptedSecretByKey key` and `getSecretFromQuery key`, all return, with no
error, the same record: the last row of the table, whose `ID` has the canonical
form `id`, whose `Key` is `key` and whose `EncryptedValue` decrypts to `v`. -/
theorem C13_dual_addressing (db db' : DB) (now : Time) (key v m id key' : GoString)
    (rand : Bytes) (e : GoError)
    (hc : service.CreateSecret db now key v m rand = .returned ((id, key', none), db'))
    (hk : uuidParse key = .error e) :
    ∃ s : Secret, db'.rows = db.rows ++ [s] ∧ s.ID.String = id ∧ s.Key = key ∧
      Decrypt s.EncryptedValue m = .returned (v, none) ∧
      service.GetEncryptedSecretByID db' id = (some s, none) ∧
      getSecretFromQuery db' id = ([.GetEncryptedSecretByID id], some s, none) ∧
      service.GetEncryptedSecretByKey db' key = (some s, none) ∧
      getSecretFromQuery db' key = ([.GetEncryptedSecretByKey key], some s, none) := by
  obtain ⟨hr, hp, hf, hnew, _, hid, hdb⟩ :=
    CreateSecret_returned db db' now key v m id key' rand hc
  subst hdb
  obtain ⟨rows, fault⟩ := db
  simp only at hf hnew
  subst hf
  have hu : uuidParse id = .ok (uuidNewRandom (rand.drop 12)).1 := by
    rw [hid]; exact uuidParse_String _
  have h1 : service.GetEncryptedSecretByID
      { rows := rows ++
        [{ ID := (uuidNewRandom (rand.drop 12)).1, Key := key,
           EncryptedValue := hexEncodeToString (sealedBytes m (rand.take 12) v),
           CreatedAt := now, UpdatedAt := now }], fault := none } id =
      (some { ID := (uuidNewRandom (rand.drop 12)).1, Key := key,
              EncryptedValue := hexEncodeToString (sealedBytes m (rand.take 12) v),
              CreatedAt := now, UpdatedAt := now }, none) := by
    rw [GetEncryptedSecretByID_eq _ id _ hu rfl]
    simp only
    rw [find?_append_new rows _ _ (fun r hr => by simpa using (hnew r hr).1) (by simp)]
  have h2 : service.GetEncryptedSecretByKey
      { rows := rows ++
        [{ ID := (uuidNewRandom (rand.drop 12)).1, Key := key,
           EncryptedValue := hexEncodeToString (sealedBytes m (rand.take 12) v),
           CreatedAt := now, UpdatedAt := now }], fault := none } key =
      (some { ID := (uuidNewRandom (rand.drop 12)).1, Key := key,
              EncryptedValue := hexEncodeToString (sealedBytes m (rand.take 12) v),
              CreatedAt := now, UpdatedAt := now }, none) := by
    rw [GetEncryptedSecretByKey_eq _ key rfl]
    simp only
    rw [find?_append_new rows _ _ (fun r hr => by simpa using (hnew r hr).2) (by simp)]
  refine ⟨_, rfl, hid.symm, rfl, ?_, h1, ?_, h2, ?_⟩
  · exact Decrypt_sealedBytes v m (rand.take 12) (by rw [List.length_take]; omega) hp
  · rw [getSecretFromQuery_ok _ id _ hu, h1]
  · rw [getSecretFromQuery_error _ key e hk, h2]

/-- C13 at the creation of the test suite's secret in an empty table: the four
lookups return `testStored`. -/
theorem C13_dual_addressing_witness :
    service.CreateSecret ⟨[], none⟩ 1 testKey testPlainTextSecret testMasterKey testRand =
      .returned ((testIDString, testKey, none), ⟨[testStored], none⟩) ∧
    uuidParse testKey = .error (.uuidInvalidLength 13) ∧
    ∃ s : Secret, (⟨[testStored], none⟩ : DB).rows = (⟨[], none⟩ : DB).rows ++ [s] ∧
      s.ID.String = testIDString ∧ s.Key = testKey ∧
      Decrypt s.EncryptedValue testMasterKey = .returned (testPlainTextSecret, none) ∧
      service.GetEncryptedSecretByID ⟨[testStored], none⟩ testIDString = (some s, none) ∧
      getSecretFromQuery ⟨[testStored], none⟩ testIDString =
        ([.GetEncryptedSecretByID testIDString], some s, none) ∧
      service.GetEncryptedSecretByKey ⟨[testStored], none⟩ testKey = (some s, none) ∧
      getSecretFromQuery ⟨[testStored], none⟩ testKey =
        ([.GetEncryptedSecretByKey testKey], some s, none) :=
  ⟨CreateSecret_test_vector, by rfl,
    C13_dual_addressing ⟨[], none⟩ ⟨[testStored], none⟩ 1 testKey testPlainTextSecret
      testMasterKey testIDString testKey testRand (.uuidInvalidLength 13)
      CreateSecret_test_vector (by rfl)⟩

/-! ## C14: key uniqueness -/

/-- C14, as stated, fails for a second plaintext of 68,719,476,705 bytes: after
the test suite's secret has been created, `CreateSecret` with the same key and
that plaintext does not return an error; `Seal` panics. -/
theorem C14_counterexample :
    service.CreateSecret ⟨[], none⟩ 1 testKey testPlainTextSecret testMasterKey testRand =
      .returned ((testIDString, testKey, none), ⟨[testStored], none⟩) ∧
    service.CreateSecret ⟨[testStored], none⟩ 2 testKey (List.replicate 68719476705 0)
        testMasterKey otherRand =
      .panicked "crypto/cipher: message too large for GCM" := by
  refine ⟨CreateSecret_test_vector, CreateSecret_panics _ _ _ _ _ _ (by decide) ?_⟩
  rw [List.length_replicate]
  decide

/-- C14 (amended): after `CreateSecret k v1 m` has succeeded, a second
`CreateSecret k v2 m`, for a plaintext `v2` of at most `((1<<32)-2)*16` bytes
and a random source that delivers the 28 bytes asked for, returns the empty id,
the empty key and the error of the insert, a violation of a unique constraint,
and leaves the table as it was: the lookup of `k` still returns the record
with the first identifier, which still decrypts to `v1`. -/
theorem C14_key_uniqueness (db db1 : DB) (now1 now2 : Time) (k v1 v2 m id key' : GoString)
    (rand1 rand2 : Bytes)
    (h1 : service.CreateSecret db now1 k v1 m rand1 = .returned ((id, key', none), db1))
    (hv : v2.length ≤ gcmMaxPlaintext) (hr : 28 ≤ rand2.length) :
    (∃ c, service.CreateSecret db1 now2 k v2 m rand2 =
      .returned (([], [], some (.errorf "failed to store secret in the database: %v"
        (.uniqueViolation c))), db1)) ∧
    ∃ s : Secret, service.GetEncryptedSecretByKey db1 k = (some s, none) ∧
      s.ID.String = id ∧ s.Key = k ∧ service.DecryptSecret s m = .returned (v1, none) := by
  obtain ⟨hr1, hp1, hf, hnew, _, hid, hdb⟩ :=
    CreateSecret_returned db db1 now1 k v1 m id key' rand1 h1
  subst hdb
  obtain ⟨rows, fault⟩ := db
  simp only at hf hnew
  subst hf
  constructor
  · exact ⟨_, CreateSecret_duplicate _ now2 k v2 m rand2 hr hv
      ⟨_, List.mem_append_right _ (List.mem_singleton.2 rfl), rfl⟩⟩
  · refine ⟨{ ID := (uuidNewRandom (rand1.drop 12)).1, Key := k,
              EncryptedValue := hexEncodeToString (sealedBytes m (rand1.take 12) v1),
              CreatedAt := now1, UpdatedAt := now1 }, ?_, hid.symm, rfl, ?_⟩
    · rw [GetEncryptedSecretByKey_eq _ k rfl]
      simp only
      rw [find?_append_new rows _ _ (fun r hr => by simpa using (hnew r hr).2) (by simp)]
    · unfold service.DecryptSecret
      simp only
      rw [Decrypt_sealedBytes v1 m (rand1.take 12) (by rw [List.length_take]; omega) hp1]

/-- C14 (amended) at the test suite: after the creation of its secret, a second
creation under the same key, with the plaintext `this-secret-was-updated`, is
rejected and the record of the key is `testStored` as before. -/
theorem C14_key_uniqueness_witness :
    service.CreateSecret ⟨[], none⟩ 1 testKey testPlainTextSecret testMasterKey testRand =
      .returned ((testIDString, testKey, none), ⟨[testStored], none⟩) ∧
    newPlainSecret.length ≤ gcmMaxPlaintext ∧ 28 ≤ otherRand.length ∧
    (∃ c, service.CreateSecret ⟨[testStored], none⟩ 2 testKey newPlainSecret testMasterKey
        otherRand =
      .returned (([], [], some (.errorf "failed to store secret in the database: %v"
        (.uniqueViolation c))), ⟨[testStored], none⟩)) ∧
    ∃ s : Secret, service.GetEncryptedSecretByKey ⟨[testStored], none⟩ testKey = (some s, none) ∧
      s.ID.String = testIDString ∧ s.Key = testKey ∧
      service.DecryptSecret s testMasterKey = .returned (testPlainTextSecret, none) :=
  ⟨CreateSecret_test_vector, by decide, by decide,
    C14_key_uniqueness ⟨[], none⟩ ⟨[testStored], none⟩ 1 2 testKey testPlainTextSecret
      newPlainSecret testMasterKey testIDString testKey testRand otherRand
      CreateSecret_test_vector (by decide) (by decide)⟩

/-! ## C15: the conflict condition -/

/-- C15, as stated, fails for the response of the handler: a creation under
the key of the stored test record, and a creation over a connection that
answers every statement with "connection refused", get the same response,
status 500 with the text `Failed to create secret`. -/
theorem C15_counterexample :
    handlers.CreateSecret ⟨[testStored], none⟩ 2 (some (testKey, newPlainSecret)) testMasterKey
        otherRand =
      .returned (⟨500, .error "Failed to create secret"⟩, ⟨[testStored], none⟩) ∧
    handlers.CreateSecret ⟨[], some brokenConnection⟩ 2 (some (testKey, newPlainSecret))
        testMasterKey otherRand =
      .returned (⟨500, .error "Failed to create secret"⟩, ⟨[], some brokenConnection⟩) :=
  ⟨handlers_CreateSecret_error _ _ _ _ _ _ _ _ (by decide) (by decide)
      (CreateSecret_duplicate [testStored] 2 testKey newPlainSecret testMasterKey otherRand
        (by decide) (by decide) ⟨testStored, by simp, rfl⟩),
    handlers_CreateSecret_error _ _ _ _ _ _ _ _ (by decide) (by decide)
      (CreateSecret_fault [] brokenConnection 2 testKey newPlainSecret testMasterKey otherRand
        (by decide) (by decide))⟩

/-- C15 (amended): let the plaintext have at most `((1<<32)-2)*16` bytes and
the random source deliver the 28 bytes asked for. The error `CreateSecret`
returns carries the error of `Save` as its cause: when a row has the key and no
row has the new identifier, the cause is the violation of the unique constraint
on the key; when the connection answers `Save` with an error `e`, the cause is
`e`; so the two errors differ whenever `e` is not that violation. Handler
`CreateSecret`, for a key and a plaintext that are not empty, answers both with
the same response, status 500 and the text `Failed to create secret`. -/
theorem C15_conflict (rows : List Secret) (e : GoError) (now : Time) (key p k : GoString)
    (rand : Bytes) (hr : 28 ≤ rand.length) (hp : p.length ≤ gcmMaxPlaintext)
    (hkey : ∃ r ∈ rows, r.Key = key)
    (hid : ∀ r ∈ rows, r.ID ≠ (uuidNewRandom (rand.drop 12)).1)
    (hk0 : key ≠ []) (hp0 : p ≠ []) :
    service.CreateSecret ⟨rows, none⟩ now key p k rand =
      .returned (([], [], some (.errorf "failed to store secret in the database: %v"
        (.uniqueViolation "secrets_key"))), ⟨rows, none⟩) ∧
    service.CreateSecret ⟨rows, some e⟩ now key p k rand =
      .returned (([], [], some (.errorf "failed to store secret in the database: %v" e)),
        ⟨rows, some e⟩) ∧
    (e ≠ .uniqueViolation "secrets_key" →
      GoError.errorf "failed to store secret in the database: %v" e ≠
        .errorf "failed to store secret in the database: %v" (.uniqueViolation "secrets_key")) ∧
    handlers.CreateSecret ⟨rows, none⟩ now (some (key, p)) k rand =
      .returned (⟨500, .error "Failed to create secret"⟩, ⟨rows, none⟩) ∧
    handlers.CreateSecret ⟨rows, some e⟩ now (some (key, p)) k rand =
      .returned (⟨500, .error "Failed to create secret"⟩, ⟨rows, some e⟩) := by
  have h1 := CreateSecret_duplicate rows now key p k rand hr hp hkey
  rw [if_neg (by
    intro h
    obtain ⟨r, hr1, hr2⟩ := List.any_eq_true.mp h
    exact hid r hr1 (by simpa using hr2))] at h1
  have h2 := CreateSecret_fault rows e now key p k rand hr hp
  refine ⟨h1, h2, ?_, handlers_CreateSecret_error _ _ _ _ _ _ _ _ hk0 hp0 h1,
    handlers_CreateSecret_error _ _ _ _ _ _ _ _ hk0 hp0 h2⟩
  intro hne he
  exact hne (GoError.errorf.inj he).2

/-- C15 (amended) at the test suite: a creation under the key of the stored
test record, and one over a broken connection. -/
theorem C15_conflict_witness :
    28 ≤ otherRand.length ∧ newPlainSecret.length ≤ gcmMaxPlaintext ∧
    (∃ r ∈ [testStored], r.Key = testKey) ∧
    (∀ r ∈ [testStored], r.ID ≠ (uuidNewRandom (otherRand.drop 12)).1) ∧
    testKey ≠ [] ∧ newPlainSecret ≠ [] ∧
    service.CreateSecret ⟨[testStored], none⟩ 2 testKey newPlainSecret testMasterKey otherRand =
      .returned (([], [], some (.errorf "failed to store secret in the database: %v"
        (.uniqueViolation "secrets_key"))), ⟨[testStored], none⟩) ∧
    service.CreateSecret ⟨[testStored], some brokenConnection⟩ 2 testKey newPlainSecret
        testMasterKey otherRand =
      .returned (([], [], some (.errorf "failed to store secret in the database: %v"
        brokenConnection)), ⟨[testStored], some brokenConnection⟩) ∧
    (brokenConnection ≠ .uniqueViolation "secrets_key" →
      GoError.errorf "failed to store secret in the database: %v" brokenConnection ≠
        .errorf "failed to store secret in the database: %v" (.uniqueViolation "secrets_key")) ∧
    handlers.CreateSecret ⟨[testStored], none⟩ 2 (some (testKey, newPlainSecret)) testMasterKey
        otherRand =
      .returned (⟨500, .error "Failed to create secret"⟩, ⟨[testStored], none⟩) ∧
    handlers.CreateSecret ⟨[testStored], some brokenConnection⟩ 2
        (some (testKey, newPlainSecret)) testMasterKey otherRand =
      .returned (⟨500, .error "Failed to create secret"⟩,
        ⟨[testStored], some brokenConnection⟩) :=
  ⟨by decide, by decide, ⟨testStored, by simp, rfl⟩, by decide, by decide, by decide,
    C15_conflict [testStored] brokenConnection 2 testKey newPlainSecret testMasterKey otherRand
      (by decide) (by decide) ⟨testStored, by simp, rfl⟩ (by decide) (by decide) (by decide)⟩

/-! ## C16: update semantics -/

/-- C16: after `CreateSecret key v1 m` has returned `id` and
`UpdateSecret id v2 m` has succeeded, `GetEncryptedSecretByID id` returns a
record and no error, and `DecryptSecret` of that record under `m` returns
`v2`. -/
theorem C16_update_semantics (db db1 db2 : DB) (now1 now2 : Time)
    (key v1 v2 m id key' : GoString) (rand1 rand2 : Bytes)
    (hc : service.CreateSecret db now1 key v1 m rand1 = .returned ((id, key', none), db1))
    (hu : service.UpdateSecret db1 now2 id v2 m rand2 = .returned (none, db2)) :
    ∃ r : Secret, service.GetEncryptedSecretByID db2 id = (some r, none) ∧
      service.DecryptSecret r m = .returned (v2, none) := by
  obtain ⟨_, _, hf, hnew, _, hid, hdb1⟩ :=
    CreateSecret_returned db db1 now1 key v1 m id key' rand1 hc
  obtain ⟨u, hpu, hr2, hp2, _, hdb2⟩ := UpdateSecret_returned db1 db2 now2 id v2 m rand2 hu
  have hu' : u = (uuidNewRandom (rand1.drop 12)).1 := by
    rw [hid, uuidParse_String] at hpu
    exact (Except.ok.inj hpu).symm
  subst hdb2 hdb1
  obtain ⟨rows, fault⟩ := db
  simp only at hf hnew
  subst hf
  refine ⟨{ ID := (uuidNewRandom (rand1.drop 12)).1, Key := key,
            EncryptedValue := hexEncodeToString (sealedBytes m (rand2.take 12) v2),
            CreatedAt := now1, UpdatedAt := now2 }, ?_, ?_⟩
  · rw [GetEncryptedSecretByID_eq _ id u hpu rfl]
    simp only
    rw [List.find?_map, find?_append_new rows _ _
      (fun r hr => by
        have := (hnew r hr).1
        by_cases h : r.ID = u
        · exact absurd (h.trans hu') this
        · simp [h])
      (by simp [hu'])]
    simp [hu']
  · unfold service.DecryptSecret
    simp only
    rw [Decrypt_sealedBytes v2 m (rand2.take 12) (by rw [List.length_take]; omega) hp2]

/-- C16 at the test suite (`TestServiceUpdateSecret`): the secret is created at
time 1 and updated at time 2 with `this-secret-was-updated`. -/
theorem C16_update_semantics_witness :
    service.CreateSecret ⟨[], none⟩ 1 testKey testPlainTextSecret testMasterKey testRand =
      .returned ((testIDString, testKey, none), ⟨[testStored], none⟩) ∧
    service.UpdateSecret ⟨[testStored], none⟩ 2 testIDString newPlainSecret testMasterKey
        testNonce =
      .returned (none,
        ⟨[{ testStored with EncryptedValue := testUpdatedBlob, UpdatedAt := 2 }], none⟩) ∧
    ∃ r : Secret,
      service.GetEncryptedSecretByID
        ⟨[{ testStored with EncryptedValue := testUpdatedBlob, UpdatedAt := 2 }], none⟩
        testIDString = (some r, none) ∧
      service.DecryptSecret r testMasterKey = .returned (newPlainSecret, none) :=
  ⟨CreateSecret_test_vector, UpdateSecret_test_vector,
    C16_update_semantics ⟨[], none⟩ ⟨[testStored], none⟩
      ⟨[{ testStored with EncryptedValue := testUpdatedBlob, UpdatedAt := 2 }], none⟩ 1 2
      testKey testPlainTextSecret newPlainSecret testMasterKey testIDString testKey testRand
      testNonce CreateSecret_test_vector UpdateSecret_test_vector⟩

/-! ## C17: the frame of an update -/

/-- C17, as stated, fails when the clock does not read later at the update
than at the record's last write: the test suite's secret is stored with
`UpdatedAt` 1 and updated while the clock still reads 1; the update succeeds
and `UpdatedAt` is 1 afterwards, not a strictly later time. -/
theorem C17_counterexample :
    service.UpdateSecret ⟨[testStored], none⟩ 1 testIDString newPlainSecret testMasterKey
        testNonce =
      .returned (none,
        ⟨[{ testStored with EncryptedValue := testUpdatedBlob, UpdatedAt := 1 }], none⟩) ∧
    testStored.UpdatedAt = 1 ∧
    ({ testStored with EncryptedValue := testUpdatedBlob, UpdatedAt := 1 } : Secret).UpdatedAt =
      1 ∧
    ¬ testStored.UpdatedAt <
      ({ testStored with EncryptedValue := testUpdatedBlob, UpdatedAt := 1 } : Secret).UpdatedAt :=
  ⟨UpdateSecret_same_instant_vector, rfl, rfl, by decide⟩

/-- C17 (amended): a successful `UpdateSecret id v m` leaves the connection as
it was and changes the rows one by one: a row whose `ID` is not the identifier
parsed from `id` is unchanged; a row with that `ID` keeps its `ID`, `Key` and
`CreatedAt`, gets an `EncryptedValue` that decrypts to `v` under `m`, and gets
as `UpdatedAt` the reading `now` of the clock at the update, whatever the old
value. -/
theorem C17_update_frame (db db' : DB) (now : Time) (id v m : GoString) (rand : Bytes)
    (h : service.UpdateSecret db now id v m rand = .returned (none, db')) :
    ∃ (u : UUID) (blob : GoString), uuidParse id = .ok u ∧
      Decrypt blob m = .returned (v, none) ∧ db'.fault = db.fault ∧
      List.Forall₂ (fun r r' : Secret =>
        (r.ID ≠ u → r' = r) ∧
        (r.ID = u → r'.ID = r.ID ∧ r'.Key = r.Key ∧ r'.CreatedAt = r.CreatedAt ∧
          r'.EncryptedValue = blob ∧ r'.UpdatedAt = now)) db.rows db'.rows := by
  obtain ⟨u, hpu, hr, hp, _, hdb⟩ := UpdateSecret_returned db db' now id v m rand h
  subst hdb
  refine ⟨u, hexEncodeToString (sealedBytes m (rand.take 12) v), hpu,
    Decrypt_sealedBytes v m (rand.take 12) (by rw [List.length_take]; omega) hp, rfl, ?_⟩
  simp only
  rw [List.forall₂_map_right_iff]
  apply List.forall₂_same.2
  intro r _
  by_cases hru : r.ID = u
  · simp [hru]
  · simp [hru]

/-- C17 (amended) at the update of the test suite's secret at time 2, in a
table that holds a second record. -/
theorem C17_update_frame_witness :
    service.UpdateSecret ⟨[testStored, otherStored], none⟩ 2 testIDString newPlainSecret
        testMasterKey testNonce =
      .returned (none,
        ⟨[{ testStored with EncryptedValue := testUpdatedBlob, UpdatedAt := 2 },
          otherStored], none⟩) ∧
    ∃ (u : UUID) (blob : GoString), uuidParse testIDString = .ok u ∧
      Decrypt blob testMasterKey = .returned (newPlainSecret, none) ∧
      (⟨[{ testStored with EncryptedValue := testUpdatedBlob, UpdatedAt := 2 },
          otherStored], none⟩ : DB).fault =
        (⟨[testStored, otherStored], none⟩ : DB).fault ∧
      List.Forall₂ (fun r r' : Secret =>
        (r.ID ≠ u → r' = r) ∧
        (r.ID = u → r'.ID = r.ID ∧ r'.Key = r.Key ∧ r'.CreatedAt = r.CreatedAt ∧
          r'.EncryptedValue = blob ∧ r'.UpdatedAt = 2))
        (⟨[testStored, otherStored], none⟩ : DB).rows
        (⟨[{ testStored with EncryptedValue := testUpdatedBlob, UpdatedAt := 2 },
          otherStored], none⟩ : DB).rows :=
  ⟨UpdateSecret_two_rows_vector,
    C17_update_frame _ _ 2 testIDString newPlainSecret testMasterKey testNonce
      UpdateSecret_two_rows_vector⟩

/-! ## C18: update of an unknown identifier -/

/-- C18, as stated, fails on the empty table: `UpdateSecret` with the
identifier `testIDString`, of no record, returns no error. -/
theorem C18_counterexample :
    uuidParse testIDString = .ok testID ∧
    service.UpdateSecret ⟨[], none⟩ 2 testIDString newPlainSecret testMasterKey testNonce =
      .returned (none, ⟨[], none⟩) :=
  ⟨by rfl, by
    rw [UpdateSecret_eq _ 2 testIDString newPlainSecret testMasterKey testNonce testID (by rfl)
      (by decide) (by decide)]
    rfl⟩

/-- C18 (amended): for an identifier `id` that parses and of which the table
holds no record, a plaintext of at most `((1<<32)-2)*16` bytes and a random
source that delivers the nonce, `UpdateSecret id p k` leaves the table as it
was and returns no error, or, over a broken connection, the error of the
connection. It is handler `UpdateSecret` that reports the unknown identifier:
for a plaintext that is not empty it answers 404 with `Secret not found`, and
leaves the table as it was. -/
theorem C18_update_unknown (db : DB) (now : Time) (id p k : GoString) (rand : Bytes) (u : UUID)
    (hu : uuidParse id = .ok u) (habsent : ∀ r ∈ db.rows, r.ID ≠ u)
    (hr : 12 ≤ rand.length) (hp : p.length ≤ gcmMaxPlaintext) :
    service.UpdateSecret db now id p k rand =
      .returned (db.fault.map (.errorf "failed to update secret: %v"), db) ∧
    (p ≠ [] → handlers.UpdateSecret db now id (some p) k rand =
      .returned (⟨404, .error "Secret not found"⟩, db)) := by
  constructor
  · rw [UpdateSecret_eq db now id p k rand u hu hr hp, map_update_absent db.rows u _ habsent]
    obtain ⟨rows, fault⟩ := db
    cases fault <;> rfl
  · intro hp0
    obtain ⟨err, he⟩ := getSecretFromQuery_absent db id u hu habsent
    unfold handlers.UpdateSecret
    simp only [uuidParse_ok_ne_nil id u hu, hp0, if_false, he]

/-- C18 (amended) at the table that holds `otherStored` only, and the
identifier `testIDString`. -/
theorem C18_update_unknown_witness :
    uuidParse testIDString = .ok testID ∧ (∀ r ∈ [otherStored], r.ID ≠ testID) ∧
    12 ≤ testNonce.length ∧ newPlainSecret.length ≤ gcmMaxPlaintext ∧
    service.UpdateSecret ⟨[otherStored], none⟩ 2 testIDString newPlainSecret testMasterKey
        testNonce =
      .returned ((none : Option GoError).map (.errorf "failed to update secret: %v"),
        ⟨[otherStored], none⟩) ∧
    (newPlainSecret ≠ [] →
      handlers.UpdateSecret ⟨[otherStored], none⟩ 2 testIDString (some newPlainSecret)
          testMasterKey testNonce =
        .returned (⟨404, .error "Secret not found"⟩, ⟨[otherStored], none⟩)) :=
  ⟨by rfl, by decide, by decide, by decide,
    C18_update_unknown ⟨[otherStored], none⟩ 2 testIDString newPlainSecret testMasterKey
      testNonce testID (by rfl) (by decide) (by decide) (by decide)⟩

/-! ## C19: deletion of an unknown identifier -/

/-- C19, as stated, fails on the empty table: `DeleteSecret` with the
identifier `testIDString`, of no record, returns no error. -/
theorem C19_counterexample :
    uuidParse testIDString = .ok testID ∧
    service.DeleteSecret ⟨[], none⟩ testIDString = (none, ⟨[], none⟩) :=
  ⟨by rfl, by rw [DeleteSecret_eq _ testIDString testID (by rfl)]; rfl⟩

/-- C19 (amended): for an identifier `id` that parses and of which the table
holds no record, `DeleteSecret id` leaves the table as it was and returns no
error, or, over a broken connection, the error of the connection. It is
handler `DeleteSecret` that reports the unknown identifier: it answers 404
with `Secret not found`, and leaves the table as it was. -/
theorem C19_delete_unknown (db : DB) (id : GoString) (u : UUID)
    (hu : uuidParse id = .ok u) (habsent : ∀ r ∈ db.rows, r.ID ≠ u) :
    service.DeleteSecret db id =
      (db.fault.map (.errorf "failed to delete secret by ID: %v"), db) ∧
    handlers.DeleteSecret db id = .returned (⟨404, .error "Secret not found"⟩, db) := by
  constructor
  · rw [DeleteSecret_eq db id u hu, filter_delete_absent db.rows u habsent]
    obtain ⟨rows, fault⟩ := db
    cases fault <;> rfl
  · obtain ⟨err, he⟩ := getSecretFromQuery_absent db id u hu habsent
    unfold handlers.DeleteSecret
    simp only [uuidParse_ok_ne_nil id u hu, if_false, he]

/-- C19 (amended) at the table that holds `otherStored` only, and the
identifier `testIDString`. -/
theorem C19_delete_unknown_witness :
    uuidParse testIDString = .ok testID ∧ (∀ r ∈ [otherStored], r.ID ≠ testID) ∧
    service.DeleteSecret ⟨[otherStored], none⟩ testIDString =
      ((none : Option GoError).map (.errorf "failed to delete secret by ID: %v"),
        ⟨[otherStored], none⟩) ∧
    handlers.DeleteSecret ⟨[otherStored], none⟩ testIDString =
      .returned (⟨404, .error "Secret not found"⟩, ⟨[otherStored], none⟩) :=
  ⟨by rfl, by decide,
    C19_delete_unknown ⟨[otherStored], none⟩ testIDString testID (by rfl) (by decide)⟩

/-! ## C20: delete, then fetch -/

/-- C20: let the table be consistent (no two rows with the same `ID` or the
same `Key`) and hold the record `r`, and let `DeleteSecret id`, for a string
`id` that denotes the identifier of `r`, succeed. Afterwards
`GetEncryptedSecretByID id` and `GetEncryptedSecretByKey r.Key` both return the
not-found error of `gorm`, and every other record of the table is still
returned, unchanged, by the lookup of its identifier and by the lookup of its
key. -/
theorem C20_delete_then_fetch (db db' : DB) (id : GoString) (r : Secret)
    (hc : db.Consistent) (hr : r ∈ db.rows) (hu : uuidParse id = .ok r.ID)
    (hd : service.DeleteSecret db id = (none, db')) :
    service.GetEncryptedSecretByID db' id =
      (some Secret.zero,
        some (.errorf2 "failed to retrieve secret by ID '%s': %v" r.ID.String
          .recordNotFound)) ∧
    service.GetEncryptedSecretByKey db' r.Key =
      (some Secret.zero,
        some (.errorf2 "failed to retrieve secret by key '%s': %v" r.Key .recordNotFound)) ∧
    ∀ r' ∈ db.rows, r' ≠ r →
      service.GetEncryptedSecretByID db' r'.ID.String = (some r', none) ∧
      service.GetEncryptedSecretByKey db' r'.Key = (some r', none) := by
  rw [DeleteSecret_eq db id r.ID hu] at hd
  obtain ⟨rows, fault⟩ := db
  cases fault with
  | some e => simp at hd
  | none =>
    simp only [Prod.mk.injEq, true_and] at hd
    subst hd
    simp only at hr
    have hid : ∀ a ∈ rows, ∀ b ∈ rows, a.ID = b.ID → a = b := fun a ha b hb he =>
      List.inj_on_of_nodup_map hc.1 ha hb he
    have hkey : ∀ a ∈ rows, ∀ b ∈ rows, a.Key = b.Key → a = b := fun a ha b hb he =>
      List.inj_on_of_nodup_map hc.2 ha hb he
    refine ⟨?_, ?_, ?_⟩
    · rw [GetEncryptedSecretByID_eq _ id r.ID hu rfl]
      simp only
      rw [List.find?_eq_none.2 (fun x hx => by
        have := (List.mem_filter.1 hx).2
        simpa using this)]
    · rw [GetEncryptedSecretByKey_eq _ r.Key rfl]
      simp only
      rw [List.find?_eq_none.2 (fun x hx => by
        obtain ⟨hx1, hx2⟩ := List.mem_filter.1 hx
        have hne : x.ID ≠ r.ID := by simpa using hx2
        have : x.Key ≠ r.Key := fun he => hne (by rw [hkey x hx1 r hr he])
        simpa using this)]
    · intro r' hr' hne
      have hne' : r'.ID ≠ r.ID := fun he => hne (hid r' hr' r hr he)
      have hmem : r' ∈ rows.filter (fun x => x.ID ≠ r.ID) :=
        List.mem_filter.2 ⟨hr', by simpa using hne'⟩
      constructor
      · rw [GetEncryptedSecretByID_eq _ _ r'.ID (uuidParse_String r'.ID) rfl]
        simp only
        rw [find?_eq_some_of_unique _ _ r' hmem (by simp) (fun x hx hfx =>
          hid x (List.mem_filter.1 hx).1 r' hr' (by simpa using hfx))]
      · rw [GetEncryptedSecretByKey_eq _ r'.Key rfl]
        simp only
        rw [find?_eq_some_of_unique _ _ r' hmem (by simp) (fun x hx hfx =>
          hkey x (List.mem_filter.1 hx).1 r' hr' (by simpa using hfx))]

/-- C20 at the table of `testStored` and `otherStored`, after the deletion of
`testStored`. -/
theorem C20_delete_then_fetch_witness :
    (⟨[testStored, otherStored], none⟩ : DB).Consistent ∧
    testStored ∈ (⟨[testStored, otherStored], none⟩ : DB).rows ∧
    uuidParse testIDString = .ok testStored.ID ∧
    service.DeleteSecret ⟨[testStored, otherStored], none⟩ testIDString =
      (none, ⟨[otherStored], none⟩) ∧
    service.GetEncryptedSecretByID ⟨[otherStored], none⟩ testIDString =
      (some Secret.zero,
        some (.errorf2 "failed to retrieve secret by ID '%s': %v" testStored.ID.String
          .recordNotFound)) ∧
    service.GetEncryptedSecretByKey ⟨[otherStored], none⟩ testStored.Key =
      (some Secret.zero,
        some (.errorf2 "failed to retrieve secret by key '%s': %v" testStored.Key
          .recordNotFound)) ∧
    ∀ r' ∈ (⟨[testStored, otherStored], none⟩ : DB).rows, r' ≠ testStored →
      service.GetEncryptedSecretByID ⟨[otherStored], none⟩ r'.ID.String = (some r', none) ∧
      service.GetEncryptedSecretByKey ⟨[otherStored], none⟩ r'.Key = (some r', none) :=
  ⟨⟨by decide, by decide⟩, by simp, by rfl, by decide,
    C20_delete_then_fetch ⟨[testStored, otherStored], none⟩ ⟨[otherStored], none⟩ testIDString
      testStored ⟨by decide, by decide⟩ (by simp) (by rfl) (by decide)⟩

/-! ## C21: fetching never decrypts -/

/-- C21: a successful `GetEncryptedSecretByID` returns a pointer to a row of the
table, the first row with the identifier the query denotes, as the table holds
it; a successful `GetEncryptedSecretByKey` returns the first row with the key.
Either makes one call, a read of the repository, and none of the logger. The
two methods have no master key among their arguments and return no table: the
result is a function of the table and the query. -/
theorem C21_fetch (db : DB) (q : GoString) (s : Option Secret) :
    (service.GetEncryptedSecretByID db q = (s, none) →
      ∃ u r, uuidParse q = .ok u ∧ s = some r ∧ r ∈ db.rows ∧ r.ID = u ∧
        db.rows.find? (fun x => x.ID = u) = some r ∧
        service.GetEncryptedSecretByID.events db q = [.repo (.GetByID u)]) ∧
    (service.GetEncryptedSecretByKey db q = (s, none) →
      ∃ r, s = some r ∧ r ∈ db.rows ∧ r.Key = q ∧
        db.rows.find? (fun x => x.Key = q) = some r ∧
        service.GetEncryptedSecretByKey.events db q = [.repo (.GetByKey q)]) := by
  constructor
  · intro h
    unfold service.GetEncryptedSecretByID repository.GetByID at h
    unfold service.GetEncryptedSecretByID.events repository.GetByID
    cases hu : uuidParse q with
    | error e => rw [hu] at h; simp at h
    | ok u =>
      rw [hu] at h
      cases hf : db.fault with
      | some e => rw [hf] at h; simp at h
      | none =>
        rw [hf] at h
        simp only at h ⊢
        cases hr : db.rows.find? (fun x => decide (x.ID = u)) with
        | none => rw [hr] at h; simp at h
        | some r =>
          rw [hr] at h
          simp only [Prod.mk.injEq, and_true] at h
          exact ⟨u, r, rfl, h.symm, List.mem_of_find?_eq_some hr,
            by simpa using List.find?_some hr, hr, rfl⟩
  · intro h
    unfold service.GetEncryptedSecretByKey repository.GetByKey at h
    unfold service.GetEncryptedSecretByKey.events repository.GetByKey
    cases hf : db.fault with
    | some e => rw [hf] at h; simp at h
    | none =>
      rw [hf] at h
      simp only at h ⊢
      cases hr : db.rows.find? (fun x => decide (x.Key = q)) with
      | none => rw [hr] at h; simp at h
      | some r =>
        rw [hr] at h
        simp only [Prod.mk.injEq, and_true] at h
        exact ⟨r, h.symm, List.mem_of_find?_eq_some hr, by simpa using List.find?_some hr,
          rfl, rfl⟩

/-- C21 at the table of `testStored` and `otherStored`: the lookups of
`testIDString` and of `testKey` return `testStored`. -/
theorem C21_fetch_witness :
    service.GetEncryptedSecretByID ⟨[testStored, otherStored], none⟩ testIDString =
      (some testStored, none) ∧
    service.GetEncryptedSecretByKey ⟨[testStored, otherStored], none⟩ testKey =
      (some testStored, none) ∧
    (∃ u r, uuidParse testIDString = .ok u ∧ some testStored = some r ∧
      r ∈ (⟨[testStored, otherStored], none⟩ : DB).rows ∧ r.ID = u ∧
      (⟨[testStored, otherStored], none⟩ : DB).rows.find? (fun x => x.ID = u) = some r ∧
      service.GetEncryptedSecretByID.events ⟨[testStored, otherStored], none⟩ testIDString =
        [.repo (.GetByID u)]) ∧
    ∃ r, some testStored = some r ∧ r ∈ (⟨[testStored, otherStored], none⟩ : DB).rows ∧
      r.Key = testKey ∧
      (⟨[testStored, otherStored], none⟩ : DB).rows.find? (fun x => x.Key = testKey) = some r ∧
      service.GetEncryptedSecretByKey.events ⟨[testStored, otherStored], none⟩ testKey =
        [.repo (.GetByKey testKey)] :=
  ⟨by decide, by decide,
    (C21_fetch ⟨[testStored, otherStored], none⟩ testIDString (some testStored)).1 (by decide),
    (C21_fetch ⟨[testStored, otherStored], none⟩ testKey (some testStored)).2 (by decide)⟩

/-! ## C22: the master key in errors, log messages and the record -/

/-- C22: the master key does not reach the errors, the logger or the record.
A call of `Encrypt`, `CreateSecret` or `UpdateSecret` that does not succeed
under master key `k1` has the same result, error or panic, under any master key
`k2`, and passes the same messages to the logger; a call of `Decrypt` or
`DecryptSecret` that succeeds under neither `k1` nor `k2` has the same result
and the same messages under both. The record `CreateSecret` hands to `Save` has
the identifier made from the random source, the key, the blob `Encrypt` returns
and zero timestamps. -/
theorem C22_master_key_does_not_leak (k1 k2 : GoString) :
    (∀ p rand, (∀ c, Encrypt p k1 rand ≠ .returned (c, none)) →
      Encrypt p k1 rand = Encrypt p k2 rand ∧
        Encrypt.events p k1 rand = Encrypt.events p k2 rand) ∧
    (∀ s, (∀ v, Decrypt s k1 ≠ .returned (v, none)) →
      (∀ v, Decrypt s k2 ≠ .returned (v, none)) →
      Decrypt s k1 = Decrypt s k2 ∧ Decrypt.events s k1 = Decrypt.events s k2) ∧
    (∀ db now key p rand,
      (∀ id key' db', service.CreateSecret db now key p k1 rand ≠
        .returned ((id, key', none), db')) →
      service.CreateSecret db now key p k1 rand = service.CreateSecret db now key p k2 rand ∧
        logMessages (service.CreateSecret.events db now key p k1 rand) =
          logMessages (service.CreateSecret.events db now key p k2 rand)) ∧
    (∀ db now id p rand,
      (∀ db', service.UpdateSecret db now id p k1 rand ≠ .returned (none, db')) →
      service.UpdateSecret db now id p k1 rand = service.UpdateSecret db now id p k2 rand ∧
        logMessages (service.UpdateSecret.events db now id p k1 rand) =
          logMessages (service.UpdateSecret.events db now id p k2 rand)) ∧
    (∀ secret, (∀ v, service.DecryptSecret secret k1 ≠ .returned (v, none)) →
      (∀ v, service.DecryptSecret secret k2 ≠ .returned (v, none)) →
      service.DecryptSecret secret k1 = service.DecryptSecret secret k2 ∧
        service.DecryptSecret.events secret k1 = service.DecryptSecret.events secret k2) ∧
    (∀ db now key p rand secret,
      .repo (.Save secret) ∈ service.CreateSecret.events db now key p k1 rand →
      secret.ID = (uuidNewRandom (rand.drop 12)).1 ∧ secret.Key = key ∧
        Encrypt p k1 rand = .returned (secret.EncryptedValue, none) ∧
        secret.CreatedAt = 0 ∧ secret.UpdatedAt = 0) := by
  refine ⟨fun p rand h1 => ⟨Encrypt_failure_independent p k1 k2 rand h1,
      Encrypt_events_independent p k1 k2 rand⟩,
    fun s h1 h2 => Decrypt_failure_independent s k1 k2 h1 h2,
    fun db now key p rand h1 => CreateSecret_failure_independent db now key p k1 k2 rand h1,
    fun db now id p rand h1 => UpdateSecret_failure_independent db now id p k1 k2 rand h1,
    fun secret h1 h2 => DecryptSecret_failure_independent secret k1 k2 h1 h2, ?_⟩
  intro db now key p rand secret h
  obtain ⟨hr, hp, hs⟩ := CreateSecret_saved_record db now key p k1 rand secret h
  subst hs
  exact ⟨rfl, rfl, Encrypt_ok p k1 rand (by omega) hp, rfl, rfl⟩

/-- C22 at the test suite's two master keys: `Encrypt`, `CreateSecret` and
`UpdateSecret` of the test plaintext on a random source that delivers nothing,
`Decrypt` and `DecryptSecret` of the tampered test blob, and the record of the
creation of the test suite's secret, which is `testSecret`. -/
theorem C22_master_key_does_not_leak_witness :
    (Encrypt testPlainTextSecret testMasterKey [] =
        .returned ([], some (.errorf "failed to generate nonce: %v" .randRead)) ∧
      Encrypt testPlainTextSecret testMasterKey [] =
        Encrypt testPlainTextSecret wrongMasterKey [] ∧
      Encrypt.events testPlainTextSecret testMasterKey [] =
        Encrypt.events testPlainTextSecret wrongMasterKey []) ∧
    (Decrypt testBlobTampered testMasterKey = .returned ([], some authError) ∧
      Decrypt testBlobTampered testMasterKey = Decrypt testBlobTampered wrongMasterKey ∧
      Decrypt.events testBlobTampered testMasterKey =
        Decrypt.events testBlobTampered wrongMasterKey) ∧
    (service.CreateSecret ⟨[], none⟩ 1 testKey testPlainTextSecret testMasterKey [] =
        service.CreateSecret ⟨[], none⟩ 1 testKey testPlainTextSecret wrongMasterKey [] ∧
      logMessages
          (service.CreateSecret.events ⟨[], none⟩ 1 testKey testPlainTextSecret testMasterKey []) =
        logMessages
          (service.CreateSecret.events ⟨[], none⟩ 1 testKey testPlainTextSecret
            wrongMasterKey [])) ∧
    (service.UpdateSecret ⟨[testStored], none⟩ 2 testIDString newPlainSecret testMasterKey [] =
        service.UpdateSecret ⟨[testStored], none⟩ 2 testIDString newPlainSecret
          wrongMasterKey [] ∧
      logMessages
          (service.UpdateSecret.events ⟨[testStored], none⟩ 2 testIDString newPlainSecret
            testMasterKey []) =
        logMessages
          (service.UpdateSecret.events ⟨[testStored], none⟩ 2 testIDString newPlainSecret
            wrongMasterKey [])) ∧
    (service.DecryptSecret { testStored with EncryptedValue := testBlobTampered } testMasterKey =
        service.DecryptSecret { testStored with EncryptedValue := testBlobTampered }
          wrongMasterKey ∧
      service.DecryptSecret.events { testStored with EncryptedValue := testBlobTampered }
          testMasterKey =
        service.DecryptSecret.events { testStored with EncryptedValue := testBlobTampered }
          wrongMasterKey) ∧
    (.repo (.Save testSecret) ∈
        service.CreateSecret.events ⟨[], none⟩ 1 testKey testPlainTextSecret testMasterKey
          testRand ∧
      testSecret.ID = (uuidNewRandom (testRand.drop 12)).1 ∧ testSecret.Key = testKey ∧
      Encrypt testPlainTextSecret testMasterKey testRand =
        .returned (testSecret.EncryptedValue, none) ∧
      testSecret.CreatedAt = 0 ∧ testSecret.UpdatedAt = 0) :=
  have hd1 : ∀ v, Decrypt testBlobTampered testMasterKey ≠ .returned (v, none) :=
    fun v h => by rw [Decrypt_tampered_vector] at h; simp at h
  have hd2 : ∀ v, Decrypt testBlobTampered wrongMasterKey ≠ .returned (v, none) :=
    fun v h => by rw [Decrypt_tampered_wrong_key_vector] at h; simp at h
  have hs1 : ∀ v, service.DecryptSecret { testStored with EncryptedValue := testBlobTampered }
      testMasterKey ≠ .returned (v, none) :=
    fun v h => by
      rw [DecryptSecret_of_Decrypt_error { testStored with EncryptedValue := testBlobTampered }
        testMasterKey [] authError Decrypt_tampered_vector] at h
      simp at h
  have hs2 : ∀ v, service.DecryptSecret { testStored with EncryptedValue := testBlobTampered }
      wrongMasterKey ≠ .returned (v, none) :=
    fun v h => by
      rw [DecryptSecret_of_Decrypt_error { testStored with EncryptedValue := testBlobTampered }
        wrongMasterKey [] authError Decrypt_tampered_wrong_key_vector] at h
      simp at h
  have hm : Event.repo (.Save testSecret) ∈
      service.CreateSecret.events ⟨[], none⟩ 1 testKey testPlainTextSecret testMasterKey
        testRand := by
    rw [CreateSecret_events_eq, if_neg (by decide), if_neg (by decide), if_neg (by decide),
      testSecret_record]
    exact List.mem_cons_self _ _
  ⟨⟨Encrypt_short_rand _ _ _ (by decide),
      (C22_master_key_does_not_leak testMasterKey wrongMasterKey).1 testPlainTextSecret []
        (fun c h => by rw [Encrypt_short_rand _ _ _ (by decide)] at h; simp at h)⟩,
    ⟨Decrypt_tampered_vector,
      (C22_master_key_does_not_leak testMasterKey wrongMasterKey).2.1 testBlobTampered hd1 hd2⟩,
    (C22_master_key_does_not_leak testMasterKey wrongMasterKey).2.2.1 ⟨[], none⟩ 1 testKey
      testPlainTextSecret []
      (fun id key' db' h => by
        simp only [service.CreateSecret, CreateSecretModel, Encrypt_short_rand _ _ _
          (show ([] : Bytes).length < 12 by decide)] at h
        simp at h),
    (C22_master_key_does_not_leak testMasterKey wrongMasterKey).2.2.2.1 ⟨[testStored], none⟩ 2
      testIDString newPlainSecret []
      (fun db' h => by
        simp only [service.UpdateSecret, show uuidParse testIDString = .ok testID by rfl,
          Encrypt_short_rand _ _ _ (show ([] : Bytes).length < 12 by decide)] at h
        simp at h),
    (C22_master_key_does_not_leak testMasterKey wrongMasterKey).2.2.2.2.1 _ hs1 hs2,
    ⟨hm, (C22_master_key_does_not_leak testMasterKey wrongMasterKey).2.2.2.2.2 ⟨[], none⟩ 1
      testKey testPlainTextSecret testRand testSecret hm⟩⟩

/-! ## C23: the answers of `GetSecretByQuery` -/

/-- C23, as the code has it: handler `GetSecretByQuery` answers 400 to the
empty query; 404 with `Secret not found` to every error of the lookup, the
not-found error and any other alike; when the lookup returns a record, 500
with `Something went wrong` when `DecryptSecret` returns an error and 200 with
the record's key and the decrypted value when it returns none. -/
theorem C23_answers (db : DB) (q k : GoString) :
    (q = [] → handlers.GetSecretByQuery db q k =
      .returned ⟨400, .error "Missing query in request URL"⟩) ∧
    (q ≠ [] → ∀ s err, (getSecretFromQuery db q).2 = (s, some err) →
      handlers.GetSecretByQuery db q k = .returned ⟨404, .error "Secret not found"⟩) ∧
    (q ≠ [] → ∀ s, (getSecretFromQuery db q).2 = (some s, none) →
      (∀ v err, service.DecryptSecret s k = .returned (v, some err) →
        handlers.GetSecretByQuery db q k = .returned ⟨500, .error "Something went wrong"⟩) ∧
      (∀ v, service.DecryptSecret s k = .returned (v, none) →
        handlers.GetSecretByQuery db q k = .returned ⟨200, .secretPlain s.Key v⟩)) := by
  refine ⟨fun hq => ?_, fun hq s err h => GetSecretByQuery_error db q k s err hq h,
    fun hq s h => ⟨(GetSecretByQuery_found db q k s hq h).2.1,
      (GetSecretByQuery_found db q k s hq h).1⟩⟩
  subst hq
  rfl

/-- C23 at the test suite's record: the empty query gets 400; over a broken
connection the lookup of `testKey` fails with the error of the connection, which
is not the not-found error, and the handler answers 404; with the wrong master
key it answers 500, with the right one 200 and the plaintext. -/
theorem C23_answers_witness :
    handlers.GetSecretByQuery ⟨[testStored], none⟩ [] testMasterKey =
      .returned ⟨400, .error "Missing query in request URL"⟩ ∧
    (service.GetEncryptedSecretByKey ⟨[testStored], some brokenConnection⟩ testKey =
        (some Secret.zero,
          some (.errorf2 "failed to retrieve secret by key '%s': %v" testKey brokenConnection)) ∧
      brokenConnection ≠ .recordNotFound ∧
      handlers.GetSecretByQuery ⟨[testStored], some brokenConnection⟩ testKey testMasterKey =
        .returned ⟨404, .error "Secret not found"⟩) ∧
    handlers.GetSecretByQuery ⟨[testStored], none⟩ testKey wrongMasterKey =
      .returned ⟨500, .error "Something went wrong"⟩ ∧
    handlers.GetSecretByQuery ⟨[testStored], none⟩ testKey testMasterKey =
      .returned ⟨200, .secretPlain testKey testPlainTextSecret⟩ :=
  ⟨(C23_answers ⟨[testStored], none⟩ [] testMasterKey).1 rfl,
    ⟨by rfl, by decide,
      (C23_answers ⟨[testStored], some brokenConnection⟩ testKey testMasterKey).2.1 (by decide)
        (some Secret.zero)
        (.errorf2 "failed to retrieve secret by key '%s': %v" testKey brokenConnection)
        (by rfl)⟩,
    ((C23_answers ⟨[testStored], none⟩ testKey wrongMasterKey).2.2 (by decide) testStored
      (by rfl)).1 [] _ DecryptSecret_wrong_key_vector,
    ((C23_answers ⟨[testStored], none⟩ testKey testMasterKey).2.2 (by decide) testStored
      (by rfl)).2 testPlainTextSecret
      (DecryptSecret_of_Decrypt_ok testStored testMasterKey testPlainTextSecret
        Decrypt_test_vector)⟩

/-! ## C24: deleted is terminal -/

/-- C24: after `DeleteSecret id` has succeeded, for a string `id` that denotes
the identifier `u`, and after any sequence of calls of `UpdateSecret` and
`DeleteSecret`, on `id` or on other identifiers, `GetEncryptedSecretByID id`
returns the not-found error: no row of the table has the identifier `u`. -/
theorem C24_deleted_is_terminal (db db1 : DB) (id : GoString) (u : UUID) (calls : List IdCall)
    (hu : uuidParse id = .ok u) (hd : service.DeleteSecret db id = (none, db1)) :
    (∀ r ∈ (runCalls db1 calls).rows, r.ID ≠ u) ∧
    service.GetEncryptedSecretByID (runCalls db1 calls) id =
      (some Secret.zero,
        some (.errorf2 "failed to retrieve secret by ID '%s': %v" u.String .recordNotFound)) := by
  rw [DeleteSecret_eq db id u hu] at hd
  obtain ⟨rows, fault⟩ := db
  cases fault with
  | some e => simp at hd
  | none =>
    simp only [Prod.mk.injEq, true_and] at hd
    subst hd
    have h0 : ∀ r ∈ (⟨rows.filter (fun r => r.ID ≠ u), none⟩ : DB).rows, r.ID ≠ u := by
      intro r hr
      simpa using (List.mem_filter.1 hr).2
    obtain ⟨hf, hrows⟩ := runCalls_absent calls _ u h0
    refine ⟨hrows, ?_⟩
    rw [GetEncryptedSecretByID_eq _ id u hu hf,
      List.find?_eq_none.2 (fun r hr => by simpa using hrows r hr)]

/-- C24 at the table of `testStored` and `otherStored`: `testStored` is
deleted, then updated twice and deleted again. -/
theorem C24_deleted_is_terminal_witness :
    uuidParse testIDString = .ok testID ∧
    service.DeleteSecret ⟨[testStored, otherStored], none⟩ testIDString =
      (none, ⟨[otherStored], none⟩) ∧
    (∀ r ∈ (runCalls ⟨[otherStored], none⟩
        [.update 2 testIDString newPlainSecret testMasterKey testNonce,
         .delete testIDString,
         .update 3 testIDString testPlainTextSecret testMasterKey testNonce]).rows,
      r.ID ≠ testID) ∧
    service.GetEncryptedSecretByID
        (runCalls ⟨[otherStored], none⟩
          [.update 2 testIDString newPlainSecret testMasterKey testNonce,
           .delete testIDString,
           .update 3 testIDString testPlainTextSecret testMasterKey testNonce])
        testIDString =
      (some Secret.zero,
        some (.errorf2 "failed to retrieve secret by ID '%s': %v" testID.String
          .recordNotFound)) :=
  ⟨by rfl, by decide,
    C24_deleted_is_terminal ⟨[testStored, otherStored], none⟩ ⟨[otherStored], none⟩
      testIDString testID _ (by rfl) (by decide)⟩

/-! ## C25: the derived key and the errors of the cipher set-up -/

/-- C25, as stated, fails on a plaintext of 68,719,476,705 bytes and the empty
master key: the random source delivers the twelve bytes of the nonce, and
`Encrypt` does not return a blob; `Seal` panics. -/
theorem C25_counterexample :
    12 ≤ testNonce.length ∧
    Encrypt (List.replicate 68719476705 32) [] testNonce =
      .panicked "crypto/cipher: message too large for GCM" := by
  refine ⟨by decide, ?_⟩
  rw [Encrypt_eq, if_neg (by decide), if_pos]
  rw [List.length_replicate]
  decide

/-- C25 (amended): for every master key `k`, `createHash k` has 32 bytes, and
it is a function of `k`; `aes.NewCipher` and `cipher.NewGCM` return no error on
it. So the only error `Encrypt` returns is the error of the nonce, which it
returns exactly when the random source delivers fewer than twelve bytes; with
twelve bytes delivered it returns a blob for a plaintext of at most
`((1<<32)-2)*16` bytes and panics for a longer one. The only errors `Decrypt`
returns are the error of the decoding and the error of the authentication. -/
theorem C25_cipher_setup (k : GoString) :
    (createHash k).length = 32 ∧
    (∀ k', k' = k → createHash k' = createHash k) ∧
    aesNewCipher (createHash k) = .ok (masterCipher k) ∧
    cipherNewGCM (masterCipher k) =
      .ok { cipher := masterCipher k, nonceSize := 12, tagSize := 16 } ∧
    (∀ p rand c e, Encrypt p k rand = .returned (c, some e) →
      rand.length < 12 ∧ c = [] ∧ e = .errorf "failed to generate nonce: %v" .randRead) ∧
    (∀ p rand, rand.length < 12 →
      Encrypt p k rand =
        .returned ([], some (.errorf "failed to generate nonce: %v" .randRead))) ∧
    (∀ p rand, 12 ≤ rand.length → p.length ≤ gcmMaxPlaintext →
      Encrypt p k rand =
        .returned (hexEncodeToString (sealedBytes k (rand.take 12) p), none)) ∧
    (∀ p rand, 12 ≤ rand.length → gcmMaxPlaintext < p.length →
      Encrypt p k rand = .panicked "crypto/cipher: message too large for GCM") ∧
    (∀ s v e, Decrypt s k = .returned (v, some e) →
      (∃ err, hexDecodeString s = .error err ∧
        e = .errorf "failed to decode encrypted secret: %v" err) ∨
      ((∃ b, hexDecodeString s = .ok b) ∧ e = authError)) := by
  refine ⟨createHash_length k, fun k' h => by rw [h], aesNewCipher_createHash k,
    cipherNewGCM_eq _, fun p rand c e h => Encrypt_error p k c rand e h,
    fun p rand h => Encrypt_short_rand p k rand h,
    fun p rand hr hp => Encrypt_ok p k rand hr hp, fun p rand hr hp => ?_,
    fun s v e h => (Decrypt_error_cases s k v e h).2.2⟩
  rw [Encrypt_eq, if_neg (by omega), if_pos hp]

/-- C25 (amended) at the empty master key: `Encrypt` of the test plaintext
fails on a random source that delivers eleven bytes and returns a blob on
`testNonce`; `Decrypt` of a string that is not hexadecimal returns the error of
the decoding. -/
theorem C25_cipher_setup_witness :
    (createHash []).length = 32 ∧
    (Encrypt testPlainTextSecret [] (testNonce.take 11) =
      .returned ([], some (.errorf "failed to generate nonce: %v" .randRead))) ∧
    (Encrypt testPlainTextSecret [] testNonce =
      .returned (hexEncodeToString (sealedBytes [] (testNonce.take 12) testPlainTextSecret),
        none)) ∧
    (Encrypt (List.replicate 68719476705 32) [] testNonce =
      .panicked "crypto/cipher: message too large for GCM") ∧
    (Decrypt testBlobNotHex [] =
        .returned ([], some (.errorf "failed to decode encrypted secret: %v"
          (.hexInvalidByte 103))) ∧
      ((∃ err, hexDecodeString testBlobNotHex = .error err ∧
        GoError.errorf "failed to decode encrypted secret: %v" (.hexInvalidByte 103) =
          .errorf "failed to decode encrypted secret: %v" err) ∨
      ((∃ b, hexDecodeString testBlobNotHex = .ok b) ∧
        GoError.errorf "failed to decode encrypted secret: %v" (.hexInvalidByte 103) =
          authError))) :=
  have hd : Decrypt testBlobNotHex [] =
      .returned ([], some (.errorf "failed to decode encrypted secret: %v"
        (.hexInvalidByte 103))) := by
    have he : hexDecodeString testBlobNotHex = .error (.hexInvalidByte 103) := by rfl
    simp only [Decrypt, he]
  ⟨(C25_cipher_setup []).1,
    (C25_cipher_setup []).2.2.2.2.2.1 testPlainTextSecret (testNonce.take 11) (by decide),
    (C25_cipher_setup []).2.2.2.2.2.2.1 testPlainTextSecret testNonce (by decide) (by decide),
    (C25_cipher_setup []).2.2.2.2.2.2.2.1 (List.replicate 68719476705 32) testNonce (by decide)
      (by rw [List.length_replicate]; decide),
    hd, (C25_cipher_setup []).2.2.2.2.2.2.2.2 testBlobNotHex [] _ hd⟩

/-! ## C26: no newline, carriage return or tab after the hook -/

/-- C26: for every message, what `SanitizeHook.Fire` leaves in the entry holds
no newline, no carriage return and no tab. The three replacements copy every
byte but these three, for which they write a backslash and the letter `n`, `r`
or `t`; every byte of the final message is a byte of the message so escaped or
an asterisk of the masking steps. -/
theorem C26_no_control_characters (message : GoString) :
    ((10 : Byte) ∉ SanitizeHook.Fire message ∧ (13 : Byte) ∉ SanitizeHook.Fire message ∧
      (9 : Byte) ∉ SanitizeHook.Fire message) ∧
    escapeMessage message =
      message.flatMap (fun c =>
        if c = 10 then [92, 110] else if c = 13 then [92, 114]
        else if c = 9 then [92, 116] else [c]) ∧
    (∀ c ∈ SanitizeHook.Fire message, c ∈ escapeMessage message ∨ c = 42) := by
  have hmem : ∀ c ∈ SanitizeHook.Fire message, c ∈ escapeMessage message ∨ c = 42 :=
    fun c hc => mem_foldl_regexpReplaceAllString sensitivePatterns _ c hc
  have hclean : ∀ c ∈ SanitizeHook.Fire message, c ≠ 10 ∧ c ≠ 13 ∧ c ≠ 9 := by
    intro c hc
    rcases hmem c hc with h | h
    · exact escapeMessage_clean message c h
    · subst h
      decide
  exact ⟨⟨fun h => (hclean 10 h).1 rfl, fun h => (hclean 13 h).2.1 rfl,
    fun h => (hclean 9 h).2.2 rfl⟩, escapeMessage_eq message, hmem⟩

set_option maxRecDepth 100000 in
/-- C26 at a message of three lines with a tab: the hook leaves
`user=bob\nkey = *****`, the backslash and the `n` being two characters. -/
theorem C26_no_control_characters_witness :
    SanitizeHook.Fire (goString "user=bob\nkey = v1\tv2\r\nend") =
      goString "user=bob\\nkey = *****" ∧
    ((10 : Byte) ∉ SanitizeHook.Fire (goString "user=bob\nkey = v1\tv2\r\nend") ∧
      (13 : Byte) ∉ SanitizeHook.Fire (goString "user=bob\nkey = v1\tv2\r\nend") ∧
      (9 : Byte) ∉ SanitizeHook.Fire (goString "user=bob\nkey = v1\tv2\r\nend")) ∧
    escapeMessage (goString "user=bob\nkey = v1\tv2\r\nend") =
      (goString "user=bob\nkey = v1\tv2\r\nend").flatMap (fun c =>
        if c = 10 then [92, 110] else if c = 13 then [92, 114]
        else if c = 9 then [92, 116] else [c]) ∧
    (∀ c ∈ SanitizeHook.Fire (goString "user=bob\nkey = v1\tv2\r\nend"),
      c ∈ escapeMessage (goString "user=bob\nkey = v1\tv2\r\nend") ∨ c = 42) :=
  ⟨by decide!, C26_no_control_characters (goString "user=bob\nkey = v1\tv2\r\nend")⟩

/-! ## C27: the value of a label is masked -/

/-- C27: for a label `L` that is `password`, `token`, `apikey`, `api_key`,
`api-key`, `master`, `key` or `secret` with its letters in any case, and a
value `v` that is not empty and holds no space and no form feed,
`SanitizeHook.Fire` makes `L=*****` of the message `L=v`. -/
theorem C27_masks_value (label L v : GoString)
    (hlabel : label ∈ [goString "password", goString "token", goString "apikey",
      goString "api_key", goString "api-key", goString "master", goString "key",
      goString "secret"])
    (hL : L.map asciiLower = label) (hv : v ≠ []) (h32 : (32 : Byte) ∉ v)
    (h12 : (12 : Byte) ∉ v) :
    SanitizeHook.Fire (L ++ goString "=" ++ v) = L ++ goString "=*****" := by
  have hform : L ++ goString "=" ++ v = L ++ 61 :: v := by
    rw [List.append_assoc]
    rfl
  rw [hform]
  simp only [List.mem_cons, List.mem_singleton, List.not_mem_nil, or_false] at hlabel
  rcases hlabel with h | h | h | h | h | h | h | h <;> subst h
  · exact Fire_labelled L v (label_bytes _ L hL (letters_label _ letters_password))
      [] _ (labelOf "password") rfl (fun s => matchLabel_labelOf _ letters_password L hL s)
      hv h32 h12
  · exact Fire_labelled L v (label_bytes _ L hL (letters_label _ letters_token))
      [labelOf "password"] _ (labelOf "token") rfl
      (fun s => matchLabel_labelOf _ letters_token L hL s) hv h32 h12
  · exact Fire_labelled L v (label_bytes _ L hL letters_apikey)
      [labelOf "password", labelOf "token"] _
      (labelOf "api" ++ [[[45], [95], []]] ++ labelOf "key") rfl
      (fun s => matchLabel_apikey L hL s) hv h32 h12
  · exact Fire_labelled L v (label_bytes _ L hL letters_api_key)
      [labelOf "password", labelOf "token"] _
      (labelOf "api" ++ [[[45], [95], []]] ++ labelOf "key") rfl
      (fun s => matchLabel_api_separator L 95 (Or.inr rfl) (hL.trans (by rfl)) s) hv h32 h12
  · exact Fire_labelled L v (label_bytes _ L hL letters_api_hyphen_key)
      [labelOf "password", labelOf "token"] _
      (labelOf "api" ++ [[[45], [95], []]] ++ labelOf "key") rfl
      (fun s => matchLabel_api_separator L 45 (Or.inl rfl) (hL.trans (by rfl)) s) hv h32 h12
  · exact Fire_labelled L v (label_bytes _ L hL (letters_label _ letters_master))
      [labelOf "password", labelOf "token",
        labelOf "api" ++ [[[45], [95], []]] ++ labelOf "key"] _ (labelOf "master") rfl
      (fun s => matchLabel_labelOf _ letters_master L hL s) hv h32 h12
  · exact Fire_labelled L v (label_bytes _ L hL (letters_label _ letters_key))
      [labelOf "password", labelOf "token",
        labelOf "api" ++ [[[45], [95], []]] ++ labelOf "key", labelOf "master"] _
      (labelOf "key") rfl (fun s => matchLabel_labelOf _ letters_key L hL s) hv h32 h12
  · exact Fire_labelled L v (label_bytes _ L hL (letters_label _ letters_secret))
      [labelOf "password", labelOf "token",
        labelOf "api" ++ [[[45], [95], []]] ++ labelOf "key", labelOf "master",
        labelOf "key"] _
      (labelOf "secret") rfl (fun s => matchLabel_labelOf _ letters_secret L hL s) hv h32 h12

set_option maxRecDepth 100000 in
/-- C27 at the label `Api_Key` and the value `token=a1=b2`, which holds the
label of an earlier pattern and two signs `=`. -/
theorem C27_masks_value_witness :
    goString "api_key" ∈ [goString "password", goString "token", goString "apikey",
      goString "api_key", goString "api-key", goString "master", goString "key",
      goString "secret"] ∧
    (goString "Api_Key").map asciiLower = goString "api_key" ∧
    goString "token=a1=b2" ≠ [] ∧ (32 : Byte) ∉ goString "token=a1=b2" ∧
    (12 : Byte) ∉ goString "token=a1=b2" ∧
    SanitizeHook.Fire (goString "Api_Key" ++ goString "=" ++ goString "token=a1=b2") =
      goString "Api_Key" ++ goString "=*****" :=
  ⟨by decide!, by decide!, by decide!, by decide!, by decide!,
    C27_masks_value (goString "api_key") (goString "Api_Key") (goString "token=a1=b2")
      (by decide!) (by decide!) (by decide!) (by decide!) (by decide!)⟩

/-! ## C28: the strings `getSecretFromQuery` takes for identifiers -/

/-- C28: a query `uuid.Parse` accepts is looked up as an identifier, and only
so. For every identifier `u`, `uuid.Parse` returns `u` for its canonical form,
for its 32 hexadecimal digits, for the canonical form after `urn:uuid:` and for
the canonical form between braces, each with its letters in any case. So when
a record has such a string for key, no row has the identifier the key denotes,
and the connection works, `getSecretFromQuery` of the key fails with the
not-found error, while `GetEncryptedSecretByKey` of the key returns the
record. -/
theorem C28_identifier_shapes :
    (∀ db q u, uuidParse q = .ok u →
      getSecretFromQuery db q =
        ([.GetEncryptedSecretByID q], service.GetEncryptedSecretByID db q)) ∧
    (∀ u t, t.map asciiLower = u.String → uuidParse t = .ok u) ∧
    (∀ u t, t.map asciiLower = hexEncodeToString u.bytes → uuidParse t = .ok u) ∧
    (∀ u t, t.map asciiLower = goString "urn:uuid:" ++ u.String → uuidParse t = .ok u) ∧
    (∀ u t, t.map asciiLower = goString "\x7b" ++ u.String ++ goString "\x7d" →
      uuidParse t = .ok u) ∧
    (∀ db key u r, uuidParse key = .ok u → db.fault = none → (∀ x ∈ db.rows, x.ID ≠ u) →
      db.rows.find? (fun x => x.Key = key) = some r →
      getSecretFromQuery db key =
        ([.GetEncryptedSecretByID key],
          some Secret.zero,
          some (.errorf2 "failed to retrieve secret by ID '%s': %v" u.String .recordNotFound)) ∧
      service.GetEncryptedSecretByKey db key = (some r, none)) := by
  refine ⟨fun db q u h => getSecretFromQuery_ok db q u h,
    fun u t h => uuidParse_map_asciiLower t u (by rw [h]; exact uuidParse_String u),
    fun u t h => uuidParse_map_asciiLower t u (by rw [h]; exact uuidParse_hex32 u),
    fun u t h => uuidParse_map_asciiLower t u (by rw [h]; exact uuidParse_urn u),
    fun u t h => uuidParse_map_asciiLower t u (by rw [h]; exact uuidParse_braces u 123 125),
    fun db key u r hu hf hid hkey => ?_⟩
  rw [getSecretFromQuery_ok db key u hu, GetEncryptedSecretByID_eq db key u hu hf,
    List.find?_eq_none.2 (fun x hx => by simpa using hid x hx),
    GetEncryptedSecretByKey_eq db key hf, hkey]
  exact ⟨rfl, rfl⟩

/-- C28 at the identifier `uuidShapedID`, written with upper-case letters in
the four forms, and at the table that holds the test record under the key
`hexShapedKey`: the lookup of the key as a query fails, the lookup by key
returns the record. -/
theorem C28_identifier_shapes_witness :
    uuidParse (goString "20212223-2425-4627-A829-2A2B2C2D2E2F") = .ok uuidShapedID ∧
    uuidParse hexShapedKey = .ok uuidShapedID ∧
    uuidParse (goString "URN:UUID:20212223-2425-4627-A829-2A2B2C2D2E2F") = .ok uuidShapedID ∧
    uuidParse (goString "\x7b20212223-2425-4627-A829-2A2B2C2D2E2F\x7d") = .ok uuidShapedID ∧
    hexShapedStored.ID ≠ uuidShapedID ∧
    getSecretFromQuery ⟨[hexShapedStored], none⟩ hexShapedKey =
      ([.GetEncryptedSecretByID hexShapedKey],
        some Secret.zero,
        some (.errorf2 "failed to retrieve secret by ID '%s': %v" uuidShapedID.String
          .recordNotFound)) ∧
    service.GetEncryptedSecretByKey ⟨[hexShapedStored], none⟩ hexShapedKey =
      (some hexShapedStored, none) :=
  ⟨C28_identifier_shapes.2.1 uuidShapedID _ (by decide),
    C28_identifier_shapes.2.2.1 uuidShapedID _ (by decide),
    C28_identifier_shapes.2.2.2.1 uuidShapedID _ (by decide),
    C28_identifier_shapes.2.2.2.2.1 uuidShapedID _ (by decide),
    by decide,
    C28_identifier_shapes.2.2.2.2.2 ⟨[hexShapedStored], none⟩ hexShapedKey uuidShapedID
      hexShapedStored (C28_identifier_shapes.2.2.1 uuidShapedID _ (by decide)) rfl
      (by decide) (by decide)⟩

/-! ## C29: an update under another master key -/

/-- C29, as stated, fails for the master keys `not-the-true-key` and
`test-master-key-1234`: the test suite's secret is created under the first and
updated under the second with the plaintext `.J4~Q2@?q^jg21db`, the nonce being
`twoKeyNonce`; the update succeeds, and `DecryptSecret` of the fetched record
under the first master key returns no error: the tag of the new blob is right
under both derived keys, and sixteen other bytes are returned. -/
theorem C29_counterexample :
    service.CreateSecret ⟨[], none⟩ 1 testKey testPlainTextSecret wrongMasterKey testRand =
      .returned ((testIDString, testKey, none), ⟨[wrongKeyStored], none⟩) ∧
    testMasterKey ≠ wrongMasterKey ∧
    service.UpdateSecret ⟨[wrongKeyStored], none⟩ 2 testIDString twoKeyPlaintext testMasterKey
        twoKeyNonce =
      .returned (none,
        ⟨[{ wrongKeyStored with EncryptedValue := twoKeyBlob, UpdatedAt := 2 }], none⟩) ∧
    service.GetEncryptedSecretByID
        ⟨[{ wrongKeyStored with EncryptedValue := twoKeyBlob, UpdatedAt := 2 }], none⟩
        testIDString =
      (some { wrongKeyStored with EncryptedValue := twoKeyBlob, UpdatedAt := 2 }, none) ∧
    service.DecryptSecret { wrongKeyStored with EncryptedValue := twoKeyBlob, UpdatedAt := 2 }
        wrongMasterKey =
      .returned ([234, 57, 175, 245, 220, 118, 121, 215, 49, 84, 23, 124, 87, 248, 215, 197],
        none) := by
  refine ⟨CreateSecret_wrong_key_vector, by decide, ?_, by decide,
    DecryptSecret_of_Decrypt_ok _ _ _ Decrypt_two_key_vector⟩
  rw [UpdateSecret_eq _ 2 testIDString twoKeyPlaintext testMasterKey twoKeyNonce testID (by rfl)
    (by decide) (by decide), twoKeyBlob_sealed]
  decide

/-- C29 (amended): `UpdateSecret` does not look at the master key the secret
was created with. After `CreateSecret key v1 m1` has returned `id`, for every
master key `m2`, equal to `m1` or not, every plaintext `v2` of at most
`((1<<32)-2)*16` bytes and every random source that delivers the nonce,
`UpdateSecret id v2 m2` succeeds and `GetEncryptedSecretByID id` then returns a
record which `DecryptSecret` decrypts to `v2` under `m2`; under `m1` it
returns the authentication error when the tag of the new ciphertext computed
with the key derived from `m1` differs from the stored tag, and no error, with
the ciphertext xor the key stream of `m1`, when the two tags are equal. -/
theorem C29_update_under_other_key (db db1 : DB) (now1 now2 : Time)
    (key v1 v2 m1 m2 id key' : GoString) (rand1 rand2 : Bytes)
    (hc : service.CreateSecret db now1 key v1 m1 rand1 = .returned ((id, key', none), db1))
    (hr : 12 ≤ rand2.length) (hp : v2.length ≤ gcmMaxPlaintext) :
    ∃ db2 r, service.UpdateSecret db1 now2 id v2 m2 rand2 = .returned (none, db2) ∧
      service.GetEncryptedSecretByID db2 id = (some r, none) ∧
      service.DecryptSecret r m2 = .returned (v2, none) ∧
      (gcmAuth (masterCipher m1) (rand2.take 12)
          (gcmCounterCrypt (masterCipher m2) (rand2.take 12) v2) ≠
        gcmAuth (masterCipher m2) (rand2.take 12)
          (gcmCounterCrypt (masterCipher m2) (rand2.take 12) v2) →
        service.DecryptSecret r m1 =
          .returned ([], some (.errorf "failed to decrypt secret: %v" authError))) ∧
      (gcmAuth (masterCipher m1) (rand2.take 12)
          (gcmCounterCrypt (masterCipher m2) (rand2.take 12) v2) =
        gcmAuth (masterCipher m2) (rand2.take 12)
          (gcmCounterCrypt (masterCipher m2) (rand2.take 12) v2) →
        service.DecryptSecret r m1 =
          .returned (gcmCounterCrypt (masterCipher m1) (rand2.take 12)
            (gcmCounterCrypt (masterCipher m2) (rand2.take 12) v2), none)) := by
  obtain ⟨db2, hu, hg⟩ :=
    fetch_after_create_update db db1 now1 now2 key v1 v2 m1 m2 id key' rand1 rand2 hc hr hp
  have hn : (rand2.take 12).length = 12 := by rw [List.length_take]; omega
  refine ⟨db2, _, hu, hg, ?_, fun ht => ?_, fun ht => ?_⟩
  · exact DecryptSecret_of_Decrypt_ok _ m2 v2 (Decrypt_sealedBytes v2 m2 (rand2.take 12) hn hp)
  · apply DecryptSecret_of_Decrypt_error _ m1 []
    simp only
    rw [Decrypt_sealedBytes_other_key v2 m2 m1 (rand2.take 12) hn hp, if_pos ht]
  · apply DecryptSecret_of_Decrypt_ok _ m1
    simp only
    rw [Decrypt_sealedBytes_other_key v2 m2 m1 (rand2.take 12) hn hp, if_neg (not_not.2 ht)]

/-- C29 (amended) at the test suite: the secret is created under
`not-the-true-key` and updated under `test-master-key-1234` with
`this-secret-was-updated`. -/
theorem C29_update_under_other_key_witness :
    service.CreateSecret ⟨[], none⟩ 1 testKey testPlainTextSecret wrongMasterKey testRand =
      .returned ((testIDString, testKey, none), ⟨[wrongKeyStored], none⟩) ∧
    12 ≤ testNonce.length ∧ newPlainSecret.length ≤ gcmMaxPlaintext ∧
    ∃ db2 r,
      service.UpdateSecret ⟨[wrongKeyStored], none⟩ 2 testIDString newPlainSecret testMasterKey
        testNonce = .returned (none, db2) ∧
      service.GetEncryptedSecretByID db2 testIDString = (some r, none) ∧
      service.DecryptSecret r testMasterKey = .returned (newPlainSecret, none) ∧
      (gcmAuth (masterCipher wrongMasterKey) (testNonce.take 12)
          (gcmCounterCrypt (masterCipher testMasterKey) (testNonce.take 12) newPlainSecret) ≠
        gcmAuth (masterCipher testMasterKey) (testNonce.take 12)
          (gcmCounterCrypt (masterCipher testMasterKey) (testNonce.take 12) newPlainSecret) →
        service.DecryptSecret r wrongMasterKey =
          .returned ([], some (.errorf "failed to decrypt secret: %v" authError))) ∧
      (gcmAuth (masterCipher wrongMasterKey) (testNonce.take 12)
          (gcmCounterCrypt (masterCipher testMasterKey) (testNonce.take 12) newPlainSecret) =
        gcmAuth (masterCipher testMasterKey) (testNonce.take 12)
          (gcmCounterCrypt (masterCipher testMasterKey) (testNonce.take 12) newPlainSecret) →
        service.DecryptSecret r wrongMasterKey =
          .returned (gcmCounterCrypt (masterCipher wrongMasterKey) (testNonce.take 12)
            (gcmCounterCrypt (masterCipher testMasterKey) (testNonce.take 12) newPlainSecret),
              none)) :=
  ⟨CreateSecret_wrong_key_vector, by decide, by decide,
    C29_update_under_other_key ⟨[], none⟩ ⟨[wrongKeyStored], none⟩ 1 2 testKey
      testPlainTextSecret newPlainSecret wrongMasterKey testMasterKey testIDString testKey
      testRand testNonce CreateSecret_wrong_key_vector (by decide) (by decide)⟩

/-! ## C30: a string that is no identifier -/

/-- C30: when `uuid.Parse` rejects the string `id` with the error `e`,
`GetEncryptedSecretByID`, `UpdateSecret` and `DeleteSecret` return the error
`invalid UUID format: e`; each passes that error to the logger and calls no
method of the repository, and the table is as it was. `GetEncryptedSecretByID`
returns with it a pointer to the zero `Secret`: the nil identifier, the empty
key and the empty value. -/
theorem C30_unparsable_id (db : DB) (now : Time) (id p k : GoString) (rand : Bytes)
    (e : GoError) (h : uuidParse id = .error e) :
    service.GetEncryptedSecretByID db id =
      (some Secret.zero, some (.errorf "invalid UUID format: %v" e)) ∧
    Secret.zero.ID = UUID.Nil ∧ Secret.zero.Key = [] ∧ Secret.zero.EncryptedValue = [] ∧
    service.UpdateSecret db now id p k rand =
      .returned (some (.errorf "invalid UUID format: %v" e), db) ∧
    service.DeleteSecret db id = (some (.errorf "invalid UUID format: %v" e), db) ∧
    service.GetEncryptedSecretByID.events db id =
      [.log .error (.errorf "invalid UUID format: %v" e)] ∧
    service.UpdateSecret.events db now id p k rand =
      [.log .error (.errorf "invalid UUID format: %v" e)] ∧
    service.DeleteSecret.events db id =
      [.log .error (.errorf "invalid UUID format: %v" e)] ∧
    ∀ call, .repo call ∉ service.GetEncryptedSecretByID.events db id ∧
      .repo call ∉ service.UpdateSecret.events db now id p k rand ∧
      .repo call ∉ service.DeleteSecret.events db id := by
  have h1 : service.GetEncryptedSecretByID.events db id =
      [.log .error (.errorf "invalid UUID format: %v" e)] := by
    simp only [service.GetEncryptedSecretByID.events, h]
  have h2 : service.UpdateSecret.events db now id p k rand =
      [.log .error (.errorf "invalid UUID format: %v" e)] := by
    simp only [service.UpdateSecret.events, h]
  have h3 : service.DeleteSecret.events db id =
      [.log .error (.errorf "invalid UUID format: %v" e)] := by
    simp only [service.DeleteSecret.events, h]
  refine ⟨by simp only [service.GetEncryptedSecretByID, h], rfl, rfl, rfl,
    by simp only [service.UpdateSecret, h], by simp only [service.DeleteSecret, h],
    h1, h2, h3, fun call => ?_⟩
  rw [h1, h2, h3]
  simp

/-- C30 at the string `my-secret-key`, of thirteen characters, and the table
of the test suite's record. -/
theorem C30_unparsable_id_witness :
    uuidParse testKey = .error (.uuidInvalidLength 13) ∧
    service.GetEncryptedSecretByID ⟨[testStored], none⟩ testKey =
      (some Secret.zero, some (.errorf "invalid UUID format: %v" (.uuidInvalidLength 13))) ∧
    Secret.zero.ID = UUID.Nil ∧ Secret.zero.Key = [] ∧ Secret.zero.EncryptedValue = [] ∧
    service.UpdateSecret ⟨[testStored], none⟩ 2 testKey newPlainSecret testMasterKey testNonce =
      .returned (some (.errorf "invalid UUID format: %v" (.uuidInvalidLength 13)),
        ⟨[testStored], none⟩) ∧
    service.DeleteSecret ⟨[testStored], none⟩ testKey =
      (some (.errorf "invalid UUID format: %v" (.uuidInvalidLength 13)),
        ⟨[testStored], none⟩) ∧
    service.GetEncryptedSecretByID.events ⟨[testStored], none⟩ testKey =
      [.log .error (.errorf "invalid UUID format: %v" (.uuidInvalidLength 13))] ∧
    service.UpdateSecret.events ⟨[testStored], none⟩ 2 testKey newPlainSecret testMasterKey
        testNonce =
      [.log .error (.errorf "invalid UUID format: %v" (.uuidInvalidLength 13))] ∧
    service.DeleteSecret.events ⟨[testStored], none⟩ testKey =
      [.log .error (.errorf "invalid UUID format: %v" (.uuidInvalidLength 13))] ∧
    ∀ call, .repo call ∉ service.GetEncryptedSecretByID.events ⟨[testStored], none⟩ testKey ∧
      .repo call ∉ service.UpdateSecret.events ⟨[testStored], none⟩ 2 testKey newPlainSecret
        testMasterKey testNonce ∧
      .repo call ∉ service.DeleteSecret.events ⟨[testStored], none⟩ testKey :=
  ⟨by rfl, C30_unparsable_id ⟨[testStored], none⟩ 2 testKey newPlainSecret testMasterKey
    testNonce (.uuidInvalidLength 13) (by rfl)⟩

end Lockbox
